import Mathlib

/-!
# libuci `list.c`: element lists, pointer lookup and the mutating operations

A shallow embedding of `list.c` of libuci and theorems about it.

Conventions of the embedding.

* A C string is a `String` whose characters are the bytes of the C string
  (`strcmp(a, b) == 0` is `a = b`, `strlen` is `String.length`); a `char *`
  that may be `NULL` is an `Option String`.
* An intrusive `uci_list` is the `List` of its elements in iteration order.
  A pointer to an element of a list is its 0-based position in that list at
  the time of the call: `ptr->p` indexes `ctx->root`, `ptr->s` the sections
  of that package, `ptr->o` the options of that section.
* An operation returns the code it returns or throws together with the
  context and the pointer as it leaves them.  `FAULT` stands for a run in
  which the C code dereferences `NULL` or a dangling pointer or reads an
  uninitialised variable: such a run returns nothing.
* Allocation never fails (`UCI_ERR_MEM` is outside the embedding).
* The counter `n_section` (an `int`) is an unbounded integer: it would
  overflow only past `2 ^ 31 - 1` live sections.  The decrement of the list
  index in `uci_delete` is written with its 32-bit wrap-around (`to_int32`);
  the other `int` counters (`pos`, `idx`, `c`) stay in the range of `int` on
  lists of fewer than `2 ^ 31` elements, or are not read after they leave it.
* What `list.c` uses and does not define is a parameter (`uci_platform`) or
  a definition marked as modelled from the spec.
-/

namespace Uci

/-! ## Data model (`uci.h`) -/

/-- Result of an operation: `UCI_OK`, the literal `return 1` of `uci_delete`,
the two errors `list.c` throws, and `FAULT` for undefined behaviour. -/
inductive uci_rc
  | UCI_OK
  | RET_1
  | UCI_ERR_INVAL
  | UCI_ERR_NOTFOUND
  | FAULT
  deriving DecidableEq, Repr

/-- The element kinds an `uci_element *` of a pointer can have. -/
inductive uci_type
  | UCI_TYPE_PACKAGE
  | UCI_TYPE_SECTION
  | UCI_TYPE_OPTION
  deriving DecidableEq, Repr

/-- Commands of a delta record. -/
inductive uci_command
  | UCI_CMD_ADD
  | UCI_CMD_REMOVE
  | UCI_CMD_CHANGE
  | UCI_CMD_RENAME
  | UCI_CMD_REORDER
  | UCI_CMD_LIST_ADD
  | UCI_CMD_LIST_DEL
  deriving DecidableEq, Repr

/-- Record `struct uci_delta`: command, section name, optional option name
(the element name) and optional value. -/
structure uci_delta where
  cmd : uci_command
  section_ : String
  name : Option String
  value : Option String
  deriving DecidableEq, Repr

/-- Value of an option (`o->type` with `o->v`): one string, or the names of
the `UCI_TYPE_ITEM` elements of `o->v.list` in order. -/
inductive uci_option_v
  | string (s : String)
  | list (items : List String)
  deriving DecidableEq, Repr

/-- Record `struct uci_option`: element name and value.  The owning section
is the section whose `options` holds it. -/
structure uci_option where
  name : Option String
  v : uci_option_v
  deriving DecidableEq, Repr

/-- Record `struct uci_section`.  The owning package is the package whose
`sections` holds it. -/
structure uci_section where
  name : Option String
  type : String
  anonymous : Bool
  options : List uci_option
  deriving DecidableEq, Repr

/-- Record `struct uci_package`. -/
structure uci_package where
  name : Option String
  sections : List uci_section
  n_section : Int
  has_delta : Bool
  delta : List uci_delta
  saved_delta : List uci_delta
  deriving DecidableEq, Repr

/-- The part of `struct uci_context` that `list.c` reads and writes. -/
structure uci_context where
  root : List uci_package
  internal : Bool
  deriving DecidableEq, Repr

/-- Record `struct uci_ptr`.  The three `flags` bits are separate fields;
`last` records the kind of the element `ptr->last` points to;
`section_alias` says that the string pointer `ptr->section` is the very
buffer `ptr->s->e.name` (it was filled in from the section), which the
pointer comparison of `uci_set` tests. -/
structure uci_ptr where
  lookup_done : Bool
  lookup_complete : Bool
  lookup_extended : Bool
  p : Option Nat
  s : Option Nat
  o : Option Nat
  last : Option uci_type
  package : Option String
  section_ : Option String
  option : Option String
  value : Option String
  section_alias : Bool
  deriving DecidableEq, Repr

/-- The pointer after `memset(ptr, 0, sizeof(struct uci_ptr))`. -/
def uci_ptr_zero : uci_ptr :=
  { lookup_done := false, lookup_complete := false, lookup_extended := false,
    p := none, s := none, o := none, last := none,
    package := none, section_ := none, option := none, value := none,
    section_alias := false }

/-- What `list.c` takes from outside the file: the type-name check of
`util.c`, the package loader behind `uci_load`, and two properties of the
C platform (signedness of `char`, number of bits of `long`). -/
structure uci_platform where
  uci_validate_type : String → Bool
  uci_load : String → Option uci_package
  char_signed : Bool
  long_bits : Nat

/-! ## List primitives (`uci.h`) -/

/-- Insert `x` at position `k` of a list (at the end when `k` is past it). -/
def list_insert_at {α : Type} (l : List α) (k : Nat) (x : α) : List α :=
  l.take k ++ x :: l.drop k

/-- The element before `x` in the ring, `none` standing for the list head. -/
def uci_list_prev {α : Type} [DecidableEq α] : List α → α → Option α
  | [], _ => none
  | [_], _ => none
  | a :: b :: rest, x =>
    if a = x then none else if b = x then some a else uci_list_prev (b :: rest) x

/-- Helper `uci_list_del`: unlink the node `x`. -/
def uci_list_del {α : Type} [DecidableEq α] (l : List α) (x : α) : List α :=
  l.erase x

/-- Helper `uci_list_insert(list, ptr)`: link `x` right after the node `after`
(`none`: right after the list head). -/
def uci_list_insert {α : Type} [DecidableEq α] : List α → Option α → α → List α
  | l, none, x => x :: l
  | [], some _, _ => []
  | a :: rest, some b, x => if a = b then a :: x :: rest else a :: uci_list_insert rest (some b) x

/-- The `uci_foreach_element` loop of `uci_list_set_pos`: the node the walk
stops after (`new_head`), `none` standing for the list head. -/
def set_pos_walk {α : Type} : List α → Int → Option α → Option α
  | [], _, new_head => new_head
  | p :: rest, pos, new_head => if pos ≤ 0 then new_head else set_pos_walk rest (pos - 1) (some p)

/-- Function `uci_list_set_pos(head, ptr, pos)` on a list of distinct nodes:
the list afterwards and the returned flag `old_head != new_head`.
`uci_list_add(new_head->next, ptr)` links `ptr` before `new_head->next`,
that is right after `new_head`. -/
def uci_list_set_pos {α : Type} [DecidableEq α] (head : List α) (ptr : α) (pos : Int) :
    List α × Bool :=
  let old_head := uci_list_prev head ptr
  let rest := uci_list_del head ptr
  let new_head := set_pos_walk rest pos none
  (uci_list_insert rest new_head ptr, decide (old_head ≠ new_head))

/-! ## C library functions used by `list.c` -/

/-- C `isspace` in the "C" locale. -/
def c_isspace (c : Char) : Bool :=
  c.toNat = 32 || (9 ≤ c.toNat && c.toNat ≤ 13)

/-- C `isdigit`. -/
def c_isdigit (c : Char) : Bool :=
  48 ≤ c.toNat && c.toNat ≤ 57

/-- C `strchr(s, c)` for `c` other than NUL: the characters before the first
`c` and those after it, `none` when `c` does not occur. -/
def c_strchr : List Char → Char → Option (List Char × List Char)
  | [], _ => none
  | a :: rest, c =>
    if a = c then some ([], rest)
    else match c_strchr rest c with
      | none => none
      | some (before, after) => some (a :: before, after)

/-- The run of decimal digits at the start of a string: its value added to
`acc` scaled, and the characters left. -/
def c_digits : List Char → Nat → Nat × List Char
  | [], acc => (acc, [])
  | c :: cs, acc =>
    if c_isdigit c then c_digits cs (acc * 10 + (c.toNat - 48)) else (acc, c :: cs)

/-- Skip leading white space. -/
def c_skip_space : List Char → List Char
  | [] => []
  | c :: cs => if c_isspace c then c_skip_space cs else c :: cs

/-- The optional sign after the white space: whether it is `-`, and the rest. -/
def c_sign : List Char → Bool × List Char
  | [] => (false, [])
  | c :: cs => if c = '-' then (true, cs) else if c = '+' then (false, cs) else (false, c :: cs)

/-- Clamp to the range of a `long` of `bits` bits. -/
def clamp_long (bits : Nat) (v : Int) : Int :=
  max (-(2 ^ (bits - 1) : Int)) (min v (2 ^ (bits - 1) - 1))

/-- Conversion of an integer to a 32-bit `int` (two's complement wrap). -/
def to_int32 (v : Int) : Int :=
  (v + 2 ^ 31) % 2 ^ 32 - 2 ^ 31

/-- C `strtol(s, &t, 10)`: the value and the unparsed rest `t`; without a
digit the value is `0` and `t` is `s`. -/
def c_strtol (bits : Nat) (s : List Char) : Int × List Char :=
  let (neg, body) := c_sign (c_skip_space s)
  match body with
  | [] => (0, s)
  | c :: _ =>
    if c_isdigit c then
      let (v, rest) := c_digits body 0
      (clamp_long bits (if neg then -(v : Int) else (v : Int)), rest)
    else (0, s)

/-- Result of `sscanf(s, "%d", &index)`. -/
inductive sscanf_d
  | eof
  | nomatch
  | conv (index : Int)
  deriving DecidableEq, Repr

/-- C `sscanf(s, "%d", &index)`: `EOF` when the input ends before a
conversion, `0` on a matching failure, else `1` with the converted `int`. -/
def c_sscanf_d (bits : Nat) (s : List Char) : sscanf_d :=
  match c_skip_space s with
  | [] => sscanf_d.eof
  | c :: cs =>
    let (neg, body) := c_sign (c :: cs)
    match body with
    | [] => sscanf_d.nomatch
    | d :: _ =>
      if c_isdigit d then
        sscanf_d.conv (to_int32 (clamp_long bits
          (if neg then -((c_digits body 0).1 : Int) else ((c_digits body 0).1 : Int))))
      else sscanf_d.nomatch

/-- Left-pad a list of digits with `'0'` to a minimum width. -/
def pad_zero (width : Nat) (ds : List Char) : List Char :=
  List.replicate (width - ds.length) '0' ++ ds

/-- Conversion `%0<width>x` of `sprintf` applied to an `unsigned int`. -/
def fmt_x (width : Nat) (v : Nat) : List Char :=
  pad_zero width (Nat.toDigits 16 v)

/-- Conversion `%d` of `sprintf`. -/
def fmt_d (v : Int) : String :=
  toString v

/-- An `int` passed where `%x` expects an `unsigned int`. -/
def to_uint32 (v : Int) : Nat :=
  (v % 2 ^ 32).toNat

/-! ## Element allocation and release -/

/-- Function `uci_alloc_package`: a package with empty lists and zeroed fields. -/
def uci_alloc_package (name : Option String) : uci_package :=
  { name := name, sections := [], n_section := 0, has_delta := false,
    delta := [], saved_delta := [] }

/-- Function `uci_alloc_option(s, name, value, after)`: a new string option
linked after position `after`, or at the tail when `after` is `NULL`. -/
def uci_alloc_option (s : uci_section) (name : Option String) (value : String)
    (after : Option Nat) : uci_section :=
  let o : uci_option := { name := name, v := uci_option_v.string value }
  match after with
  | some k => { s with options := list_insert_at s.options (k + 1) o }
  | none => { s with options := s.options ++ [o] }

/-- Function `uci_alloc_list(s, name, after)`: a new empty list option linked
after position `after`, or at the tail when `after` is `NULL`. -/
def uci_alloc_list (s : uci_section) (name : Option String) (after : Option Nat) :
    uci_section :=
  let o : uci_option := { name := name, v := uci_option_v.list [] }
  match after with
  | some k => { s with options := list_insert_at s.options (k + 1) o }
  | none => { s with options := s.options ++ [o] }

/-- Function `uci_free_option` on the option at position `k` of a section. -/
def uci_free_option (s : uci_section) (k : Nat) : uci_section :=
  { s with options := s.options.eraseIdx k }

/-- Function `uci_alloc_section(p, type, name, after)`: the package with the
new section linked after position `after` (at the tail when `NULL`) and the
counter incremented.  An empty name counts as no name. -/
def uci_alloc_section (p : uci_package) (type : String) (name : Option String)
    (after : Option Nat) : uci_package :=
  let name := if name = some "" then none else name
  let s : uci_section :=
    { name := name, type := type, anonymous := name.isNone, options := [] }
  match after with
  | some k => { p with sections := list_insert_at p.sections (k + 1) s,
                       n_section := p.n_section + 1 }
  | none => { p with sections := p.sections ++ [s], n_section := p.n_section + 1 }

/-- Function `uci_free_section` on the section at position `k`: its options
go with it, the counter is decremented, the section is unlinked. -/
def uci_free_section (p : uci_package) (k : Nat) : uci_package :=
  { p with sections := p.sections.eraseIdx k, n_section := p.n_section - 1 }

/-- Function `uci_section_transfer_options(dst, src)`: `dst` takes over the
option list of `src`, which is left empty. -/
def uci_section_transfer_options (dst src : uci_section) : uci_section × uci_section :=
  ({ dst with options := src.options }, { src with options := [] })

/-! ## Anonymous section names -/

/-- The value `str[i]` contributes to the unsigned sum in `djbhash`. -/
def char_to_uint (char_signed : Bool) (c : Char) : Nat :=
  let b := c.toNat % 256
  if char_signed && 128 ≤ b then 2 ^ 32 - 256 + b else b

/-- Function `djbhash(hash, str)` on 32-bit `unsigned int`. -/
def djbhash (char_signed : Bool) (hash : Nat) (str : String) : Nat :=
  let hash := if hash = 0xFFFFFFFF then 5381 else hash
  let hash := str.data.foldl
    (fun h c => (((h <<< 5) % 2 ^ 32 + h) % 2 ^ 32 + char_to_uint char_signed c) % 2 ^ 32) hash
  hash &&& 0x7FFFFFFF

/-- The `uci_foreach_element` loop of `uci_fixup_section` over the options;
`none` when an option without a name is reached (`strlen(NULL)`). -/
def fixup_hash_options (char_signed : Bool) : List uci_option → Nat → Option Nat
  | [], hash => some hash
  | o :: rest, hash =>
    match o.name with
    | none => none
    | some n =>
      let hash := djbhash char_signed hash n
      match o.v with
      | uci_option_v.string v => fixup_hash_options char_signed rest (djbhash char_signed hash v)
      | uci_option_v.list _ => fixup_hash_options char_signed rest hash

/-- The hash `uci_fixup_section` computes for a section. -/
def fixup_hash (char_signed : Bool) (s : uci_section) : Option Nat :=
  fixup_hash_options char_signed s.options (djbhash char_signed 0xFFFFFFFF s.type)

/-- The string `sprintf(buf, "cfg%02x%04x", n_section, hash % (1 << 16))` writes. -/
def fixup_name (n_section : Int) (hash : Nat) : String :=
  String.mk (['c', 'f', 'g'] ++ fmt_x 2 (to_uint32 n_section) ++ fmt_x 4 (hash % (1 <<< 16)))

/-- Function `uci_fixup_section(ctx, s)` for a section `s` of a package whose
counter is `n_section`: the section afterwards, `none` for a fault. -/
def uci_fixup_section (char_signed : Bool) (n_section : Int) (s : uci_section) :
    Option uci_section :=
  if s.name.isSome then some s
  else
    match fixup_hash char_signed s with
    | none => none
    | some hash => some { s with name := some (fixup_name n_section hash) }

/-! ## Lookup -/

/-- Result of a search in an element list: a fault (`strcmp` on `NULL`),
`NULL`, or the position of the element found. -/
inductive lookup_res
  | fault
  | null
  | elem (i : Nat)
  deriving DecidableEq, Repr

/-- The position found by the rest of a search, seen from one element earlier. -/
def lookup_res.shift : lookup_res → lookup_res
  | lookup_res.elem i => lookup_res.elem (i + 1)
  | r => r

/-- Function `uci_lookup_list(list, name)` on the names of the elements of
`list`: the first element whose name equals `name`. -/
def uci_lookup_list : List (Option String) → Option String → lookup_res
  | [], _ => lookup_res.null
  | e :: rest, name =>
    match e, name with
    | some en, some n =>
      if en = n then lookup_res.elem 0 else (uci_lookup_list rest name).shift
    | _, _ => lookup_res.fault

/-- The parsing part of `uci_lookup_ext_section` on the string
`ptr->section`: the optional type filter `name` and the index `idx`, or
`none` where the code jumps to `error`. -/
def ext_parse (pf : uci_platform) (sect : String) : Option (Option String × Int) :=
  match sect.data with
  | [] => none
  | c0 :: rest =>
    if c0 ≠ '@' then none
    else
      match c_strchr rest '[' with
      | none => none
      | some (name, idxstr) =>
        match c_strchr idxstr ']' with
        | none => none
        | some (idxstr, t1) =>
          if t1 ≠ [] then none
          else
            let (v, t) := c_strtol pf.long_bits idxstr
            if t ≠ [] then none
            else if name = [] then some (none, to_int32 v)
            else if !pf.uci_validate_type (String.mk name) then none
            else some (some (String.mk name), to_int32 v)

/-- The test `name && (strcmp(s->type, name) != 0)` that makes both loops of
`uci_lookup_ext_section` skip a section. -/
def ext_skip (name : Option String) (s : uci_section) : Bool :=
  match name with
  | some n => decide (s.type ≠ n)
  | none => false

/-- The counting loop of `uci_lookup_ext_section` for a negative index: `c`
after the loop. -/
def ext_count (name : Option String) : List uci_section → Int → Int
  | [], c => c
  | s :: rest, c =>
    if ext_skip name s then ext_count name rest c else ext_count name rest (c + 1)

/-- The selecting loop of `uci_lookup_ext_section`: the position (counted
from `pos`) of the section reached with `idx == c`, if any. -/
def ext_find (name : Option String) (idx : Int) : List uci_section → Int → Nat → Option Nat
  | [], _, _ => none
  | s :: rest, c, pos =>
    if ext_skip name s then ext_find name idx rest c (pos + 1)
    else if idx = c then some pos
    else ext_find name idx rest (c + 1) (pos + 1)

/-- The part of `uci_lookup_ext_section` after the parse: a negative index
is first increased by the number of matching sections. -/
def ext_select (sections : List uci_section) (name : Option String) (idx : Int) : Option Nat :=
  let idx := if idx < 0 then idx + ext_count name sections 0 else idx
  ext_find name idx sections 0 0

/-- Function `uci_lookup_ext_section(ctx, ptr)` for a pointer whose
`ptr->section` is `sect` and whose package has the sections `sections`:
the code thrown (`UCI_ERR_INVAL` after `memset(ptr, 0, ...)`) or `UCI_OK`,
the element found, and the pointer afterwards. -/
def uci_lookup_ext_section (pf : uci_platform) (sections : List uci_section)
    (ptr : uci_ptr) (sect : String) : uci_rc × Option Nat × uci_ptr :=
  match ext_parse pf sect with
  | none => (uci_rc.UCI_ERR_INVAL, none, uci_ptr_zero)
  | some (name, idx) =>
    match ext_select sections name idx with
    | none => (uci_rc.UCI_OK, none, ptr)
    | some i =>
      match sections[i]? with
      | none => (uci_rc.FAULT, none, ptr)
      | some s => (uci_rc.UCI_OK, some i, { ptr with section_ := s.name, section_alias := true })

/-- Modelled from the spec: the entry macro `UCI_HANDLE_ERR(ctx)` of
`uci_internal.h`, which `list.c` invokes and does not define.  The spec's
untracked ("internal") mode is the mode of one call: the macro ends it on
entry (so every operation copies `ctx->internal` into a local variable before
invoking the macro, and `UCI_INTERNAL` in `uci_expand_ptr` sets it for the one
nested call), and it turns a later throw into the returned code. -/
def UCI_HANDLE_ERR (ctx : uci_context) : uci_context :=
  { ctx with internal := false }

/-- The tail of `uci_lookup_ptr` from the test `if (ptr->option)` on, for the
package `pkg` and a section found at position `si`. -/
def lookup_option (pkg : uci_package) (ctx : uci_context) (ptr : uci_ptr) (si : Nat) :
    uci_rc × uci_context × uci_ptr :=
  let ptr := { ptr with last := some uci_type.UCI_TYPE_SECTION, s := some si }
  match ptr.option with
  | none => (uci_rc.UCI_OK, ctx, { ptr with lookup_complete := true })
  | some _ =>
    match pkg.sections[si]? with
    | none => (uci_rc.FAULT, ctx, ptr)
    | some sec =>
      match uci_lookup_list (sec.options.map (fun o => o.name)) ptr.option with
      | lookup_res.fault => (uci_rc.FAULT, ctx, ptr)
      | lookup_res.null => (uci_rc.UCI_OK, ctx, ptr)
      | lookup_res.elem oi =>
        (uci_rc.UCI_OK, ctx,
          { ptr with o := some oi, last := some uci_type.UCI_TYPE_OPTION,
                     lookup_complete := true })

/-- The part of `uci_lookup_ptr` after the package is resolved to position
`pi` of `ctx->root`. -/
def lookup_section (pf : uci_platform) (ctx : uci_context) (ptr : uci_ptr) (pi : Nat)
    (extended : Bool) : uci_rc × uci_context × uci_ptr :=
  let ptr := { ptr with p := some pi, last := some uci_type.UCI_TYPE_PACKAGE }
  if ptr.section_.isNone && ptr.s.isNone then
    (uci_rc.UCI_OK, ctx, { ptr with lookup_complete := true })
  else
    match ctx.root[pi]? with
    | none => (uci_rc.FAULT, ctx, ptr)
    | some pkg =>
      match ptr.s with
      | some si => lookup_option pkg ctx ptr si
      | none =>
        if ptr.lookup_extended then
          if extended then
            match ptr.section_ with
            | none => (uci_rc.FAULT, ctx, ptr)
            | some sect =>
              match uci_lookup_ext_section pf pkg.sections ptr sect with
              | (uci_rc.UCI_OK, some si, ptr1) => lookup_option pkg ctx ptr1 si
              | (rc, _, ptr1) => (rc, ctx, ptr1)
          else (uci_rc.UCI_ERR_INVAL, ctx, ptr)
        else
          match uci_lookup_list (pkg.sections.map (fun s => s.name)) ptr.section_ with
          | lookup_res.fault => (uci_rc.FAULT, ctx, ptr)
          | lookup_res.null => (uci_rc.UCI_OK, ctx, ptr)
          | lookup_res.elem si => lookup_option pkg ctx ptr si

/-- Function `uci_lookup_ptr(ctx, ptr, NULL, extended)` (no string to parse).
A package that is not in `ctx->root` is asked from the loader; a loaded
package is linked at the tail of `ctx->root`. -/
def uci_lookup_ptr (pf : uci_platform) (ctx : uci_context) (ptr : uci_ptr) (extended : Bool) :
    uci_rc × uci_context × uci_ptr :=
  let ctx := UCI_HANDLE_ERR ctx
  let ptr := { ptr with lookup_done := true }
  match ptr.p with
  | some pi => lookup_section pf ctx ptr pi extended
  | none =>
    match uci_lookup_list (ctx.root.map (fun p => p.name)) ptr.package with
    | lookup_res.fault => (uci_rc.FAULT, ctx, ptr)
    | lookup_res.elem pi => lookup_section pf ctx ptr pi extended
    | lookup_res.null =>
      match ptr.package with
      | none => (uci_rc.FAULT, ctx, ptr)
      | some name =>
        match pf.uci_load name with
        | none => (uci_rc.UCI_ERR_NOTFOUND, ctx, ptr)
        | some pkg =>
          lookup_section pf { ctx with root := ctx.root ++ [pkg] } ptr ctx.root.length extended

/-- The string fields `uci_expand_ptr` fills in from the attached elements. -/
def expand_fill (ctx : uci_context) (ptr : uci_ptr) (pi : Nat) : Option uci_ptr :=
  match ctx.root[pi]? with
  | none => none
  | some pkg =>
    let ptr := if ptr.package.isNone then { ptr with package := pkg.name } else ptr
    match ptr.s with
    | none => some ptr
    | some si =>
      match pkg.sections[si]? with
      | none => none
      | some sec =>
        let ptr :=
          if ptr.section_.isNone then { ptr with section_ := sec.name, section_alias := true }
          else ptr
        match ptr.o with
        | none => some ptr
        | some oi =>
          match sec.options[oi]? with
          | none => none
          | some o => some (if ptr.option.isNone then { ptr with option := o.name } else ptr)

/-- The element `uci_expand_ptr` returns: `ptr->o`, else `ptr->s`, else
`ptr->p`. -/
def expand_elem (ptr : uci_ptr) : uci_type :=
  if ptr.o.isSome then uci_type.UCI_TYPE_OPTION
  else if ptr.s.isSome then uci_type.UCI_TYPE_SECTION
  else uci_type.UCI_TYPE_PACKAGE

/-- Function `uci_expand_ptr(ctx, ptr, complete)`: besides the code, context
and pointer, the kind of the element it returns. -/
def uci_expand_ptr (pf : uci_platform) (ctx : uci_context) (ptr : uci_ptr) (complete : Bool) :
    uci_rc × uci_context × uci_ptr × uci_type :=
  let r := if !ptr.lookup_done then uci_lookup_ptr pf { ctx with internal := true } ptr true
           else (uci_rc.UCI_OK, ctx, ptr)
  match r with
  | (uci_rc.UCI_OK, ctx, ptr) =>
    if complete && !ptr.lookup_complete then
      (uci_rc.UCI_ERR_NOTFOUND, ctx, ptr, uci_type.UCI_TYPE_PACKAGE)
    else
      match ptr.p with
      | none => (uci_rc.UCI_ERR_INVAL, ctx, ptr, uci_type.UCI_TYPE_PACKAGE)
      | some pi =>
        match expand_fill ctx ptr pi with
        | none => (uci_rc.FAULT, ctx, ptr, uci_type.UCI_TYPE_PACKAGE)
        | some ptr => (uci_rc.UCI_OK, ctx, ptr, expand_elem ptr)
  | (rc, ctx, ptr) => (rc, ctx, ptr, uci_type.UCI_TYPE_PACKAGE)

/-! ## Mutating operations -/

/-- Modelled from the spec: function `uci_add_delta` of `delta.c`, which
`list.c` calls and does not define.  It appends one record with the command,
the section name, the optional option name and the optional value to the
list; the section name is a required string (`none`: it is `NULL`, a fault). -/
def uci_add_delta (list : List uci_delta) (cmd : uci_command) (sect : Option String)
    (option : Option String) (value : Option String) : Option (List uci_delta) :=
  match sect with
  | none => none
  | some sn => some (list ++ [{ cmd := cmd, section_ := sn, name := option, value := value }])

/-- The guarded call `if (!internal && p->has_delta) uci_add_delta(...)`: the
pending delta list afterwards, `none` for a fault. -/
def track (internal : Bool) (pkg : uci_package) (cmd : uci_command) (sect : Option String)
    (option : Option String) (value : Option String) : Option (List uci_delta) :=
  if !internal && pkg.has_delta then uci_add_delta pkg.delta cmd sect option value
  else some pkg.delta

/-- The package with its pending delta list replaced. -/
def put_delta (pkg : uci_package) (d : List uci_delta) : uci_package :=
  { pkg with delta := d }

/-- Store a package at position `pi` of `ctx->root`. -/
def put_package (ctx : uci_context) (pi : Nat) (pkg : uci_package) : uci_context :=
  { ctx with root := ctx.root.set pi pkg }

/-- Store a section at position `si` of a package. -/
def put_section (pkg : uci_package) (si : Nat) (sec : uci_section) : uci_package :=
  { pkg with sections := pkg.sections.set si sec }

/-- Store an option at position `oi` of a section. -/
def put_option (sec : uci_section) (oi : Nat) (o : uci_option) : uci_section :=
  { sec with options := sec.options.set oi o }

/-- The body of `uci_rename` after `uci_expand_ptr`; `e` is the kind of the
element `uci_expand_ptr` returned. -/
def rename_body (internal : Bool) (ctx : uci_context) (ptr : uci_ptr) (e : uci_type) :
    uci_rc × uci_context × uci_ptr :=
  match ptr.p with
  | none => (uci_rc.FAULT, ctx, ptr)
  | some pi =>
    match ptr.s, ptr.value with
    | none, _ => (uci_rc.UCI_ERR_INVAL, ctx, ptr)
    | some _, none => (uci_rc.UCI_ERR_INVAL, ctx, ptr)
    | some si, some value =>
      match ctx.root[pi]? with
      | none => (uci_rc.FAULT, ctx, ptr)
      | some pkg =>
        match track internal pkg uci_command.UCI_CMD_RENAME ptr.section_ ptr.option
            (some value) with
        | none => (uci_rc.FAULT, ctx, ptr)
        | some d =>
          match (put_delta pkg d).sections[si]? with
          | none => (uci_rc.FAULT, put_package ctx pi (put_delta pkg d), ptr)
          | some sec =>
            match e, ptr.o with
            | uci_type.UCI_TYPE_OPTION, some oi =>
              match sec.options[oi]? with
              | none => (uci_rc.FAULT, put_package ctx pi (put_delta pkg d), ptr)
              | some o =>
                (uci_rc.UCI_OK,
                  put_package ctx pi
                    (put_section (put_delta pkg d) si
                      (put_option sec oi { o with name := some value })),
                  ptr)
            | _, _ =>
              (uci_rc.UCI_OK,
                put_package ctx pi
                  (put_section (put_delta pkg d) si
                    { sec with name := some value, anonymous := false }),
                ptr)

/-- Function `uci_rename(ctx, ptr)`. -/
def uci_rename (pf : uci_platform) (ctx : uci_context) (ptr : uci_ptr) :
    uci_rc × uci_context × uci_ptr :=
  let internal := ctx.internal
  match uci_expand_ptr pf (UCI_HANDLE_ERR ctx) ptr true with
  | (uci_rc.UCI_OK, ctx, ptr, e) => rename_body internal ctx ptr e
  | (rc, ctx, ptr, _) => (rc, ctx, ptr)

/-- Function `uci_reorder_section(ctx, s, pos)` for the section at position
`si` of the package at position `pi`.  The nodes of the section list are
named by their positions before the call. -/
def uci_reorder_section (ctx : uci_context) (pi si : Nat) (pos : Int) :
    uci_rc × uci_context :=
  let internal := ctx.internal
  let ctx := UCI_HANDLE_ERR ctx
  match ctx.root[pi]? with
  | none => (uci_rc.FAULT, ctx)
  | some pkg =>
    match pkg.sections[si]? with
    | none => (uci_rc.FAULT, ctx)
    | some sec =>
      let r := uci_list_set_pos (List.range pkg.sections.length) si pos
      let pkg := { pkg with sections := r.1.filterMap (fun i => pkg.sections[i]?) }
      if r.2 then
        match track internal pkg uci_command.UCI_CMD_REORDER sec.name none
            (some (fmt_d pos)) with
        | none => (uci_rc.FAULT, put_package ctx pi pkg)
        | some d => (uci_rc.UCI_OK, put_package ctx pi (put_delta pkg d))
      else (uci_rc.UCI_OK, put_package ctx pi pkg)

/-- Function `uci_add_section(ctx, p, type, &res)`; the third component is
`*res`, the position of the new section. -/
def uci_add_section (pf : uci_platform) (ctx : uci_context) (p : Option Nat) (type : String) :
    uci_rc × uci_context × Option Nat :=
  let internal := ctx.internal
  let ctx := UCI_HANDLE_ERR ctx
  match p with
  | none => (uci_rc.UCI_ERR_INVAL, ctx, none)
  | some pi =>
    match ctx.root[pi]? with
    | none => (uci_rc.FAULT, ctx, none)
    | some pkg =>
      let si := pkg.sections.length
      let pkg := uci_alloc_section pkg type none none
      match pkg.sections[si]? with
      | none => (uci_rc.FAULT, ctx, none)
      | some sec =>
        match (if sec.anonymous then uci_fixup_section pf.char_signed pkg.n_section sec
               else some sec) with
        | none => (uci_rc.FAULT, put_package ctx pi pkg, none)
        | some sec =>
          let pkg := put_section pkg si sec
          match track internal pkg uci_command.UCI_CMD_ADD sec.name none (some type) with
          | none => (uci_rc.FAULT, put_package ctx pi pkg, some si)
          | some d => (uci_rc.UCI_OK, put_package ctx pi (put_delta pkg d), some si)

/-- The `uci_foreach_element_safe` loop of `uci_delete` over the items of a
list option: the items left when the item reached with `index == 0` is
freed, `none` when the loop ends without reaching one.  The decrement
`index--` of the `int` wraps around below `-2 ^ 31`, as the compiled code
does. -/
def delete_item : List String → Int → Option (List String)
  | [], _ => none
  | e2 :: rest, index =>
    if index = 0 then some rest
    else match delete_item rest (to_int32 (index - 1)) with
      | none => none
      | some l => some (e2 :: l)

/-- The end of `uci_delete`: record the delta, free the element `e1`, clear
the handle of the pointer. -/
def delete_element (internal : Bool) (ctx : uci_context) (ptr : uci_ptr) (e1 : uci_type)
    (pi : Nat) (pkg : uci_package) (si : Nat) : uci_rc × uci_context × uci_ptr :=
  match track internal pkg uci_command.UCI_CMD_REMOVE ptr.section_ ptr.option none with
  | none => (uci_rc.FAULT, ctx, ptr)
  | some d =>
    let ptr1 := if ptr.option.isSome then { ptr with o := none }
                else if ptr.section_.isSome then { ptr with s := none }
                else ptr
    match e1, ptr.o with
    | uci_type.UCI_TYPE_OPTION, some oi =>
      match (put_delta pkg d).sections[si]? with
      | none => (uci_rc.FAULT, put_package ctx pi (put_delta pkg d), ptr)
      | some sec =>
        (uci_rc.UCI_OK,
          put_package ctx pi (put_section (put_delta pkg d) si (uci_free_option sec oi)), ptr1)
    | uci_type.UCI_TYPE_SECTION, _ =>
      (uci_rc.UCI_OK, put_package ctx pi (uci_free_section (put_delta pkg d) si), ptr1)
    | _, _ => (uci_rc.UCI_OK, put_package ctx pi (put_delta pkg d), ptr1)

/-- The body of `uci_delete` after `uci_expand_ptr` returned an element of
kind `e1`. -/
def delete_body (pf : uci_platform) (internal : Bool) (ctx : uci_context) (ptr : uci_ptr)
    (e1 : uci_type) : uci_rc × uci_context × uci_ptr :=
  match ptr.p with
  | none => (uci_rc.FAULT, ctx, ptr)
  | some pi =>
    match ptr.s with
    | none => (uci_rc.UCI_ERR_INVAL, ctx, ptr)
    | some si =>
      match ctx.root[pi]? with
      | none => (uci_rc.FAULT, ctx, ptr)
      | some pkg =>
        match pkg.sections[si]? with
        | none => (uci_rc.FAULT, ctx, ptr)
        | some sec =>
          match ptr.o with
          | none => delete_element internal ctx ptr e1 pi pkg si
          | some oi =>
            match sec.options[oi]? with
            | none => (uci_rc.FAULT, ctx, ptr)
            | some o =>
              match o.v, ptr.value with
              | uci_option_v.list items, some value =>
                if value = "" then delete_element internal ctx ptr e1 pi pkg si
                else
                  match c_sscanf_d pf.long_bits value.data with
                  | sscanf_d.nomatch => (uci_rc.RET_1, ctx, ptr)
                  | sscanf_d.eof => (uci_rc.FAULT, ctx, ptr)
                  | sscanf_d.conv index =>
                    match delete_item items index with
                    | none => (uci_rc.UCI_OK, ctx, ptr)
                    | some items1 =>
                      match track internal pkg uci_command.UCI_CMD_REMOVE ptr.section_
                          ptr.option (some value) with
                      | none => (uci_rc.FAULT, ctx, ptr)
                      | some d =>
                        (uci_rc.UCI_OK,
                          put_package ctx pi
                            (put_section (put_delta pkg d) si
                              (put_option sec oi { o with v := uci_option_v.list items1 })),
                          ptr)
              | _, _ => delete_element internal ctx ptr e1 pi pkg si

/-- Function `uci_delete(ctx, ptr)`. -/
def uci_delete (pf : uci_platform) (ctx : uci_context) (ptr : uci_ptr) :
    uci_rc × uci_context × uci_ptr :=
  let internal := ctx.internal
  match uci_expand_ptr pf (UCI_HANDLE_ERR ctx) ptr true with
  | (uci_rc.UCI_OK, ctx, ptr, e1) => delete_body pf internal ctx ptr e1
  | (rc, ctx, ptr, _) => (rc, ctx, ptr)

/-- The body of `uci_add_list` after `uci_expand_ptr`. -/
def add_list_body (internal : Bool) (ctx : uci_context) (ptr : uci_ptr) :
    uci_rc × uci_context × uci_ptr :=
  match ptr.p with
  | none => (uci_rc.FAULT, ctx, ptr)
  | some pi =>
    match ptr.s, ptr.value with
    | none, _ => (uci_rc.UCI_ERR_INVAL, ctx, ptr)
    | some _, none => (uci_rc.UCI_ERR_INVAL, ctx, ptr)
    | some si, some value =>
      match ctx.root[pi]? with
      | none => (uci_rc.FAULT, ctx, ptr)
      | some pkg =>
        match pkg.sections[si]? with
        | none => (uci_rc.FAULT, ctx, ptr)
        | some sec =>
          match ptr.o with
          | none =>
            let oi := sec.options.length
            let sec := uci_alloc_list sec ptr.option none
            let sec := put_option sec oi { name := ptr.option, v := uci_option_v.list [value] }
            let pkg := put_section pkg si sec
            let ptr := { ptr with o := some oi }
            match track internal pkg uci_command.UCI_CMD_LIST_ADD ptr.section_ ptr.option
                (some value) with
            | none => (uci_rc.FAULT, put_package ctx pi pkg, ptr)
            | some d => (uci_rc.UCI_OK, put_package ctx pi (put_delta pkg d), ptr)
          | some oi =>
            match sec.options[oi]? with
            | none => (uci_rc.FAULT, ctx, ptr)
            | some old =>
              let sec :=
                match old.v with
                | uci_option_v.string str =>
                  let sec := uci_alloc_list sec ptr.option (some oi)
                  let sec := put_option sec (oi + 1)
                    { name := ptr.option, v := uci_option_v.list [str] }
                  let sec := uci_free_option sec oi
                  put_option sec oi { name := ptr.option, v := uci_option_v.list [str, value] }
                | uci_option_v.list items =>
                  put_option sec oi { old with v := uci_option_v.list (items ++ [value]) }
              let pkg := put_section pkg si sec
              match track internal pkg uci_command.UCI_CMD_LIST_ADD ptr.section_ ptr.option
                  (some value) with
              | none => (uci_rc.FAULT, put_package ctx pi pkg, ptr)
              | some d => (uci_rc.UCI_OK, put_package ctx pi (put_delta pkg d), ptr)

/-- Function `uci_add_list(ctx, ptr)`. -/
def uci_add_list (pf : uci_platform) (ctx : uci_context) (ptr : uci_ptr) :
    uci_rc × uci_context × uci_ptr :=
  let internal := ctx.internal
  match uci_expand_ptr pf (UCI_HANDLE_ERR ctx) ptr false with
  | (uci_rc.UCI_OK, ctx, ptr, _) => add_list_body internal ctx ptr
  | (rc, ctx, ptr, _) => (rc, ctx, ptr)

/-- The body of `uci_del_list` after `uci_expand_ptr`. -/
def del_list_body (internal : Bool) (ctx : uci_context) (ptr : uci_ptr) :
    uci_rc × uci_context × uci_ptr :=
  match ptr.p with
  | none => (uci_rc.FAULT, ctx, ptr)
  | some pi =>
    match ptr.s, ptr.value with
    | none, _ => (uci_rc.UCI_ERR_INVAL, ctx, ptr)
    | some _, none => (uci_rc.UCI_ERR_INVAL, ctx, ptr)
    | some si, some value =>
      match ptr.o, ptr.option with
      | some oi, some _ =>
        match ctx.root[pi]? with
        | none => (uci_rc.FAULT, ctx, ptr)
        | some pkg =>
          match pkg.sections[si]? with
          | none => (uci_rc.FAULT, ctx, ptr)
          | some sec =>
            match sec.options[oi]? with
            | none => (uci_rc.FAULT, ctx, ptr)
            | some o =>
              match o.v with
              | uci_option_v.string _ => (uci_rc.UCI_OK, ctx, ptr)
              | uci_option_v.list items =>
                match track internal pkg uci_command.UCI_CMD_LIST_DEL ptr.section_ ptr.option
                    (some value) with
                | none => (uci_rc.FAULT, ctx, ptr)
                | some d =>
                  (uci_rc.UCI_OK,
                    put_package ctx pi
                      (put_section (put_delta pkg d) si
                        (put_option sec oi
                          { o with v := uci_option_v.list (items.filter (fun e => value ≠ e)) })),
                    ptr)
      | _, _ => (uci_rc.UCI_OK, ctx, ptr)

/-- Function `uci_del_list(ctx, ptr)`. -/
def uci_del_list (pf : uci_platform) (ctx : uci_context) (ptr : uci_ptr) :
    uci_rc × uci_context × uci_ptr :=
  let internal := ctx.internal
  match uci_expand_ptr pf (UCI_HANDLE_ERR ctx) ptr false with
  | (uci_rc.UCI_OK, ctx, ptr, _) => del_list_body internal ctx ptr
  | (rc, ctx, ptr, _) => (rc, ctx, ptr)

/-- The step of `uci_set` that attaches the option when the pointer has a
section and an option name and no option: `none` for a fault. -/
def set_attach (ctx : uci_context) (ptr : uci_ptr) : Option uci_ptr :=
  match ptr.o, ptr.s, ptr.option, ptr.p with
  | none, some si, some _, some pi =>
    match ctx.root[pi]? with
    | none => none
    | some pkg =>
      match pkg.sections[si]? with
      | none => none
      | some sec =>
        match uci_lookup_list (sec.options.map (fun o => o.name)) ptr.option with
        | lookup_res.fault => none
        | lookup_res.null => some ptr
        | lookup_res.elem oi => some { ptr with o := some oi }
  | _, _, _, _ => some ptr

/-- The branch "update option" of `uci_set` for the option `old` at position
`oi` of `sec`: `none` when the value is already there (`return 0`). -/
def set_update_option (sec : uci_section) (oi : Nat) (old : uci_option) (name : Option String)
    (value : String) : Option uci_section :=
  match old.v with
  | uci_option_v.string str =>
    if str = value then none
    else if str.length = value.length then
      some (put_option sec oi { old with v := uci_option_v.string value })
    else some (uci_free_option (uci_alloc_option sec name value (some oi)) oi)
  | uci_option_v.list _ =>
    some (uci_free_option (uci_alloc_option sec name value (some oi)) oi)

/-- The branch "update section" of `uci_set` for the section `old` at
position `si` of `pkg`: the package and `ptr->section` afterwards, `none`
when the type is already there (`return 0`). -/
def set_update_section (pkg : uci_package) (si : Nat) (old : uci_section) (ptr : uci_ptr)
    (value : String) : Option (uci_package × uci_ptr) :=
  if old.type = value then none
  else if old.type.length = value.length then
    some (put_section pkg si { old with type := value }, ptr)
  else
    let pkg := uci_alloc_section pkg value old.name (some si)
    match pkg.sections[si + 1]? with
    | none => some (pkg, ptr)
    | some new =>
      let r := uci_section_transfer_options new old
      let pkg := put_section (put_section pkg (si + 1) r.1) si r.2
      let ptr := if ptr.section_alias then { ptr with section_ := r.1.name } else ptr
      some (uci_free_section pkg si, ptr)

/-- The branches of `uci_set` for a non-empty value, before the delta is
recorded: `none` for `return 0` without a change. -/
def set_branches (ptr : uci_ptr) (pkg : uci_package) (value : String) :
    uci_rc × Option (uci_package × uci_ptr) :=
  if ptr.o.isNone && ptr.option.isSome then
    match ptr.s with
    | none => (uci_rc.FAULT, none)
    | some si =>
      match pkg.sections[si]? with
      | none => (uci_rc.FAULT, none)
      | some sec =>
        (uci_rc.UCI_OK,
          some (put_section pkg si (uci_alloc_option sec ptr.option value none),
            { ptr with o := some sec.options.length }))
  else if ptr.s.isNone && ptr.section_.isSome then
    (uci_rc.UCI_OK,
      some (uci_alloc_section pkg value ptr.section_ none,
        { ptr with s := some pkg.sections.length }))
  else if ptr.o.isSome && ptr.option.isSome then
    match ptr.s, ptr.o with
    | some si, some oi =>
      match pkg.sections[si]? with
      | none => (uci_rc.FAULT, none)
      | some sec =>
        match sec.options[oi]? with
        | none => (uci_rc.FAULT, none)
        | some old =>
          match set_update_option sec oi old ptr.option value with
          | none => (uci_rc.UCI_OK, none)
          | some sec => (uci_rc.UCI_OK, some (put_section pkg si sec, ptr))
    | _, _ => (uci_rc.FAULT, none)
  else if ptr.s.isSome && ptr.section_.isSome then
    match ptr.s with
    | none => (uci_rc.FAULT, none)
    | some si =>
      match pkg.sections[si]? with
      | none => (uci_rc.FAULT, none)
      | some old => (uci_rc.UCI_OK, set_update_section pkg si old ptr value)
  else (uci_rc.UCI_ERR_INVAL, none)

/-- The body of `uci_set` after `uci_expand_ptr`. -/
def set_body (pf : uci_platform) (internal : Bool) (ctx : uci_context) (ptr : uci_ptr) :
    uci_rc × uci_context × uci_ptr :=
  match ptr.value with
  | none => (uci_rc.UCI_ERR_INVAL, ctx, ptr)
  | some value =>
    if !(ptr.s.isSome || (ptr.option.isNone && ptr.section_.isSome)) then
      (uci_rc.UCI_ERR_INVAL, ctx, ptr)
    else if ptr.option.isNone && value ≠ "" && !pf.uci_validate_type value then
      (uci_rc.UCI_ERR_INVAL, ctx, ptr)
    else
      match set_attach ctx ptr with
      | none => (uci_rc.FAULT, ctx, ptr)
      | some ptr =>
        if value = "" then
          if !ptr.lookup_complete then (uci_rc.UCI_OK, ctx, ptr)
          else uci_delete pf ctx ptr
        else
          match ptr.p with
          | none => (uci_rc.FAULT, ctx, ptr)
          | some pi =>
            match ctx.root[pi]? with
            | none => (uci_rc.FAULT, ctx, ptr)
            | some pkg =>
              match set_branches ptr pkg value with
              | (uci_rc.UCI_OK, none) => (uci_rc.UCI_OK, ctx, ptr)
              | (uci_rc.UCI_OK, some (pkg, ptr)) =>
                match track internal pkg uci_command.UCI_CMD_CHANGE ptr.section_ ptr.option
                    (some value) with
                | none => (uci_rc.FAULT, put_package ctx pi pkg, ptr)
                | some d => (uci_rc.UCI_OK, put_package ctx pi (put_delta pkg d), ptr)
              | (rc, _) => (rc, ctx, ptr)

/-- Function `uci_set(ctx, ptr)`.  The call `uci_delete(ctx, ptr)` it ends
with for an empty value runs on the context as `uci_set` left it. -/
def uci_set (pf : uci_platform) (ctx : uci_context) (ptr : uci_ptr) :
    uci_rc × uci_context × uci_ptr :=
  let internal := ctx.internal
  match uci_expand_ptr pf (UCI_HANDLE_ERR ctx) ptr false with
  | (uci_rc.UCI_OK, ctx, ptr, _) => set_body pf internal ctx ptr
  | (rc, ctx, ptr, _) => (rc, ctx, ptr)

/-! ## Calls of the mutating operations -/

/-- One call of a mutating operation with its arguments. -/
inductive uci_call
  | set (ptr : uci_ptr)
  | add_section (p : Option Nat) (type : String)
  | delete (ptr : uci_ptr)
  | rename (ptr : uci_ptr)
  | reorder_section (pi si : Nat) (pos : Int)
  | add_list (ptr : uci_ptr)
  | del_list (ptr : uci_ptr)
  deriving DecidableEq, Repr

/-- Run one call: the code and the context afterwards. -/
def uci_run (pf : uci_platform) (ctx : uci_context) : uci_call → uci_rc × uci_context
  | uci_call.set ptr => ((uci_set pf ctx ptr).1, (uci_set pf ctx ptr).2.1)
  | uci_call.add_section p type =>
    ((uci_add_section pf ctx p type).1, (uci_add_section pf ctx p type).2.1)
  | uci_call.delete ptr => ((uci_delete pf ctx ptr).1, (uci_delete pf ctx ptr).2.1)
  | uci_call.rename ptr => ((uci_rename pf ctx ptr).1, (uci_rename pf ctx ptr).2.1)
  | uci_call.reorder_section pi si pos => uci_reorder_section ctx pi si pos
  | uci_call.add_list ptr => ((uci_add_list pf ctx ptr).1, (uci_add_list pf ctx ptr).2.1)
  | uci_call.del_list ptr => ((uci_del_list pf ctx ptr).1, (uci_del_list pf ctx ptr).2.1)

/-! ## Reference notions used in the statements -/

/-- A platform for the examples: type names are non-empty words of letters,
digits and `_`, no package is in storage, `char` is signed, `long` has 64 bits. -/
def example_platform : uci_platform :=
  { uci_validate_type := fun s => s ≠ "" && s.data.all (fun c => c.isAlphanum || c = '_'),
    uci_load := fun _ => none,
    char_signed := true,
    long_bits := 64 }

/-- The positions (counted from `pos`) of the sections whose type equals the
filter, or of all sections without a filter, in order. -/
def ext_matches (name : Option String) : List uci_section → Nat → List Nat
  | [], _ => []
  | s :: rest, pos =>
    if ext_skip name s then ext_matches name rest (pos + 1)
    else pos :: ext_matches name rest (pos + 1)

/-- Sections of the types `[a, b, a, a]`. -/
def example_sections : List uci_section :=
  [{ name := some "s0", type := "a", anonymous := false, options := [] },
   { name := some "s1", type := "b", anonymous := false, options := [] },
   { name := some "s2", type := "a", anonymous := false, options := [] },
   { name := some "s3", type := "a", anonymous := false, options := [] }]

/-- The index `uci_list_set_pos` moves a node to in a list of `n` nodes. -/
def clamp_pos (pos : Int) (n : Nat) : Nat :=
  min pos.toNat (n - 1)

/-- An example context: one package `net` with tracking on and three
sections. -/
def example_context : uci_context :=
  { root :=
      [{ name := some "net",
         sections :=
           [{ name := some "lan", type := "interface", anonymous := false,
              options := [{ name := some "proto", v := uci_option_v.string "dhcp" },
                          { name := some "dns", v := uci_option_v.list ["x", "y", "z"] }] },
            { name := some "wan", type := "interface", anonymous := false, options := [] },
            { name := some "cfg03a1b2", type := "rule", anonymous := true, options := [] }],
         n_section := 3, has_delta := true, delta := [], saved_delta := [] }],
    internal := false }

/-- What the hash of `uci_fixup_section` reads of a section: the type and,
for every option in order, the name and the value of a string option. -/
def hash_content (s : uci_section) : String × List (Option String × Option String) :=
  (s.type, s.options.map (fun o =>
    (o.name, match o.v with
      | uci_option_v.string v => some v
      | uci_option_v.list _ => none)))

/-- The last four characters of a name. -/
def name_suffix (name : String) : List Char :=
  name.data.drop (name.data.length - 4)

/-- A pointer given by names in package `net`: section, option and value. -/
def example_ptr (s o v : Option String) : uci_ptr :=
  { uci_ptr_zero with package := some "net", section_ := s, option := o, value := v }

/-- The pointer `example_ptr s o v` after a complete lookup that found the
section at position `si` and the option at position `oi`. -/
def example_ptr_resolved (s o v : Option String) (si oi : Nat) : uci_ptr :=
  { example_ptr s o v with
    lookup_done := true, lookup_complete := true, p := some 0, s := some si, o := some oi,
    last := some uci_type.UCI_TYPE_OPTION }

/-- The codes an operation returns or throws as an error. -/
def is_error (rc : uci_rc) : Bool :=
  rc = uci_rc.RET_1 || rc = uci_rc.UCI_ERR_INVAL || rc = uci_rc.UCI_ERR_NOTFOUND

/-- The section counter of a package equals the number of sections in its
section list. -/
def count_ok (p : uci_package) : Prop :=
  p.n_section = (p.sections.length : Int)

/-- Every package of the context has a correct section counter. -/
def counts_ok (ctx : uci_context) : Prop :=
  ∀ p ∈ ctx.root, count_ok p

/-- Run a sequence of calls, each with its value of `ctx->internal`, one
after the other: the context after the last. -/
def uci_run_all (pf : uci_platform) : uci_context → List (Bool × uci_call) → uci_context
  | ctx, [] => ctx
  | ctx, (internal, call) :: rest =>
    uci_run_all pf (uci_run pf { ctx with internal := internal } call).2 rest

/-- A call that adds a section, or a `uci_delete` whose pointer names no
option (it deletes a section). -/
def section_call : uci_call → Bool
  | uci_call.add_section _ _ => true
  | uci_call.delete ptr => ptr.option.isNone && ptr.o.isNone
  | _ => false

/-- What a call that returned `rc` counts for: `1` for an add that was
applied, `-1` for a delete that was applied. -/
def applied_count (call : uci_call) (rc : uci_rc) : Int :=
  match call, rc with
  | uci_call.add_section _ _, uci_rc.UCI_OK => 1
  | uci_call.delete _, uci_rc.UCI_OK => -1
  | _, _ => 0

/-- The number of adds minus the number of deletes actually applied (those
that return `UCI_OK`) while a sequence of calls runs. -/
def adds_minus_deletes (pf : uci_platform) : uci_context → List (Bool × uci_call) → Int
  | _, [] => 0
  | ctx, (internal, call) :: rest =>
    applied_count call (uci_run pf { ctx with internal := internal } call).1 +
      adds_minus_deletes pf (uci_run pf { ctx with internal := internal } call).2 rest

/-- The name, type and anonymous flag of every section of a package, in
order. -/
def section_heads (p : uci_package) : List (Option String × String × Bool) :=
  p.sections.map (fun s => (s.name, s.type, s.anonymous))

/-- The value of a run of decimal digits read after the value `acc`. -/
def digits_value (acc : Nat) (xs : List Char) : Nat :=
  xs.foldl (fun a c => a * 10 + (c.toNat - 48)) acc

/-- The section expression `@type[index]` (or `@[index]` without a type). -/
def ext_expr (t : Option String) (i : Int) : String :=
  String.mk ('@' :: (t.getD "").data ++ '[' :: (fmt_d i).data ++ [']'])

/-- A pointer given by names only, before any lookup: package, section,
option and value. -/
def named_ptr (package sect option : String) (value : Option String) : uci_ptr :=
  { uci_ptr_zero with
    package := some package, section_ := some sect, option := some option, value := value }

/-- The bytes an option contributes to the hash: its name and, for a string
option, its value. -/
def option_text (o : uci_option) : List Char :=
  (o.name.getD "").data ++
    match o.v with
    | uci_option_v.string v => v.data
    | uci_option_v.list _ => []

/-- The single concatenation `type ++ name1 ++ value1 ++ name2 ++ value2 ...`
of a section. -/
def section_text (s : uci_section) : List Char :=
  s.type.data ++ (s.options.map option_text).flatten

/-- The plain DJB2 hash of a byte string continued from `h`: `h <- 33 * h + byte`,
without any masking or wrap-around. -/
def djb2_from (h : Nat) (bytes : List Char) : Nat :=
  bytes.foldl (fun h c => 33 * h + c.toNat) h

/-- The plain DJB2 hash of a byte string (`h0 = 5381`). -/
def plain_djb2 (bytes : List Char) : Nat :=
  djb2_from 5381 bytes

/-- All characters are 7-bit ASCII bytes. -/
def is_ascii7 (bytes : List Char) : Bool :=
  bytes.all (fun c => decide (c.toNat < 128))

/-- A section of type `a` with the string option `bc` = `d`, not yet named. -/
def example_section_a_bc : uci_section :=
  { name := none, type := "a", anonymous := true,
    options := [{ name := some "bc", v := uci_option_v.string "d" }] }

/-- A section of type `ab` with the string option `c` = `d`, not yet named. -/
def example_section_ab_c : uci_section :=
  { name := none, type := "ab", anonymous := true,
    options := [{ name := some "c", v := uci_option_v.string "d" }] }

/-- The section-name strings the claim about malformed extended expressions
lists: no leading `@`; no `[` after the `@`; no `]` after the `[`;
characters after the `]`; characters left after the integer between the
brackets; a non-empty type filter that fails the type-name check. -/
inductive ext_malformed (pf : uci_platform) : String → Prop
  | no_at (s : String) :
      s.data.head? ≠ some '@' → ext_malformed pf s
  | no_open (name : List Char) :
      (∀ c ∈ name, c ≠ '[') → ext_malformed pf (String.mk ('@' :: name))
  | no_close (name rest : List Char) :
      (∀ c ∈ name, c ≠ '[') → (∀ c ∈ rest, c ≠ ']') →
      ext_malformed pf (String.mk ('@' :: name ++ '[' :: rest))
  | trailing (name idx t : List Char) :
      (∀ c ∈ name, c ≠ '[') → (∀ c ∈ idx, c ≠ ']') → t ≠ [] →
      ext_malformed pf (String.mk ('@' :: name ++ '[' :: idx ++ ']' :: t))
  | junk (name ws sg ds : List Char) (c : Char) (rest : List Char) :
      (∀ d ∈ name, d ≠ '[') → (∀ d ∈ ws ++ sg ++ ds ++ c :: rest, d ≠ ']') →
      (∀ d ∈ ws, c_isspace d = true) → (sg = [] ∨ sg = ['-'] ∨ sg = ['+']) →
      (∀ d ∈ ds, c_isdigit d = true) → ds ≠ [] → c_isdigit c = false →
      ext_malformed pf (String.mk ('@' :: name ++ '[' :: (ws ++ sg ++ ds ++ c :: rest) ++ [']']))
  | bad_type (name idx : List Char) :
      (∀ c ∈ name, c ≠ '[') → (∀ c ∈ idx, c ≠ ']') → name ≠ [] →
      pf.uci_validate_type (String.mk name) = false →
      ext_malformed pf (String.mk ('@' :: name ++ '[' :: idx ++ [']']))

/-- A context with one package `net` (tracking on) whose section `lan` has
a string option, a list option with a repeated item and an empty list option. -/
def example_dup_context : uci_context :=
  { root :=
      [{ name := some "net",
         sections :=
           [{ name := some "lan", type := "interface", anonymous := false,
              options := [{ name := some "proto", v := uci_option_v.string "dhcp" },
                          { name := some "dns", v := uci_option_v.list ["x", "y", "x"] },
                          { name := some "ntp", v := uci_option_v.list [] }] }],
         n_section := 1, has_delta := true, delta := [], saved_delta := [] }],
    internal := false }

/-- The package `net` of `example_context`. -/
def example_net : uci_package :=
  { name := some "net",
    sections :=
      [{ name := some "lan", type := "interface", anonymous := false,
         options := [{ name := some "proto", v := uci_option_v.string "dhcp" },
                     { name := some "dns", v := uci_option_v.list ["x", "y", "z"] }] },
       { name := some "wan", type := "interface", anonymous := false, options := [] },
       { name := some "cfg03a1b2", type := "rule", anonymous := true, options := [] }],
    n_section := 3, has_delta := true, delta := [], saved_delta := [] }

/-- The section `lan` of `example_context`. -/
def example_lan : uci_section :=
  { name := some "lan", type := "interface", anonymous := false,
    options := [{ name := some "proto", v := uci_option_v.string "dhcp" },
                { name := some "dns", v := uci_option_v.list ["x", "y", "z"] }] }

/-- The pointer `example_ptr s o v` after a lookup that found the section at
position `si` and no option. -/
def example_ptr_section (s o v : Option String) (si : Nat) (complete : Bool) : uci_ptr :=
  { example_ptr s o v with
    lookup_done := true, lookup_complete := complete, p := some 0, s := some si,
    last := some uci_type.UCI_TYPE_SECTION }

/-- An anonymous section of type `rule` with one option, named by
`uci_fixup_section`. -/
def example_rule : uci_section :=
  { name := some "cfg013820", type := "rule", anonymous := true,
    options := [{ name := some "src", v := uci_option_v.string "lan" }] }

/-- A package `fw` (tracking on) that holds `example_rule`. -/
def example_fw : uci_package :=
  { name := some "fw", sections := [example_rule], n_section := 1, has_delta := true,
    delta := [], saved_delta := [] }

/-- A context that holds the package `example_fw`. -/
def example_fw_context : uci_context :=
  { root := [example_fw], internal := false }

/-- The pointer `fw.cfg013820=v`, before any lookup. -/
def example_fw_ptr (v : String) : uci_ptr :=
  { uci_ptr_zero with package := some "fw", section_ := some "cfg013820", value := some v }

/-- The pointer `example_fw_ptr v` after the lookup. -/
def example_fw_ptr_resolved (v : String) : uci_ptr :=
  { example_fw_ptr v with
    lookup_done := true, lookup_complete := true, p := some 0, s := some 0,
    last := some uci_type.UCI_TYPE_SECTION }

/-- The option named `name` is attached to the pointer: its handles
`ptr->p`, `ptr->s`, `ptr->o` reach an option of the tree, and that option
has the name asked for. -/
def option_attached (ctx : uci_context) (ptr : uci_ptr) (name : Option String) : Bool :=
  match ptr.p with
  | none => false
  | some pi =>
    match ptr.s with
    | none => false
    | some si =>
      match ptr.o with
      | none => false
      | some oi =>
        match ctx.root[pi]? with
        | none => false
        | some pkg =>
          match pkg.sections[si]? with
          | none => false
          | some sec =>
            match sec.options[oi]? with
            | none => false
            | some o => decide (o.name = name)
/-! ## Extended section lookup -/

theorem ext_count_eq (name : Option String) (l : List uci_section) (c : Int) (pos : Nat) :
    ext_count name l c = c + (ext_matches name l pos).length := by
  induction l generalizing c pos with
  | nil => simp [ext_count, ext_matches]
  | cons s rest ih =>
    simp only [ext_count, ext_matches]
    split
    · exact ih c (pos + 1)
    · rw [ih (c + 1) (pos + 1)]
      simp only [List.length_cons]
      push_cast
      ring

theorem ext_find_eq (name : Option String) (idx : Int) (l : List uci_section) (c : Int)
    (pos : Nat) :
    ext_find name idx l c pos =
      if c ≤ idx then (ext_matches name l pos)[(idx - c).toNat]? else none := by
  induction l generalizing c pos with
  | nil => simp [ext_find, ext_matches]
  | cons s rest ih =>
    simp only [ext_find, ext_matches]
    split
    · exact ih c (pos + 1)
    · split
      · next h => subst h; simp
      · next h =>
        rw [ih (c + 1) (pos + 1)]
        by_cases hc : c ≤ idx
        · have h1 : c + 1 ≤ idx := by omega
          have h2 : (idx - c).toNat = (idx - (c + 1)).toNat + 1 := by omega
          simp only [h1, hc, if_true, h2, List.getElem?_cons_succ]
        · have h1 : ¬ (c + 1 ≤ idx) := by omega
          simp only [h1, hc, if_false]

theorem ext_matches_lt (name : Option String) (l : List uci_section) (pos i : Nat)
    (h : i ∈ ext_matches name l pos) : pos ≤ i ∧ i < pos + l.length := by
  induction l generalizing pos with
  | nil => simp [ext_matches] at h
  | cons s rest ih =>
    simp only [ext_matches] at h
    simp only [List.length_cons]
    split at h
    · have := ih (pos + 1) h; omega
    · rcases List.mem_cons.1 h with h | h
      · omega
      · have := ih (pos + 1) h; omega

theorem ext_matches_sections (name : Option String) (l pre : List uci_section) :
    (ext_matches name l pre.length).filterMap (fun i => (pre ++ l)[i]?) =
      l.filter (fun s => !ext_skip name s) := by
  induction l generalizing pre with
  | nil => simp [ext_matches]
  | cons s rest ih =>
    have h := ih (pre ++ [s])
    simp only [List.length_append, List.length_singleton, List.append_assoc,
      List.singleton_append] at h
    simp only [ext_matches]
    split
    · next hs => simp [List.filter_cons, hs, h]
    · next hs =>
      have hget : (pre ++ s :: rest)[pre.length]? = some s := by
        rw [List.getElem?_append_right (Nat.le_refl _)]
        simp
      simp [List.filter_cons, hs, h, List.filterMap_cons, hget]

theorem ext_select_eq (sections : List uci_section) (name : Option String) (idx : Int) :
    ext_select sections name idx =
      if 0 ≤ idx ∧ idx < (ext_matches name sections 0).length then
        (ext_matches name sections 0)[idx.toNat]?
      else if -((ext_matches name sections 0).length : Int) ≤ idx ∧ idx < 0 then
        (ext_matches name sections 0)[(((ext_matches name sections 0).length : Int) + idx).toNat]?
      else none := by
  simp only [ext_select, ext_find_eq, ext_count_eq name sections 0 0]
  by_cases h0 : idx < 0
  · have h1 : ¬ (0 ≤ idx ∧ idx < ((ext_matches name sections 0).length : Int)) := by omega
    simp only [h0, h1, if_true, if_false, and_true]
    by_cases h2 : -((ext_matches name sections 0).length : Int) ≤ idx
    · have h3 : (0 : Int) ≤ idx + (0 + ((ext_matches name sections 0).length : Int)) := by omega
      simp only [h2, h3, if_true]
      congr 1
      omega
    · have h3 : ¬ ((0 : Int) ≤ idx + (0 + ((ext_matches name sections 0).length : Int))) := by
        omega
      simp only [h2, h3, if_false]
  · have h1 : ¬ (-((ext_matches name sections 0).length : Int) ≤ idx ∧ idx < 0) := by omega
    have h2 : (0 : Int) ≤ idx := by omega
    simp only [h0, h1, h2, if_true, if_false, true_and, sub_zero]
    split
    · rfl
    · next h3 =>
      simp only [and_false, if_false]
      refine List.getElem?_eq_none ?_
      omega

theorem digitChar_digit (d : Nat) (h : d < 10) :
    c_isdigit (Nat.digitChar d) = true ∧ (Nat.digitChar d).toNat - 48 = d ∧
      Nat.digitChar d ≠ ']' ∧ c_isspace (Nat.digitChar d) = false ∧
      Nat.digitChar d ≠ '-' ∧ Nat.digitChar d ≠ '+' := by
  interval_cases d <;> decide

theorem toDigitsCore_10 (fuel n : Nat) (ds : List Char) (h : n < fuel) :
    ∃ xs, Nat.toDigitsCore 10 fuel n ds = xs ++ ds ∧ xs ≠ [] ∧
      (∀ c ∈ xs, c_isdigit c = true ∧ c ≠ ']') ∧
      ∀ acc, digits_value acc xs = acc * 10 ^ xs.length + n := by
  induction fuel generalizing n ds with
  | zero => omega
  | succ fuel ih =>
    have hd := digitChar_digit (n % 10) (Nat.mod_lt _ (by decide))
    by_cases h0 : n / 10 = 0
    · refine ⟨[Nat.digitChar (n % 10)], by simp [Nat.toDigitsCore, h0], by simp, ?_, ?_⟩
      · intro c hc
        rw [List.mem_singleton.1 hc]
        exact ⟨hd.1, hd.2.2.1⟩
      · intro acc
        simp only [digits_value, List.foldl_cons, List.foldl_nil, hd.2.1, List.length_singleton,
          pow_one]
        omega
    · obtain ⟨xs, hxs, hne, hdig, hval⟩ := ih (n / 10) (Nat.digitChar (n % 10) :: ds) (by omega)
      refine ⟨xs ++ [Nat.digitChar (n % 10)], ?_, by simp, ?_, ?_⟩
      · simp only [Nat.toDigitsCore, h0, if_false, hxs, List.append_assoc, List.singleton_append]
      · intro c hc
        rcases List.mem_append.1 hc with h1 | h1
        · exact hdig c h1
        · rw [List.mem_singleton.1 h1]
          exact ⟨hd.1, hd.2.2.1⟩
      · intro acc
        have := hval acc
        simp only [digits_value] at this
        simp only [digits_value, List.foldl_append, this, List.foldl_cons, List.foldl_nil,
          hd.2.1, List.length_append, List.length_singleton, pow_succ]
        have h2 := Nat.div_add_mod n 10
        nlinarith [h2]

theorem c_digits_append (xs ys : List Char) (acc : Nat) (h : ∀ c ∈ xs, c_isdigit c = true) :
    c_digits (xs ++ ys) acc = c_digits ys (digits_value acc xs) := by
  induction xs generalizing acc with
  | nil => rfl
  | cons c r ih =>
    have hc := h c (List.mem_cons_self _ _)
    simp only [List.cons_append, c_digits, hc, if_true, digits_value, List.foldl_cons]
    exact ih _ (fun d hd => h d (List.mem_cons_of_mem _ hd))

theorem fmt_d_data (i : Int) :
    (fmt_d i).data =
      if 0 ≤ i then Nat.toDigits 10 i.toNat else '-' :: Nat.toDigits 10 (-i).toNat := by
  cases i with
  | ofNat n =>
    have h : (0 : Int) ≤ Int.ofNat n := Int.ofNat_nonneg n
    simp only [h, if_true]
    rfl
  | negSucc n =>
    have h : ¬ (0 : Int) ≤ Int.negSucc n := by simp
    simp only [h, if_false]
    rfl

theorem c_strtol_digits (bits n : Nat) (neg : Bool) :
    c_strtol bits ((if neg then ['-'] else []) ++ Nat.toDigits 10 n) =
      (clamp_long bits (if neg then -(n : Int) else (n : Int)), []) := by
  obtain ⟨xs, hxs, hne, hdig, hval⟩ := toDigitsCore_10 (n + 1) n [] (Nat.lt_succ_self n)
  have htd : Nat.toDigits 10 n = xs := by
    rw [Nat.toDigits, hxs, List.append_nil]
  rw [htd]
  obtain ⟨c, r, rfl⟩ := List.exists_cons_of_ne_nil hne
  have hc := hdig c (List.mem_cons_self _ _)
  have hcd : c_isdigit c = true := hc.1
  have hsp : c_isspace c = false := by
    simp only [c_isdigit, Bool.and_eq_true, decide_eq_true_eq] at hcd
    simp only [c_isspace, Bool.or_eq_false_iff, Bool.and_eq_false_iff, decide_eq_false_iff_not]
    omega
  have hm : c ≠ '-' := by
    intro h; subst h; revert hcd; decide
  have hp : c ≠ '+' := by
    intro h; subst h; revert hcd; decide
  have hall : ∀ d ∈ c :: r, c_isdigit d = true := fun d hd => (hdig d hd).1
  have hdg : c_digits (c :: r) 0 = (n, []) := by
    have := c_digits_append (c :: r) [] 0 hall
    rw [List.append_nil] at this
    rw [this, hval 0]
    simp [c_digits]
  cases neg with
  | true =>
    have hsm : c_isspace '-' = false := by decide
    simp only [if_true, List.singleton_append, c_strtol, c_skip_space, hsm, c_sign,
      Bool.false_eq_true, if_false, hcd, hdg]
    simp only [List.append_eq, List.nil_append, hcd, hdg, if_true]
  | false =>
    simp only [Bool.false_eq_true, if_false, List.nil_append, c_strtol, c_skip_space, hsp, c_sign,
      hm, hp, hcd, hdg, if_true]

theorem c_strtol_fmt_d (bits : Nat) (i : Int) :
    c_strtol bits (fmt_d i).data = (clamp_long bits i, []) := by
  rw [fmt_d_data]
  by_cases h : 0 ≤ i
  · have := c_strtol_digits bits i.toNat false
    simp only [Bool.false_eq_true, if_false, List.nil_append] at this
    simp only [h, if_true, this]
    congr 2
    omega
  · have := c_strtol_digits bits (-i).toNat true
    simp only [if_true, List.singleton_append] at this
    simp only [h, if_false, this]
    congr 2
    omega

theorem fmt_d_no_bracket (i : Int) : ∀ c ∈ (fmt_d i).data, c ≠ ']' := by
  rw [fmt_d_data]
  have hd : ∀ n, ∀ c ∈ Nat.toDigits 10 n, c ≠ ']' := by
    intro n c hc
    obtain ⟨xs, hxs, _, hdig, _⟩ := toDigitsCore_10 (n + 1) n [] (Nat.lt_succ_self n)
    rw [Nat.toDigits, hxs, List.append_nil] at hc
    exact (hdig c hc).2
  split
  · exact hd _
  · intro c hc
    rcases List.mem_cons.1 hc with h | h
    · rw [h]; decide
    · exact hd _ c h

theorem c_strchr_append (xs ys : List Char) (c : Char) (h : ∀ d ∈ xs, d ≠ c) :
    c_strchr (xs ++ c :: ys) c = some (xs, ys) := by
  induction xs with
  | nil => simp [c_strchr]
  | cons a r ih =>
    have ha : a ≠ c := h a (List.mem_cons_self _ _)
    simp only [List.cons_append, c_strchr, ha, if_false]
    simp only [List.append_eq, ih (fun d hd => h d (List.mem_cons_of_mem _ hd))]

theorem to_int32_id (i : Int) (h0 : -2 ^ 31 ≤ i) (h1 : i < 2 ^ 31) : to_int32 i = i := by
  simp only [to_int32]
  omega

theorem clamp_long_id (bits : Nat) (i : Int) (hb : 32 ≤ bits) (h0 : -2 ^ 31 ≤ i)
    (h1 : i < 2 ^ 31) : clamp_long bits i = i := by
  have hp : (2 : Int) ^ 31 ≤ 2 ^ (bits - 1) :=
    pow_le_pow_right₀ (by norm_num) (by omega)
  simp only [clamp_long]
  omega

/-- Every filter and 32-bit index has an expression: `@type[index]` parses to
them. -/
theorem ext_parse_expr (pf : uci_platform) (t : Option String) (i : Int)
    (hb : 32 ≤ pf.long_bits) (h0 : -2 ^ 31 ≤ i) (h1 : i < 2 ^ 31)
    (ht : ∀ n, t = some n → n ≠ "" ∧ pf.uci_validate_type n = true ∧ ∀ c ∈ n.data, c ≠ '[') :
    ext_parse pf (ext_expr t i) = some (t, i) := by
  have hst := c_strtol_fmt_d pf.long_bits i
  have hconv : to_int32 (clamp_long pf.long_bits i) = i := by
    rw [clamp_long_id _ _ hb h0 h1, to_int32_id _ h0 h1]
  have hdat : (ext_expr t i).data =
      '@' :: ((t.getD "").data ++ '[' :: ((fmt_d i).data ++ ']' :: [])) := by
    simp [ext_expr]
  have h2 := c_strchr_append (fmt_d i).data [] ']' (fmt_d_no_bracket i)
  cases t with
  | none =>
    have h1 : c_strchr (("" : String).data ++ '[' :: ((fmt_d i).data ++ ']' :: [])) '[' =
        some ([], (fmt_d i).data ++ ']' :: []) := c_strchr_append [] _ '[' (by simp)
    simp only [Option.getD_none] at hdat
    simp only [ext_parse, hdat, h1, h2, hst, hconv, ne_eq, not_true_eq_false, if_false, if_true]
  | some n =>
    obtain ⟨hne, hv, hnb⟩ := ht n rfl
    have hdata : n.data ≠ [] := by
      intro h
      apply hne
      cases n
      simp only at h
      rw [h]
    have h1 := c_strchr_append n.data ((fmt_d i).data ++ ']' :: []) '[' hnb
    simp only [Option.getD_some] at hdat
    simp only [ext_parse, hdat, h1, h2, hst, hconv, ne_eq, not_true_eq_false, if_false, hdata,
      hv, Bool.not_true, Bool.false_eq_true]

theorem lookup_ext_section_parsed (pf : uci_platform) (sections : List uci_section)
    (ptr : uci_ptr) (sect : String) (t : Option String) (i : Int)
    (h : ext_parse pf sect = some (t, i)) :
    (uci_lookup_ext_section pf sections ptr sect).1 = uci_rc.UCI_OK ∧
    (uci_lookup_ext_section pf sections ptr sect).2.1 =
      if 0 ≤ i ∧ i < (ext_matches t sections 0).length then
        (ext_matches t sections 0)[i.toNat]?
      else if -((ext_matches t sections 0).length : Int) ≤ i ∧ i < 0 then
        (ext_matches t sections 0)[(((ext_matches t sections 0).length : Int) + i).toNat]?
      else none := by
  rw [← ext_select_eq]
  simp only [uci_lookup_ext_section, h]
  cases hsel : ext_select sections t i with
  | none => simp
  | some k =>
    have hk : k ∈ ext_matches t sections 0 := by
      rw [ext_select_eq] at hsel
      split at hsel
      · exact List.getElem?_mem hsel
      · split at hsel
        · exact List.getElem?_mem hsel
        · cases hsel
    have hlt := (ext_matches_lt t sections 0 k hk).2
    have hlt2 : k < sections.length := by omega
    simp [List.getElem?_eq_getElem hlt2]

/-- C1. Extended section lookup: for every section list, every optional type
filter `t` (a valid type name without `[`) and every index `i` of 32 bits,
let `M` list the positions of the sections whose type equals `t` (all
positions without a filter), which is the subsequence of the section list
selected by the filter.  The expression `@t[i]` parses to `t` and `i`, and on
every expression that does `uci_lookup_ext_section` returns `UCI_OK` and finds
`M[i]` for `0 ≤ i < |M|`, `M[|M| + i]` for `-|M| ≤ i < 0`, and no section
otherwise. -/
theorem lookup_ext_section_index (pf : uci_platform) (sections : List uci_section)
    (ptr : uci_ptr) (t : Option String) (i : Int)
    (hb : 32 ≤ pf.long_bits) (h0 : -2 ^ 31 ≤ i) (h1 : i < 2 ^ 31)
    (ht : ∀ n, t = some n → n ≠ "" ∧ pf.uci_validate_type n = true ∧ ∀ c ∈ n.data, c ≠ '[') :
    (ext_matches t sections 0).filterMap (fun k => sections[k]?) =
        sections.filter (fun s => match t with
          | some n => decide (s.type = n)
          | none => true) ∧
    ext_parse pf (ext_expr t i) = some (t, i) ∧
    ∀ sect, ext_parse pf sect = some (t, i) →
      (uci_lookup_ext_section pf sections ptr sect).1 = uci_rc.UCI_OK ∧
      (uci_lookup_ext_section pf sections ptr sect).2.1 =
        if 0 ≤ i ∧ i < (ext_matches t sections 0).length then
          (ext_matches t sections 0)[i.toNat]?
        else if -((ext_matches t sections 0).length : Int) ≤ i ∧ i < 0 then
          (ext_matches t sections 0)[(((ext_matches t sections 0).length : Int) + i).toNat]?
        else none := by
  refine ⟨?_, ext_parse_expr pf t i hb h0 h1 ht, ?_⟩
  · have h1 := ext_matches_sections t sections []
    simp only [List.length_nil, List.nil_append] at h1
    rw [h1]
    congr 1
    funext s
    cases t <;> simp [ext_skip]
  · intro sect h
    exact lookup_ext_section_parsed pf sections ptr sect t i h

/-- C1 at the sections of types `[a, b, a, a]`: `@a[0]` finds position 0,
`@a[-1]` position 3, `@a[5]` nothing, `@[1]` position 1. -/
theorem lookup_ext_section_index_witness :
    (uci_lookup_ext_section example_platform example_sections uci_ptr_zero "@a[0]").2.1 = some 0 ∧
    (uci_lookup_ext_section example_platform example_sections uci_ptr_zero "@a[-1]").2.1
      = some 3 ∧
    (uci_lookup_ext_section example_platform example_sections uci_ptr_zero "@a[5]").2.1 = none ∧
    (uci_lookup_ext_section example_platform example_sections uci_ptr_zero "@[1]").2.1
      = some 1 := by
  have ha : ∀ n, some "a" = some n →
      n ≠ "" ∧ example_platform.uci_validate_type n = true ∧ ∀ c ∈ n.data, c ≠ '[' := by
    intro n hn
    cases hn
    decide
  have h0 := ((lookup_ext_section_index example_platform example_sections uci_ptr_zero
    (some "a") 0 (by decide) (by decide) (by decide) ha).2.2 "@a[0]" (by decide)).2
  have h1 := ((lookup_ext_section_index example_platform example_sections uci_ptr_zero
    (some "a") (-1) (by decide) (by decide) (by decide) ha).2.2 "@a[-1]" (by decide)).2
  have h2 := ((lookup_ext_section_index example_platform example_sections uci_ptr_zero
    (some "a") 5 (by decide) (by decide) (by decide) ha).2.2 "@a[5]" (by decide)).2
  have h3 := ((lookup_ext_section_index example_platform example_sections uci_ptr_zero
    none 1 (by decide) (by decide) (by decide) (fun n hn => by cases hn)).2.2 "@[1]"
    (by decide)).2
  refine ⟨h0.trans (by decide), h1.trans (by decide), h2.trans (by decide), h3.trans (by decide)⟩

/-! ## Repositioning a list node -/
theorem set_pos_walk_head {α : Type} (rest : List α) (pos : Int) (hd : Option α) :
    set_pos_walk rest pos hd =
      match set_pos_walk rest pos none with
      | none => hd
      | some q => some q := by
  induction rest generalizing pos hd with
  | nil => simp [set_pos_walk]
  | cons p r ih =>
    simp only [set_pos_walk]
    split
    · rfl
    · rw [ih (pos - 1) (some p)]
      cases h : set_pos_walk r (pos - 1) none <;> simp

theorem set_pos_walk_eq {α : Type} (rest : List α) (pos : Int) :
    set_pos_walk rest pos none =
      if min pos.toNat rest.length = 0 then none
      else rest[min pos.toNat rest.length - 1]? := by
  induction rest generalizing pos with
  | nil => simp [set_pos_walk]
  | cons p r ih =>
    simp only [set_pos_walk]
    split
    · next h =>
      have : pos.toNat = 0 := by omega
      simp [this]
    · next h =>
      rw [set_pos_walk_head, ih (pos - 1)]
      have h1 : pos.toNat = (pos - 1).toNat + 1 := by omega
      have h2 : min pos.toNat (p :: r).length = min (pos - 1).toNat r.length + 1 := by
        simp only [List.length_cons]; omega
      rw [h2]
      simp only [Nat.add_one_ne_zero, if_false, Nat.add_sub_cancel]
      by_cases h3 : min (pos - 1).toNat r.length = 0
      · rw [if_pos h3, h3]
        simp
      · obtain ⟨m, hm⟩ : ∃ m, min (pos - 1).toNat r.length = m + 1 :=
          ⟨_, (Nat.succ_pred_eq_of_ne_zero h3).symm⟩
        rw [hm]
        simp only [Nat.add_one_ne_zero, if_false, Nat.add_sub_cancel, List.getElem?_cons_succ]
        have hlt : m < r.length := by omega
        rw [List.getElem?_eq_getElem hlt]

theorem list_insert_after_eq {α : Type} [DecidableEq α] (l : List α) (hnd : l.Nodup) (k : Nat)
    (hk : k < l.length) (x : α) :
    uci_list_insert l l[k]? x = list_insert_at l (k + 1) x := by
  induction l generalizing k with
  | nil => simp at hk
  | cons a r ih =>
    cases k with
    | zero => simp [uci_list_insert, list_insert_at]
    | succ k =>
      simp only [List.length_cons, Nat.add_lt_add_iff_right] at hk
      have hne : a ≠ r[k] := by
        intro h
        have := (List.nodup_cons.1 hnd).1
        exact this (h ▸ List.getElem_mem _)
      simp only [List.getElem?_cons_succ, List.getElem?_eq_getElem hk, uci_list_insert, hne,
        if_false]
      have := ih (List.nodup_cons.1 hnd).2 k hk
      rw [List.getElem?_eq_getElem hk] at this
      rw [this]
      simp [list_insert_at]

theorem set_pos_insert_eq {α : Type} [DecidableEq α] (rest : List α) (hnd : rest.Nodup)
    (pos : Int) (x : α) :
    uci_list_insert rest (set_pos_walk rest pos none) x =
      list_insert_at rest (min pos.toNat rest.length) x := by
  rw [set_pos_walk_eq]
  split
  · next h => rw [h]; simp [uci_list_insert, list_insert_at]
  · next h =>
    obtain ⟨m, hm⟩ : ∃ m, min pos.toNat rest.length = m + 1 :=
      ⟨_, (Nat.succ_pred_eq_of_ne_zero h).symm⟩
    rw [hm]
    simp only [Nat.add_sub_cancel]
    exact list_insert_after_eq rest hnd m (by omega) x

theorem uci_list_prev_eq {α : Type} [DecidableEq α] (l : List α) (x : α) (hx : x ∈ l) :
    uci_list_prev l x = if l.indexOf x = 0 then none else l[l.indexOf x - 1]? := by
  induction l with
  | nil => simp at hx
  | cons a r ih =>
    cases r with
    | nil =>
      have : a = x := by simpa using (List.mem_singleton.1 hx).symm
      subst this
      simp [uci_list_prev]
    | cons b r2 =>
      simp only [uci_list_prev]
      by_cases h1 : a = x
      · subst h1; simp
      · have hx2 : x ∈ b :: r2 := by
          rcases List.mem_cons.1 hx with h | h
          · exact absurd h.symm h1
          · exact h
        have hi : List.indexOf x (a :: b :: r2) = List.indexOf x (b :: r2) + 1 := by
          rw [List.indexOf_cons_ne _ h1]
        simp only [h1, if_false, hi, Nat.add_one_ne_zero, Nat.add_sub_cancel]
        by_cases h2 : b = x
        · subst h2; simp
        · have ih2 := ih hx2
          have hj : List.indexOf x (b :: r2) = List.indexOf x r2 + 1 := by
            rw [List.indexOf_cons_ne _ h2]
          rw [hj] at ih2 ⊢
          simp only [h2, if_false]
          simp only [Nat.add_one_ne_zero, if_false, Nat.add_sub_cancel] at ih2
          rw [ih2, List.getElem?_cons_succ]

theorem nodup_getElem?_ne {α : Type} (l : List α) (hnd : l.Nodup) (a b : Nat) (hab : a ≠ b)
    (ha : a < l.length) (hb : b < l.length) : l[a]? ≠ l[b]? := by
  rcases Nat.lt_or_gt_of_ne hab with h | h
  · exact List.nodup_iff_getElem?_ne_getElem?.1 hnd a b h hb
  · exact fun e => List.nodup_iff_getElem?_ne_getElem?.1 hnd b a h ha e.symm

theorem set_pos_flag_eq {α : Type} [DecidableEq α] (l : List α) (hnd : l.Nodup) (x : α)
    (hx : x ∈ l) (pos : Int) :
    (uci_list_prev l x ≠ set_pos_walk (uci_list_del l x) pos none) ↔
      clamp_pos pos l.length ≠ l.indexOf x := by
  have hi : l.indexOf x < l.length := List.indexOf_lt_length.2 hx
  have hlen : (l.erase x).length = l.length - 1 := List.length_erase_of_mem hx
  rw [uci_list_prev_eq l x hx, set_pos_walk_eq, uci_list_del, hlen]
  have herase : l.erase x = l.eraseIdx (l.indexOf x) := (List.eraseIdx_indexOf_eq_erase x l).symm
  rw [herase]
  simp only [clamp_pos, List.getElem?_eraseIdx]
  generalize l.indexOf x = i at hi
  generalize hk : min pos.toNat (l.length - 1) = k
  have hkl : k ≤ l.length - 1 := by omega
  constructor
  · intro hne hki
    subst hki
    apply hne
    by_cases h0 : k = 0
    · simp [h0]
    · have : k - 1 < k := by omega
      simp [h0, this]
  · intro hki
    by_cases hi0 : i = 0
    · have hk0 : k ≠ 0 := by omega
      simp only [hi0, hk0, if_true, if_false]
      have h1 : ¬ (k - 1 < 0) := by omega
      have h2 : k - 1 + 1 < l.length := by omega
      simp only [h1, if_false, List.getElem?_eq_getElem h2]
      exact fun h => Option.noConfusion h
    · simp only [hi0, if_false]
      by_cases hk0 : k = 0
      · have h2 : i - 1 < l.length := by omega
        simp only [hk0, if_true, List.getElem?_eq_getElem h2]
        exact fun h => Option.noConfusion h
      · simp only [hk0, if_false]
        split
        · exact nodup_getElem?_ne l hnd _ _ (by omega) (by omega) (by omega)
        · exact nodup_getElem?_ne l hnd _ _ (by omega) (by omega) (by omega)

theorem uci_list_set_pos_eq {α : Type} [DecidableEq α] (l : List α) (hnd : l.Nodup) (x : α)
    (hx : x ∈ l) (pos : Int) :
    uci_list_set_pos l x pos =
      (list_insert_at (l.erase x) (clamp_pos pos l.length) x,
        decide (clamp_pos pos l.length ≠ l.indexOf x)) := by
  have hlen : (l.erase x).length = l.length - 1 := List.length_erase_of_mem hx
  simp only [uci_list_set_pos]
  rw [show uci_list_insert (uci_list_del l x) (set_pos_walk (uci_list_del l x) pos none) x =
      list_insert_at (l.erase x) (clamp_pos pos l.length) x from by
    rw [uci_list_del, set_pos_insert_eq _ (hnd.erase x), hlen, clamp_pos]]
  congr 1
  exact decide_eq_decide.2 (set_pos_flag_eq l hnd x hx pos)

theorem indexOf_list_insert_at {α : Type} [DecidableEq α] (l : List α) (x : α) (k : Nat)
    (hx : x ∉ l) (hk : k ≤ l.length) : (list_insert_at l k x).indexOf x = k := by
  rw [list_insert_at, List.indexOf_append_of_not_mem (fun h => hx (List.mem_of_mem_take h))]
  simp [List.length_take, Nat.min_eq_left hk]

theorem map_eraseIdx_eq {α β : Type} (g : α → β) (l : List α) (i : Nat) :
    (l.eraseIdx i).map g = (l.map g).eraseIdx i := by
  induction l generalizing i with
  | nil => simp
  | cons a r ih => cases i <;> simp [ih]

theorem filterMap_eq_map_of_some {α β : Type} (f : α → Option β) (g : α → β) (l : List α)
    (h : ∀ a ∈ l, f a = some (g a)) : l.filterMap f = l.map g := by
  induction l with
  | nil => simp
  | cons a r ih =>
    rw [List.filterMap_cons, h a (List.mem_cons_self _ _), List.map_cons,
      ih (fun b hb => h b (List.mem_cons_of_mem _ hb))]

theorem map_range_getD {α : Type} (l : List α) (d : α) :
    (List.range l.length).map (fun i => (l[i]?).getD d) = l := by
  apply List.ext_getElem?
  intro i
  by_cases h : i < l.length
  · simp [List.getElem?_map, List.getElem?_range h, List.getElem?_eq_getElem h]
  · have h1 : l.length ≤ i := by omega
    rw [List.getElem?_eq_none h1, List.getElem?_eq_none (by simpa using h1)]

theorem range_erase {n i : Nat} (h : i < n) :
    (List.range n).erase i = (List.range n).eraseIdx i := by
  have h1 := List.eraseIdx_indexOf_eq_erase i (List.range n)
  have h2 : List.indexOf i (List.range n) = i := by
    have := List.indexOf_getElem (List.nodup_range n) i (by simpa using h)
    simpa using this
  rw [← h1, h2]

/-- The new order `uci_list_set_pos` gives the positions of a list, applied
to the list itself. -/
theorem set_pos_range_sections {α : Type} (l : List α) (si : Nat) (sec : α)
    (hs : l[si]? = some sec) (pos : Int) :
    (uci_list_set_pos (List.range l.length) si pos).1.filterMap (fun i => l[i]?) =
        list_insert_at (l.eraseIdx si) (clamp_pos pos l.length) sec ∧
    (uci_list_set_pos (List.range l.length) si pos).2 = decide (clamp_pos pos l.length ≠ si) := by
  have hlt : si < l.length := by
    by_contra h
    rw [List.getElem?_eq_none (by omega)] at hs
    cases hs
  have hmem : si ∈ List.range l.length := List.mem_range.2 hlt
  have hidx : List.indexOf si (List.range l.length) = si := by
    have := List.indexOf_getElem (List.nodup_range l.length) si (by simpa using hlt)
    simpa using this
  rw [uci_list_set_pos_eq _ (List.nodup_range _) si hmem pos]
  simp only [List.length_range, hidx, and_true]
  rw [filterMap_eq_map_of_some (fun i => l[i]?) (fun i => (l[i]?).getD sec)]
  · simp only [list_insert_at, List.map_append, List.map_cons, List.map_take, List.map_drop,
      range_erase hlt, map_eraseIdx_eq, map_range_getD, hs, Option.getD_some]
  · intro a ha
    have ha1 : a ∈ List.range l.length := by
      simp only [list_insert_at, List.mem_append, List.mem_cons] at ha
      rcases ha with h | h | h
      · exact List.mem_of_mem_erase (List.mem_of_mem_take h)
      · exact h ▸ hmem
      · exact List.mem_of_mem_erase (List.mem_of_mem_drop h)
    have ha2 : a < l.length := List.mem_range.1 ha1
    simp [List.getElem?_eq_getElem ha2]

theorem list_insert_at_eraseIdx {α : Type} (l : List α) (i : Nat) (x : α) (h : l[i]? = some x) :
    list_insert_at (l.eraseIdx i) i x = l := by
  induction l generalizing i with
  | nil => simp at h
  | cons a r ih =>
    cases i with
    | zero =>
      simp only [List.getElem?_cons_zero, Option.some.injEq] at h
      simp [list_insert_at, h]
    | succ i =>
      simp only [List.getElem?_cons_succ] at h
      have := ih i h
      simp only [list_insert_at] at this
      simp [list_insert_at, this]

theorem reorder_section_eq (ctx : uci_context) (pi si : Nat) (pos : Int) (pkg : uci_package)
    (sec : uci_section) (n : String) (hint : ctx.internal = false)
    (hp : ctx.root[pi]? = some pkg) (hd : pkg.has_delta = true)
    (hs : pkg.sections[si]? = some sec) (hn : sec.name = some n) :
    uci_reorder_section ctx pi si pos =
      (uci_rc.UCI_OK,
        { root := ctx.root.set pi
            { pkg with
              sections :=
                list_insert_at (pkg.sections.eraseIdx si) (clamp_pos pos pkg.sections.length) sec,
              delta :=
                if clamp_pos pos pkg.sections.length ≠ si then
                  pkg.delta ++ [{ cmd := uci_command.UCI_CMD_REORDER, section_ := n, name := none,
                                  value := some (fmt_d pos) }]
                else pkg.delta },
          internal := false }) := by
  have h := set_pos_range_sections pkg.sections si sec hs pos
  simp only [uci_reorder_section, UCI_HANDLE_ERR, hp, hs, h.1, h.2, hint, track, hd, hn,
    uci_add_delta, put_package, put_delta]
  by_cases hk : clamp_pos pos pkg.sections.length = si
  · simp [hk]
  · simp [hk]

/-- C7. On a list of distinct nodes `uci_list_set_pos` returns `true` exactly
when the index of the node after the call differs from its index before;
with `pos` the current index it returns `false` and leaves the list as it
is; and `uci_reorder_section` in tracked mode appends one Reorder delta
exactly when the position of the section changed (it ends at position
`clamp_pos pos n` of the `n` sections). -/
theorem list_set_pos_moved_iff (α : Type) [DecidableEq α] (l : List α) (x : α) (pos : Int)
    (ctx : uci_context) (pi si : Nat) (pkg : uci_package) (sec : uci_section) (n : String)
    (hnd : l.Nodup) (hx : x ∈ l) (hint : ctx.internal = false)
    (hp : ctx.root[pi]? = some pkg) (hd : pkg.has_delta = true)
    (hs : pkg.sections[si]? = some sec) (hn : sec.name = some n) :
    ((uci_list_set_pos l x pos).2 = true ↔
        (uci_list_set_pos l x pos).1.indexOf x ≠ l.indexOf x) ∧
    (pos = (l.indexOf x : Int) → uci_list_set_pos l x pos = (l, false)) ∧
    uci_reorder_section ctx pi si pos =
      (uci_rc.UCI_OK,
        { root := ctx.root.set pi
            { pkg with
              sections :=
                list_insert_at (pkg.sections.eraseIdx si) (clamp_pos pos pkg.sections.length) sec,
              delta :=
                if clamp_pos pos pkg.sections.length ≠ si then
                  pkg.delta ++ [{ cmd := uci_command.UCI_CMD_REORDER, section_ := n, name := none,
                                  value := some (fmt_d pos) }]
                else pkg.delta },
          internal := false }) ∧
    (list_insert_at (pkg.sections.eraseIdx si) (clamp_pos pos pkg.sections.length) sec)[
        clamp_pos pos pkg.sections.length]? = some sec := by
  have hi : l.indexOf x < l.length := List.indexOf_lt_length.2 hx
  have hlen : (l.erase x).length = l.length - 1 := List.length_erase_of_mem hx
  have hidx : (list_insert_at (l.erase x) (clamp_pos pos l.length) x).indexOf x
      = clamp_pos pos l.length :=
    indexOf_list_insert_at _ x _ (fun h => (List.Nodup.mem_erase_iff hnd).1 h |>.1 rfl)
      (by rw [hlen, clamp_pos]; omega)
  refine ⟨?_, ?_, reorder_section_eq ctx pi si pos pkg sec n hint hp hd hs hn, ?_⟩
  · rw [uci_list_set_pos_eq l hnd x hx pos]
    simp only [hidx, decide_eq_true_eq]
  · intro hpos
    rw [uci_list_set_pos_eq l hnd x hx pos]
    have hk : clamp_pos pos l.length = l.indexOf x := by
      rw [clamp_pos, hpos]
      simp only [Int.toNat_ofNat]
      omega
    rw [hk, ← List.eraseIdx_indexOf_eq_erase x l,
      list_insert_at_eraseIdx l _ x (by rw [List.getElem?_eq_getElem hi, List.getElem_indexOf])]
    simp
  · have hlt : si < pkg.sections.length := by
      by_contra h
      rw [List.getElem?_eq_none (by omega)] at hs
      cases hs
    have hk : clamp_pos pos pkg.sections.length ≤ (pkg.sections.eraseIdx si).length := by
      rw [List.length_eraseIdx_of_lt hlt, clamp_pos]
      omega
    rw [list_insert_at, List.getElem?_append_right (by simp [List.length_take, hk])]
    simp [List.length_take, Nat.min_eq_left hk]

theorem list_set_pos_moved_iff_witness :
    ((uci_list_set_pos [10, 20, 30] 20 2).2 = true ↔
        (uci_list_set_pos [10, 20, 30] 20 2).1.indexOf 20 ≠ [10, 20, 30].indexOf 20) ∧
    uci_list_set_pos [10, 20, 30] 20 1 = ([10, 20, 30], false) ∧
    (uci_reorder_section example_context 0 0 1).1 = uci_rc.UCI_OK ∧
    (uci_reorder_section example_context 0 0 0).2 = example_context := by
  have h := list_set_pos_moved_iff Nat [10, 20, 30] 20 2 example_context 0 0
    { name := some "net",
         sections :=
           [{ name := some "lan", type := "interface", anonymous := false,
              options := [{ name := some "proto", v := uci_option_v.string "dhcp" },
                          { name := some "dns", v := uci_option_v.list ["x", "y", "z"] }] },
            { name := some "wan", type := "interface", anonymous := false, options := [] },
            { name := some "cfg03a1b2", type := "rule", anonymous := true, options := [] }],
         n_section := 3, has_delta := true, delta := [], saved_delta := [] }
    { name := some "lan", type := "interface", anonymous := false,
              options := [{ name := some "proto", v := uci_option_v.string "dhcp" },
                          { name := some "dns", v := uci_option_v.list ["x", "y", "z"] }] }
    "lan" (by decide) (by decide) rfl rfl rfl rfl rfl
  exact ⟨h.1, by decide, by decide, by decide⟩

/-! ## Anonymous names -/

theorem toDigitsCore_small (fuel n : Nat) (ds : List Char) (h : n < 16) :
    Nat.toDigitsCore 16 (fuel + 1) n ds = Nat.digitChar n :: ds := by
  have h1 : n / 16 = 0 := by omega
  have h2 : n % 16 = n := by omega
  simp [Nat.toDigitsCore, h1, h2]

theorem toDigitsCore_large (fuel n : Nat) (ds : List Char) (h : 16 ≤ n) :
    Nat.toDigitsCore 16 (fuel + 1) n ds =
      Nat.toDigitsCore 16 fuel (n / 16) (Nat.digitChar (n % 16) :: ds) := by
  have h1 : n / 16 ≠ 0 := by omega
  simp [Nat.toDigitsCore, h1]

theorem toDigits_lt_16 (v : Nat) (h : v < 16) : Nat.toDigits 16 v = [Nat.digitChar v] := by
  rw [Nat.toDigits, toDigitsCore_small _ _ _ h]

theorem toDigits_lt_256 (v : Nat) (h1 : 16 ≤ v) (h : v < 256) :
    Nat.toDigits 16 v = [Nat.digitChar (v / 16), Nat.digitChar (v % 16)] := by
  obtain ⟨w, rfl⟩ : ∃ w, v = w + 1 := ⟨v - 1, by omega⟩
  rw [Nat.toDigits, toDigitsCore_large _ _ _ h1, toDigitsCore_small _ _ _ (by omega)]

theorem toDigits_lt_4096 (v : Nat) (h1 : 256 ≤ v) (h : v < 4096) :
    Nat.toDigits 16 v =
      [Nat.digitChar (v / 256), Nat.digitChar (v / 16 % 16), Nat.digitChar (v % 16)] := by
  obtain ⟨w, rfl⟩ : ∃ w, v = w + 2 := ⟨v - 2, by omega⟩
  rw [Nat.toDigits, toDigitsCore_large _ _ _ (by omega), toDigitsCore_large _ _ _ (by omega),
    toDigitsCore_small _ _ _ (by omega)]
  rw [Nat.div_div_eq_div_mul]

theorem toDigits_lt_65536 (v : Nat) (h1 : 4096 ≤ v) (h : v < 65536) :
    Nat.toDigits 16 v =
      [Nat.digitChar (v / 4096), Nat.digitChar (v / 256 % 16), Nat.digitChar (v / 16 % 16),
        Nat.digitChar (v % 16)] := by
  obtain ⟨w, rfl⟩ : ∃ w, v = w + 3 := ⟨v - 3, by omega⟩
  rw [Nat.toDigits, toDigitsCore_large _ _ _ (by omega), toDigitsCore_large _ _ _ (by omega),
    toDigitsCore_large _ _ _ (by omega), toDigitsCore_small _ _ _ (by omega)]
  rw [Nat.div_div_eq_div_mul, Nat.div_div_eq_div_mul, Nat.div_div_eq_div_mul]

theorem fmt_x_4_eq (v : Nat) (h : v < 65536) :
    fmt_x 4 v =
      [Nat.digitChar (v / 4096 % 16), Nat.digitChar (v / 256 % 16), Nat.digitChar (v / 16 % 16),
        Nat.digitChar (v % 16)] := by
  have d0 : Nat.digitChar 0 = '0' := rfl
  by_cases h1 : v < 16
  · have e1 : v / 4096 % 16 = 0 := by omega
    have e2 : v / 256 % 16 = 0 := by omega
    have e3 : v / 16 % 16 = 0 := by omega
    have e4 : v % 16 = v := by omega
    rw [fmt_x, toDigits_lt_16 v h1, e1, e2, e3, e4, d0]
    rfl
  · by_cases h2 : v < 256
    · have e1 : v / 4096 % 16 = 0 := by omega
      have e2 : v / 256 % 16 = 0 := by omega
      have e3 : v / 16 % 16 = v / 16 := by omega
      rw [fmt_x, toDigits_lt_256 v (by omega) h2, e1, e2, e3, d0]
      rfl
    · by_cases h3 : v < 4096
      · have e1 : v / 4096 % 16 = 0 := by omega
        have e2 : v / 256 % 16 = v / 256 := by omega
        rw [fmt_x, toDigits_lt_4096 v (by omega) h3, e1, e2, d0]
        rfl
      · have e1 : v / 4096 % 16 = v / 4096 := by omega
        rw [fmt_x, toDigits_lt_65536 v (by omega) h, e1]
        rfl

theorem fmt_x_2_eq (v : Nat) (h : v < 256) :
    fmt_x 2 v = [Nat.digitChar (v / 16), Nat.digitChar (v % 16)] := by
  have d0 : Nat.digitChar 0 = '0' := rfl
  by_cases h1 : v < 16
  · have e1 : v / 16 = 0 := by omega
    have e2 : v % 16 = v := by omega
    rw [fmt_x, toDigits_lt_16 v h1, e1, e2, d0]
    rfl
  · rw [fmt_x, toDigits_lt_256 v (by omega) h]
    rfl

theorem fmt_x_4_length (v : Nat) (h : v < 65536) : (fmt_x 4 v).length = 4 := by
  rw [fmt_x_4_eq v h]; rfl

theorem hash_mod_lt (hash : Nat) : hash % (1 <<< 16) < 65536 := by
  have : (1 <<< 16 : Nat) = 65536 := by decide
  rw [this]
  omega

theorem name_suffix_fixup_name (n : Int) (hash : Nat) :
    name_suffix (fixup_name n hash) = fmt_x 4 (hash % (1 <<< 16)) := by
  have hl := fmt_x_4_length (hash % (1 <<< 16)) (hash_mod_lt hash)
  simp only [name_suffix, fixup_name]
  exact List.drop_left' (by simp only [List.length_append, hl]; omega)

theorem fixup_hash_options_congr (cs : Bool) (l1 l2 : List uci_option) (h : Nat)
    (hv : l1.map (fun o => (o.name, match o.v with
        | uci_option_v.string v => some v
        | uci_option_v.list _ => none)) =
      l2.map (fun o => (o.name, match o.v with
        | uci_option_v.string v => some v
        | uci_option_v.list _ => (none : Option String)))) :
    fixup_hash_options cs l1 h = fixup_hash_options cs l2 h := by
  induction l1 generalizing l2 h with
  | nil =>
    cases l2 with
    | nil => rfl
    | cons b r => simp at hv
  | cons a r ih =>
    cases l2 with
    | nil => simp at hv
    | cons b r2 =>
      simp only [List.map_cons, List.cons.injEq, Prod.mk.injEq] at hv
      obtain ⟨⟨hn, hval⟩, hrest⟩ := hv
      simp only [fixup_hash_options, hn]
      cases hb : b.name with
      | none => rfl
      | some nm =>
        simp only
        cases hav : a.v with
        | string va =>
          cases hbv : b.v with
          | string vb =>
            rw [hav, hbv] at hval
            simp only [Option.some.injEq] at hval
            subst hval
            exact ih r2 _ hrest
          | list ib => rw [hav, hbv] at hval; simp at hval
        | list ia =>
          cases hbv : b.v with
          | string vb => rw [hav, hbv] at hval; simp at hval
          | list ib => exact ih r2 _ hrest

/-- C8. Two unnamed sections with the same type, the same option names in
the same order and the same values of their string options get names with the
same last four characters, the four hexadecimal digits of the hash modulo
`2 ^ 16`, whatever the section counters and the items of list options are
(and `uci_fixup_section` faults on one exactly when it faults on the other). -/
theorem fixup_suffix_deterministic (cs : Bool) (n1 n2 : Int) (s1 s2 : uci_section)
    (h1 : s1.name = none) (h2 : s2.name = none) (hc : hash_content s1 = hash_content s2) :
    fixup_hash cs s1 = fixup_hash cs s2 ∧
    (fixup_hash cs s1 = none →
      uci_fixup_section cs n1 s1 = none ∧ uci_fixup_section cs n2 s2 = none) ∧
    ∀ h, fixup_hash cs s1 = some h →
      uci_fixup_section cs n1 s1 = some { s1 with name := some (fixup_name n1 h) } ∧
      uci_fixup_section cs n2 s2 = some { s2 with name := some (fixup_name n2 h) } ∧
      name_suffix (fixup_name n1 h) = name_suffix (fixup_name n2 h) ∧
      name_suffix (fixup_name n1 h) = fmt_x 4 (h % 65536) ∧
      (fmt_x 4 (h % 65536)).length = 4 := by
  have heq : fixup_hash cs s1 = fixup_hash cs s2 := by
    simp only [hash_content, Prod.mk.injEq] at hc
    simp only [fixup_hash, hc.1]
    exact fixup_hash_options_congr cs _ _ _ hc.2
  refine ⟨heq, ?_, ?_⟩
  · intro hn
    simp [uci_fixup_section, h1, h2, ← heq, hn]
  · intro h hh
    have e : (1 <<< 16 : Nat) = 65536 := by decide
    refine ⟨?_, ?_, ?_, ?_, ?_⟩
    · simp [uci_fixup_section, h1, hh]
    · simp [uci_fixup_section, h2, ← heq, hh]
    · rw [name_suffix_fixup_name, name_suffix_fixup_name]
    · rw [name_suffix_fixup_name, e]
    · exact fmt_x_4_length _ (Nat.mod_lt _ (by decide))

theorem fixup_suffix_deterministic_witness :
    (uci_fixup_section true 1
        { name := none, type := "rule", anonymous := true,
          options := [{ name := some "src", v := uci_option_v.string "lan" },
                      { name := some "ports", v := uci_option_v.list ["80", "443"] }] }).map
        (fun s => s.name) = some (some "cfg01d6f8") ∧
    (uci_fixup_section true 7
        { name := none, type := "rule", anonymous := true,
          options := [{ name := some "src", v := uci_option_v.string "lan" },
                      { name := some "ports", v := uci_option_v.list [] }] }).map
        (fun s => s.name) = some (some "cfg07d6f8") ∧
    name_suffix (fixup_name 1 1346098936) = name_suffix (fixup_name 7 1346098936) := by
  have h := fixup_suffix_deterministic true 1 7
    { name := none, type := "rule", anonymous := true,
      options := [{ name := some "src", v := uci_option_v.string "lan" },
                  { name := some "ports", v := uci_option_v.list ["80", "443"] }] }
    { name := none, type := "rule", anonymous := true,
      options := [{ name := some "src", v := uci_option_v.string "lan" },
                  { name := some "ports", v := uci_option_v.list [] }] }
    rfl rfl (by decide)
  exact ⟨by decide, by decide, (h.2.2 1346098936 (by decide)).2.2.1⟩

theorem to_uint32_small (n : Int) (h0 : 0 ≤ n) (h1 : n < 256) : to_uint32 n = n.toNat := by
  rw [to_uint32, Int.emod_eq_of_lt h0 (by omega)]

theorem fmt_x_length_ge (w v : Nat) : w ≤ (fmt_x w v).length := by
  simp only [fmt_x, pad_zero, List.length_append, List.length_replicate]
  omega

theorem toDigitsCore_length_ge (fuel n : Nat) (ds : List Char) :
    ds.length ≤ (Nat.toDigitsCore 16 fuel n ds).length := by
  induction fuel generalizing n ds with
  | zero => simp [Nat.toDigitsCore]
  | succ f ih =>
    by_cases h : n < 16
    · rw [toDigitsCore_small _ _ _ h]
      simp
    · rw [toDigitsCore_large _ _ _ (by omega)]
      have := ih (n / 16) (Nat.digitChar (n % 16) :: ds)
      simp only [List.length_cons] at this
      omega

theorem toDigits_length_ge_3 (v : Nat) (h : 256 ≤ v) : 3 ≤ (Nat.toDigits 16 v).length := by
  obtain ⟨w, rfl⟩ : ∃ w, v = w + 2 := ⟨v - 2, by omega⟩
  rw [Nat.toDigits, toDigitsCore_large _ _ _ (by omega), toDigitsCore_large _ _ _ (by omega)]
  by_cases h1 : (w + 2) / 16 / 16 < 16
  · rw [toDigitsCore_small _ _ _ h1]
    simp
  · rw [toDigitsCore_large _ _ _ (by omega)]
    have := toDigitsCore_length_ge w ((w + 2) / 16 / 16 / 16)
      [Nat.digitChar ((w + 2) / 16 / 16 % 16), Nat.digitChar ((w + 2) / 16 % 16),
        Nat.digitChar ((w + 2) % 16)]
    simp only [List.length_cons, List.length_nil] at this
    omega

theorem to_uint32_large (n : Int) (h0 : -2 ^ 31 ≤ n) (h1 : n < 2 ^ 31) (h : n < 0 ∨ 256 ≤ n) :
    256 ≤ to_uint32 n := by
  simp only [to_uint32]
  omega

theorem fmt_x_2_length_large (v : Nat) (h : 256 ≤ v) : 3 ≤ (fmt_x 2 v).length := by
  have := toDigits_length_ge_3 v h
  simp only [fmt_x, pad_zero, List.length_append, List.length_replicate]
  omega

/-- C9 (as stated, refuted). With the section counter at 256 the name
`uci_fixup_section` gives an unnamed section of type `rule` is `cfg10092bd`:
the counter is printed with three digits and the name has 10 characters. -/
theorem fixup_name_counter_not_truncated :
    uci_fixup_section true 256 { name := none, type := "rule", anonymous := true, options := [] }
      = some { name := some "cfg10092bd", type := "rule", anonymous := true, options := [] } ∧
    ("cfg10092bd" : String).length = 10 := by
  decide

/-- C9 (amended). For an unnamed section whose hash is `h`, in a package
whose counter is `n`, `uci_fixup_section` sets the name to `cfg`, then the
counter (as `unsigned int`) in hexadecimal padded to at least two digits,
then exactly four hexadecimal digits of `h mod 2 ^ 16`; for `0 ≤ n < 256`
the counter takes exactly two digits and the name has exactly 9 characters,
and it never has fewer; for every other value of the counter in the range
of `int` (negative, or 256 and more) the name has at least 10 characters,
so within that range it has 9 characters exactly when `0 ≤ n < 256`. -/
theorem fixup_name_format (cs : Bool) (n : Int) (s : uci_section) (h : Nat)
    (hname : s.name = none) (hh : fixup_hash cs s = some h) :
    uci_fixup_section cs n s =
      some { s with name := some (String.mk (['c', 'f', 'g'] ++ fmt_x 2 (to_uint32 n) ++
        [Nat.digitChar (h % 65536 / 4096 % 16), Nat.digitChar (h % 65536 / 256 % 16),
         Nat.digitChar (h % 65536 / 16 % 16), Nat.digitChar (h % 65536 % 16)])) } ∧
    9 ≤ (fixup_name n h).length ∧
    (0 ≤ n → n < 256 →
      fixup_name n h =
        String.mk ['c', 'f', 'g', Nat.digitChar (n.toNat / 16), Nat.digitChar (n.toNat % 16),
          Nat.digitChar (h % 65536 / 4096 % 16), Nat.digitChar (h % 65536 / 256 % 16),
          Nat.digitChar (h % 65536 / 16 % 16), Nat.digitChar (h % 65536 % 16)] ∧
      (fixup_name n h).length = 9) ∧
    (-2 ^ 31 ≤ n → n < 2 ^ 31 →
      ((n < 0 ∨ 256 ≤ n) → 10 ≤ (fixup_name n h).length) ∧
      ((fixup_name n h).length = 9 ↔ 0 ≤ n ∧ n < 256)) := by
  have e : (1 <<< 16 : Nat) = 65536 := by decide
  have hf : fixup_name n h = String.mk (['c', 'f', 'g'] ++ fmt_x 2 (to_uint32 n) ++
        [Nat.digitChar (h % 65536 / 4096 % 16), Nat.digitChar (h % 65536 / 256 % 16),
         Nat.digitChar (h % 65536 / 16 % 16), Nat.digitChar (h % 65536 % 16)]) := by
    rw [fixup_name, e, fmt_x_4_eq _ (Nat.mod_lt _ (by decide))]
  have hsmall : 0 ≤ n → n < 256 →
      fixup_name n h =
        String.mk ['c', 'f', 'g', Nat.digitChar (n.toNat / 16), Nat.digitChar (n.toNat % 16),
          Nat.digitChar (h % 65536 / 4096 % 16), Nat.digitChar (h % 65536 / 256 % 16),
          Nat.digitChar (h % 65536 / 16 % 16), Nat.digitChar (h % 65536 % 16)] ∧
      (fixup_name n h).length = 9 := by
    intro h0 h1
    have hx : fmt_x 2 (to_uint32 n) =
        [Nat.digitChar (n.toNat / 16), Nat.digitChar (n.toNat % 16)] := by
      rw [to_uint32_small n h0 h1, fmt_x_2_eq _ (by omega)]
    rw [hf, hx]
    exact ⟨rfl, rfl⟩
  have hlarge : -2 ^ 31 ≤ n → n < 2 ^ 31 → (n < 0 ∨ 256 ≤ n) →
      10 ≤ (fixup_name n h).length := by
    intro h0 h1 h2
    have := fmt_x_2_length_large _ (to_uint32_large n h0 h1 h2)
    rw [hf]
    simp only [String.length, List.length_append, List.length_cons, List.length_nil]
    omega
  refine ⟨?_, ?_, hsmall, ?_⟩
  · simp [uci_fixup_section, hname, hh, hf]
  · rw [hf]
    have := fmt_x_length_ge 2 (to_uint32 n)
    simp only [String.length, List.length_append, List.length_cons, List.length_nil]
    omega
  · intro h0 h1
    refine ⟨hlarge h0 h1, ?_, fun hr => (hsmall hr.1 hr.2).2⟩
    intro h9
    by_contra hn
    have := hlarge h0 h1 (by omega)
    omega

theorem fixup_name_format_witness :
    uci_fixup_section true 3
        { name := none, type := "rule", anonymous := true,
          options := [{ name := some "src", v := uci_option_v.string "lan" }] }
      = some { name := some "cfg033820", type := "rule", anonymous := true,
               options := [{ name := some "src", v := uci_option_v.string "lan" }] } ∧
    (fixup_name 3 0).length = 9 ∧
    10 ≤ (fixup_name 256 1581922336).length ∧
    10 ≤ (fixup_name (-1) 1581922336).length := by
  have h := fixup_name_format true 3
    { name := none, type := "rule", anonymous := true,
      options := [{ name := some "src", v := uci_option_v.string "lan" }] } 1581922336 rfl
    (by decide)
  have h256 := ((fixup_name_format true 256
    { name := none, type := "rule", anonymous := true,
      options := [{ name := some "src", v := uci_option_v.string "lan" }] } 1581922336 rfl
    (by decide)).2.2.2 (by decide) (by decide)).1 (Or.inr (by decide))
  have hneg := ((fixup_name_format true (-1)
    { name := none, type := "rule", anonymous := true,
      options := [{ name := some "src", v := uci_option_v.string "lan" }] } 1581922336 rfl
    (by decide)).2.2.2 (by decide) (by decide)).1 (Or.inl (by decide))
  exact ⟨h.1.trans (by decide), by decide, h256, hneg⟩

/-! ## Setting a string option, deleting a list item -/

theorem lookup_list_elem (names : List (Option String)) (n : String) (i : Nat) :
    uci_lookup_list names (some n) = lookup_res.elem i → names[i]? = some (some n) := by
  induction names generalizing i with
  | nil => intro h; simp [uci_lookup_list] at h
  | cons e rest ih =>
    cases e with
    | none => intro h; simp [uci_lookup_list] at h
    | some en =>
      simp only [uci_lookup_list]
      split
      · next heq =>
        intro h
        cases h
        simp [heq]
      · cases hr : uci_lookup_list rest (some n) with
        | fault => intro h; simp [lookup_res.shift] at h
        | null => intro h; simp [lookup_res.shift] at h
        | elem j =>
          intro h
          simp only [lookup_res.shift, lookup_res.elem.injEq] at h
          subst h
          simpa using ih j hr

/-- Lookup by names: when the package, section and option names are found at
positions `pi`, `si`, `oi`, `uci_expand_ptr` on the pointer made of the names
returns `UCI_OK` with the three handles attached, the strings as given and
both lookup flags set, and the option found carries the name asked for. -/
theorem expand_named_option (pf : uci_platform) (ctx : uci_context) (pn sn onm : String)
    (value : Option String) (c : Bool) (pi si oi : Nat) (pkg : uci_package) (sec : uci_section)
    (o : uci_option)
    (hp : uci_lookup_list (ctx.root.map (fun p => p.name)) (some pn) = lookup_res.elem pi)
    (hpkg : ctx.root[pi]? = some pkg)
    (hs : uci_lookup_list (pkg.sections.map (fun s => s.name)) (some sn) = lookup_res.elem si)
    (hsec : pkg.sections[si]? = some sec)
    (ho : uci_lookup_list (sec.options.map (fun o => o.name)) (some onm) = lookup_res.elem oi)
    (hopt : sec.options[oi]? = some o) :
    uci_expand_ptr pf (UCI_HANDLE_ERR ctx) (named_ptr pn sn onm value) c =
      (uci_rc.UCI_OK, { root := ctx.root, internal := false },
        { named_ptr pn sn onm value with
          lookup_done := true, lookup_complete := true, p := some pi, s := some si,
          o := some oi, last := some uci_type.UCI_TYPE_OPTION },
        uci_type.UCI_TYPE_OPTION) ∧
    o.name = some onm := by
  have hname := lookup_list_elem _ _ _ ho
  rw [List.getElem?_map, hopt] at hname
  simp only [Option.map_some', Option.some.injEq] at hname
  refine ⟨?_, hname⟩
  simp [uci_expand_ptr, named_ptr, uci_ptr_zero, uci_lookup_ptr, UCI_HANDLE_ERR, hp,
    lookup_section, hpkg, hs, lookup_option, hsec, ho, expand_fill, hopt, expand_elem]

theorem insert_after_eraseIdx {α : Type} (l : List α) (k : Nat) (x : α) (h : k < l.length) :
    (list_insert_at l (k + 1) x).eraseIdx k = l.set k x := by
  induction l generalizing k with
  | nil => simp at h
  | cons a r ih =>
    cases k with
    | zero => simp [list_insert_at]
    | succ k =>
      simp only [List.length_cons, Nat.add_lt_add_iff_right] at h
      have := ih k h
      simp only [list_insert_at] at this
      simp [list_insert_at, this]

theorem set_same_of_getElem? {α β : Type} (f : α → β) (l : List α) (k : Nat) (x y : α)
    (h : l[k]? = some y) (hf : f x = f y) : (l.set k x).map f = l.map f := by
  induction l generalizing k with
  | nil => simp
  | cons a r ih =>
    cases k with
    | zero =>
      simp only [List.getElem?_cons_zero, Option.some.injEq] at h
      simp [h, hf]
    | succ k =>
      simp only [List.getElem?_cons_succ] at h
      simp [ih k h]

theorem set_update_option_string (sec : uci_section) (oi : Nat) (o : uci_option)
    (name : Option String) (v w : String) (ho : sec.options[oi]? = some o)
    (hv : o.v = uci_option_v.string v) (hn : o.name = name) :
    set_update_option sec oi o name w =
      if v = w then none else some (put_option sec oi { o with v := uci_option_v.string w }) := by
  have hlt : oi < sec.options.length := by
    by_contra h
    rw [List.getElem?_eq_none (by omega)] at ho
    cases ho
  simp only [set_update_option, hv]
  by_cases h1 : v = w
  · simp [h1]
  · simp only [h1, if_false]
    split
    · rfl
    · simp only [uci_free_option, uci_alloc_option, put_option, insert_after_eraseIdx _ _ _ hlt,
        ← hn]

/-- C5. `uci_set` on a pointer that resolves to the string option `o` (value
`v`) at position `oi` of section `sec` (as a lookup by names does, see
`expand_named_option`), with a non-empty new value `w`: when
`w = v` the call returns `UCI_OK` and changes nothing; when `w ≠ v` the
options of the section are the same list with the value of the option at
`oi` replaced by `w` (same names, order, length and position, whatever the
lengths of `v` and `w`), and exactly one Change delta is appended in tracked
mode (none otherwise). -/
theorem set_string_option (pf : uci_platform) (ctx ctx1 : uci_context) (ptr ptr1 : uci_ptr)
    (e : uci_type) (pi si oi : Nat) (pkg : uci_package) (sec : uci_section) (o : uci_option)
    (v w sname oname : String)
    (hexp : uci_expand_ptr pf (UCI_HANDLE_ERR ctx) ptr false = (uci_rc.UCI_OK, ctx1, ptr1, e))
    (hp : ptr1.p = some pi) (hpkg : ctx1.root[pi]? = some pkg)
    (hs : ptr1.s = some si) (hsec : pkg.sections[si]? = some sec)
    (ho : ptr1.o = some oi) (hopt : sec.options[oi]? = some o)
    (hv : o.v = uci_option_v.string v) (hon : o.name = some oname)
    (hoption : ptr1.option = some oname) (hsection : ptr1.section_ = some sname)
    (hvalue : ptr1.value = some w) (hw : w ≠ "") :
    (w = v → uci_set pf ctx ptr = (uci_rc.UCI_OK, ctx1, ptr1)) ∧
    (w ≠ v →
      uci_set pf ctx ptr =
        (uci_rc.UCI_OK,
          { root := ctx1.root.set pi
              { pkg with
                sections := pkg.sections.set si
                  { sec with
                    options := sec.options.set oi
                      { name := some oname, v := uci_option_v.string w } },
                delta :=
                  if !ctx.internal && pkg.has_delta then
                    pkg.delta ++ [{ cmd := uci_command.UCI_CMD_CHANGE, section_ := sname,
                                    name := some oname, value := some w }]
                  else pkg.delta },
            internal := ctx1.internal },
          ptr1)) ∧
    ((sec.options.set oi { name := some oname, v := uci_option_v.string w }).map
        (fun x => x.name) = sec.options.map (fun x => x.name)) := by
  have hupd := set_update_option_string sec oi o (some oname) v w hopt hv hon
  have hbr : set_branches ptr1 pkg w =
      (uci_rc.UCI_OK, if v = w then none
        else some (put_section pkg si (put_option sec oi { o with v := uci_option_v.string w }),
          ptr1)) := by
    simp only [set_branches, ho, hoption, hs, hsec, hopt, hupd, Option.isNone_some,
      Option.isSome_some, Bool.false_and, Bool.and_self, if_true]
    by_cases h1 : v = w <;> simp [h1]
  have hbody : uci_set pf ctx ptr = set_body pf ctx.internal ctx1 ptr1 := by
    simp only [uci_set, hexp]
  have hatt : set_attach ctx1 ptr1 = some ptr1 := by
    simp only [set_attach, ho]
  refine ⟨?_, ?_, ?_⟩
  · intro hwv
    subst hwv
    rw [hbody]
    simp [set_body, hvalue, hs, hoption, hatt, hw, hp, hpkg, hbr]
  · intro hwv
    have hvw : ¬ v = w := fun h => hwv h.symm
    rw [hbody]
    have ho2 : ({ o with v := uci_option_v.string w } : uci_option)
        = { name := some oname, v := uci_option_v.string w } := by
      rw [← hon]
    simp only [set_body, hvalue, hs, hoption, hatt, hw, hp, hpkg, hbr, hvw, if_false,
      Option.isSome_some, Option.isNone_some, Bool.true_or, Bool.not_true, Bool.false_and,
      track, put_section, put_option, put_package, put_delta, hsection, uci_add_delta, ho2]
    by_cases ht : (!ctx.internal && pkg.has_delta) = true
    · simp [ht]
    · simp [ht]
  · exact set_same_of_getElem? _ _ _ _ _ hopt (by simp [hon])

theorem set_string_option_witness :
    uci_set example_platform example_context
        (example_ptr (some "lan") (some "proto") (some "static")) =
      (uci_rc.UCI_OK,
        { root :=
            [{ name := some "net",
               sections :=
                 [{ name := some "lan", type := "interface", anonymous := false,
                    options := [{ name := some "proto", v := uci_option_v.string "static" },
                                { name := some "dns", v := uci_option_v.list ["x", "y", "z"] }] },
                  { name := some "wan", type := "interface", anonymous := false, options := [] },
                  { name := some "cfg03a1b2", type := "rule", anonymous := true, options := [] }],
               n_section := 3, has_delta := true,
               delta := [{ cmd := uci_command.UCI_CMD_CHANGE, section_ := "lan",
                           name := some "proto", value := some "static" }],
               saved_delta := [] }],
          internal := false },
        example_ptr_resolved (some "lan") (some "proto") (some "static") 0 0) := by
  have h := (set_string_option example_platform example_context example_context
    (example_ptr (some "lan") (some "proto") (some "static"))
    (example_ptr_resolved (some "lan") (some "proto") (some "static") 0 0)
    uci_type.UCI_TYPE_OPTION 0 0 0
    { name := some "net",
      sections :=
        [{ name := some "lan", type := "interface", anonymous := false,
           options := [{ name := some "proto", v := uci_option_v.string "dhcp" },
                       { name := some "dns", v := uci_option_v.list ["x", "y", "z"] }] },
         { name := some "wan", type := "interface", anonymous := false, options := [] },
         { name := some "cfg03a1b2", type := "rule", anonymous := true, options := [] }],
      n_section := 3, has_delta := true, delta := [], saved_delta := [] }
    { name := some "lan", type := "interface", anonymous := false,
      options := [{ name := some "proto", v := uci_option_v.string "dhcp" },
                  { name := some "dns", v := uci_option_v.list ["x", "y", "z"] }] }
    { name := some "proto", v := uci_option_v.string "dhcp" }
    "dhcp" "static" "lan" "proto"
    (by decide) rfl rfl rfl rfl rfl rfl rfl rfl rfl rfl rfl (by decide)).2.1 (by decide)
  exact h.trans (by decide)

theorem to_int32_range (v : Int) : -2 ^ 31 ≤ to_int32 v ∧ to_int32 v < 2 ^ 31 := by
  simp only [to_int32]
  omega

theorem sscanf_d_range (bits : Nat) (s : List Char) (i : Int)
    (h : c_sscanf_d bits s = sscanf_d.conv i) : -2 ^ 31 ≤ i ∧ i < 2 ^ 31 := by
  simp only [c_sscanf_d] at h
  repeat' split at h
  all_goals first
    | (simp only [sscanf_d.conv.injEq] at h
       rw [← h]
       exact to_int32_range _)
    | simp at h

theorem delete_item_eq (l : List String) (i : Int) (h0 : 0 ≤ i) (h1 : i < 2 ^ 31) :
    delete_item l i = if i < l.length then some (l.eraseIdx i.toNat) else none := by
  induction l generalizing i with
  | nil =>
    have : ¬ (i < 0) := by omega
    simp [delete_item, this]
  | cons a r ih =>
    simp only [delete_item]
    by_cases hi : i = 0
    · subst hi; simp
    · have hw : to_int32 (i - 1) = i - 1 := to_int32_id _ (by omega) (by omega)
      simp only [hi, if_false, hw, ih (i - 1) (by omega) (by omega), List.length_cons]
      by_cases hlt : i < ((r.length + 1 : Nat) : Int)
      · have h2 : i - 1 < (r.length : Int) := by omega
        have h3 : i.toNat = (i - 1).toNat + 1 := by omega
        simp only [hlt, h2, if_true, h3, List.eraseIdx_cons_succ]
      · have h2 : ¬ (i - 1 < (r.length : Int)) := by omega
        simp only [hlt, h2, if_false]

/-- C6. `uci_delete` on a pointer that resolves to the list option at
position `oi` of a section, with a non-empty value that `sscanf("%d")`
converts to `i` with `0 ≤ i < |L|`: the call returns `UCI_OK`, the items of
the option are `L` without position `i` (in their order), the option and all
other options stay where they are, and one Remove delta with the value is
appended in tracked mode. -/
theorem delete_list_index (pf : uci_platform) (ctx ctx1 : uci_context) (ptr ptr1 : uci_ptr)
    (e : uci_type) (pi si oi : Nat) (pkg : uci_package) (sec : uci_section) (o : uci_option)
    (items : List String) (value sname : String) (i : Int)
    (hexp : uci_expand_ptr pf (UCI_HANDLE_ERR ctx) ptr true = (uci_rc.UCI_OK, ctx1, ptr1, e))
    (hp : ptr1.p = some pi) (hpkg : ctx1.root[pi]? = some pkg)
    (hs : ptr1.s = some si) (hsec : pkg.sections[si]? = some sec)
    (ho : ptr1.o = some oi) (hopt : sec.options[oi]? = some o)
    (hv : o.v = uci_option_v.list items) (hsection : ptr1.section_ = some sname)
    (hvalue : ptr1.value = some value) (hne : value ≠ "")
    (hscan : c_sscanf_d pf.long_bits value.data = sscanf_d.conv i)
    (h0 : 0 ≤ i) (h1 : i < items.length) :
    uci_delete pf ctx ptr =
      (uci_rc.UCI_OK,
        { root := ctx1.root.set pi
            { pkg with
              sections := pkg.sections.set si
                { sec with
                  options := sec.options.set oi
                    { name := o.name, v := uci_option_v.list (items.eraseIdx i.toNat) } },
              delta :=
                if !ctx.internal && pkg.has_delta then
                  pkg.delta ++ [{ cmd := uci_command.UCI_CMD_REMOVE, section_ := sname,
                                  name := ptr1.option, value := some value }]
                else pkg.delta },
          internal := ctx1.internal },
        ptr1) := by
  have hbody : uci_delete pf ctx ptr = delete_body pf ctx.internal ctx1 ptr1 e := by
    simp only [uci_delete, hexp]
  have hitem : delete_item items i = some (items.eraseIdx i.toNat) := by
    rw [delete_item_eq _ _ h0 (sscanf_d_range _ _ _ hscan).2]; simp [h1]
  rw [hbody]
  simp only [delete_body, hp, hs, hpkg, hsec, ho, hopt, hv, hvalue, hne, if_false, hscan, hitem,
    track, hsection, uci_add_delta, put_package, put_section, put_option, put_delta]
  by_cases ht : (!ctx.internal && pkg.has_delta) = true
  · simp [ht]
  · simp [ht]

theorem delete_list_index_witness :
    uci_delete example_platform example_context
        (example_ptr (some "lan") (some "dns") (some "1")) =
      (uci_rc.UCI_OK,
        { root :=
            [{ name := some "net",
               sections :=
                 [{ name := some "lan", type := "interface", anonymous := false,
                    options := [{ name := some "proto", v := uci_option_v.string "dhcp" },
                                { name := some "dns", v := uci_option_v.list ["x", "z"] }] },
                  { name := some "wan", type := "interface", anonymous := false, options := [] },
                  { name := some "cfg03a1b2", type := "rule", anonymous := true, options := [] }],
               n_section := 3, has_delta := true,
               delta := [{ cmd := uci_command.UCI_CMD_REMOVE, section_ := "lan",
                           name := some "dns", value := some "1" }],
               saved_delta := [] }],
          internal := false },
        example_ptr_resolved (some "lan") (some "dns") (some "1") 0 1) := by
  have h := delete_list_index example_platform example_context example_context
    (example_ptr (some "lan") (some "dns") (some "1"))
    (example_ptr_resolved (some "lan") (some "dns") (some "1") 0 1)
    uci_type.UCI_TYPE_OPTION 0 0 1
    { name := some "net",
      sections :=
        [{ name := some "lan", type := "interface", anonymous := false,
           options := [{ name := some "proto", v := uci_option_v.string "dhcp" },
                       { name := some "dns", v := uci_option_v.list ["x", "y", "z"] }] },
         { name := some "wan", type := "interface", anonymous := false, options := [] },
         { name := some "cfg03a1b2", type := "rule", anonymous := true, options := [] }],
      n_section := 3, has_delta := true, delta := [], saved_delta := [] }
    { name := some "lan", type := "interface", anonymous := false,
      options := [{ name := some "proto", v := uci_option_v.string "dhcp" },
                  { name := some "dns", v := uci_option_v.list ["x", "y", "z"] }] }
    { name := some "dns", v := uci_option_v.list ["x", "y", "z"] }
    ["x", "y", "z"] "1" "lan" 1
    (by decide) rfl rfl rfl rfl rfl rfl rfl rfl rfl (by decide) (by decide) (by decide)
    (by decide)
  exact h.trans (by decide)

/-! ## Failed calls leave the tree alone -/

theorem rename_body_error (internal : Bool) (ctx : uci_context) (ptr : uci_ptr) (e : uci_type) :
    is_error (rename_body internal ctx ptr e).1 = true →
      (rename_body internal ctx ptr e).2.1 = ctx := by
  simp only [rename_body]
  repeat' split
  all_goals simp [is_error]

theorem delete_element_error (internal : Bool) (ctx : uci_context) (ptr : uci_ptr)
    (e1 : uci_type) (pi : Nat) (pkg : uci_package) (si : Nat) :
    is_error (delete_element internal ctx ptr e1 pi pkg si).1 = true →
      (delete_element internal ctx ptr e1 pi pkg si).2.1 = ctx := by
  simp only [delete_element]
  repeat' split
  all_goals simp [is_error]

theorem delete_body_error (pf : uci_platform) (internal : Bool) (ctx : uci_context)
    (ptr : uci_ptr) (e : uci_type) :
    is_error (delete_body pf internal ctx ptr e).1 = true →
      (delete_body pf internal ctx ptr e).2.1 = ctx := by
  simp only [delete_body]
  repeat' split
  all_goals first
    | exact delete_element_error _ _ _ _ _ _ _
    | simp [is_error]

theorem add_list_body_error (internal : Bool) (ctx : uci_context) (ptr : uci_ptr) :
    is_error (add_list_body internal ctx ptr).1 = true →
      (add_list_body internal ctx ptr).2.1 = ctx := by
  simp only [add_list_body]
  repeat' split
  all_goals simp [is_error]

theorem del_list_body_error (internal : Bool) (ctx : uci_context) (ptr : uci_ptr) :
    is_error (del_list_body internal ctx ptr).1 = true →
      (del_list_body internal ctx ptr).2.1 = ctx := by
  simp only [del_list_body]
  repeat' split
  all_goals simp [is_error]

theorem lookup_option_ctx (pkg : uci_package) (ctx : uci_context) (ptr : uci_ptr) (si : Nat) :
    (lookup_option pkg ctx ptr si).2.1 = ctx := by
  simp only [lookup_option]
  repeat' split
  all_goals rfl

theorem lookup_option_done (pkg : uci_package) (ctx : uci_context) (ptr : uci_ptr) (si : Nat) :
    (lookup_option pkg ctx ptr si).2.2.lookup_done = ptr.lookup_done := by
  simp only [lookup_option]
  repeat' split
  all_goals rfl

theorem lookup_ext_section_done (pf : uci_platform) (sections : List uci_section)
    (ptr : uci_ptr) (sect : String) :
    (uci_lookup_ext_section pf sections ptr sect).1 = uci_rc.UCI_OK →
      (uci_lookup_ext_section pf sections ptr sect).2.2.lookup_done = ptr.lookup_done := by
  simp only [uci_lookup_ext_section]
  repeat' split
  all_goals simp

theorem lookup_section_ctx (pf : uci_platform) (ctx : uci_context) (ptr : uci_ptr) (pi : Nat)
    (ext : Bool) : (lookup_section pf ctx ptr pi ext).2.1 = ctx := by
  simp only [lookup_section]
  repeat' split
  all_goals first
    | rfl
    | exact lookup_option_ctx _ _ _ _

theorem lookup_section_done (pf : uci_platform) (ctx : uci_context) (ptr : uci_ptr) (pi : Nat)
    (ext : Bool) :
    (lookup_section pf ctx ptr pi ext).1 = uci_rc.UCI_OK →
      (lookup_section pf ctx ptr pi ext).2.2.lookup_done = ptr.lookup_done := by
  simp only [lookup_section]
  repeat' split
  all_goals first
    | (intro _; rfl)
    | (intro _; exact lookup_option_done _ _ _ _)
    | skip
  · next h =>
    intro _
    rw [lookup_option_done]
    have := lookup_ext_section_done pf _ _ _ (by rw [h])
    rw [h] at this
    exact this
  · next h1 h2 =>
    intro hrc
    have := lookup_ext_section_done pf _ _ _ (by rw [h2]; exact hrc)
    rw [h2] at this
    exact this

theorem lookup_ptr_root (pf : uci_platform) (ctx : uci_context) (ptr : uci_ptr) (ext : Bool) :
    (uci_lookup_ptr pf ctx ptr ext).2.1.root = ctx.root ∨
      ∃ name pkg, pf.uci_load name = some pkg ∧
        (uci_lookup_ptr pf ctx ptr ext).2.1.root = ctx.root ++ [pkg] := by
  simp only [uci_lookup_ptr, UCI_HANDLE_ERR]
  repeat' split
  all_goals first
    | (left; rfl)
    | (left; rw [lookup_section_ctx]; done)
    | skip
  next pkg h =>
    right
    exact ⟨_, pkg, h, by rw [lookup_section_ctx]⟩

theorem lookup_ptr_done (pf : uci_platform) (ctx : uci_context) (ptr : uci_ptr) (ext : Bool) :
    (uci_lookup_ptr pf ctx ptr ext).1 = uci_rc.UCI_OK →
      (uci_lookup_ptr pf ctx ptr ext).2.2.lookup_done = true := by
  simp only [uci_lookup_ptr, UCI_HANDLE_ERR]
  repeat' split
  all_goals first
    | (intro h; rw [lookup_section_done _ _ _ _ _ h])
    | simp

theorem lookup_ptr_internal (pf : uci_platform) (ctx : uci_context) (ptr : uci_ptr) (ext : Bool) :
    (uci_lookup_ptr pf ctx ptr ext).2.1.internal = false := by
  simp only [uci_lookup_ptr, UCI_HANDLE_ERR]
  repeat' split
  all_goals first
    | rfl
    | rw [lookup_section_ctx]

theorem expand_fill_done (ctx : uci_context) (ptr ptr1 : uci_ptr) (pi : Nat) :
    expand_fill ctx ptr pi = some ptr1 → ptr1.lookup_done = ptr.lookup_done := by
  simp only [expand_fill]
  repeat' split
  all_goals first
    | (intro h; cases h; rfl)
    | (intro h; cases h)

theorem expand_ptr_ctx (pf : uci_platform) (ctx : uci_context) (ptr : uci_ptr) (c : Bool) :
    (uci_expand_ptr pf ctx ptr c).2.1 =
      if ptr.lookup_done then ctx
      else (uci_lookup_ptr pf { ctx with internal := true } ptr true).2.1 := by
  simp only [uci_expand_ptr]
  cases hd : ptr.lookup_done
  · simp only [Bool.not_false, if_true, Bool.false_eq_true, if_false]
    rcases hl : uci_lookup_ptr pf { ctx with internal := true } ptr true with ⟨rc, c1, p1⟩
    cases rc <;> simp only []
    repeat' split
    all_goals rfl
  · simp only [Bool.not_true, Bool.false_eq_true, if_false, if_true]
    repeat' split
    all_goals rfl

theorem expand_ptr_done (pf : uci_platform) (ctx : uci_context) (ptr : uci_ptr) (c : Bool) :
    (uci_expand_ptr pf ctx ptr c).1 = uci_rc.UCI_OK →
      (uci_expand_ptr pf ctx ptr c).2.2.1.lookup_done = true := by
  simp only [uci_expand_ptr]
  cases hd : ptr.lookup_done
  · simp only [Bool.not_false, if_true]
    have hdone := lookup_ptr_done pf { ctx with internal := true } ptr true
    rcases hl : uci_lookup_ptr pf { ctx with internal := true } ptr true with ⟨rc, c1, p1⟩
    rw [hl] at hdone
    cases rc <;> simp only []
    · repeat' split
      all_goals first
        | (intro h; cases h; done)
        | (intro hrc
           rename_i hf
           simp only [expand_fill_done _ _ _ _ hf]
           exact hdone rfl)
    all_goals (intro h; cases h)
  · simp only [Bool.not_true, Bool.false_eq_true, if_false]
    repeat' split
    all_goals first
      | (intro h; cases h; done)
      | (intro hrc
         rename_i hf
         simp only [expand_fill_done _ _ _ _ hf]
         exact hd)

theorem expand_ptr_root (pf : uci_platform) (ctx : uci_context) (ptr : uci_ptr) (c : Bool) :
    (uci_expand_ptr pf ctx ptr c).2.1.root = ctx.root ∨
      ∃ name pkg, pf.uci_load name = some pkg ∧
        (uci_expand_ptr pf ctx ptr c).2.1.root = ctx.root ++ [pkg] := by
  rw [expand_ptr_ctx]
  split
  · left; rfl
  · exact lookup_ptr_root pf { ctx with internal := true } ptr true

theorem set_attach_done (ctx : uci_context) (ptr ptr1 : uci_ptr) :
    set_attach ctx ptr = some ptr1 → ptr1.lookup_done = ptr.lookup_done := by
  simp only [set_attach]
  repeat' split
  all_goals first
    | (intro h; cases h; rfl)
    | (intro h; cases h)

theorem uci_delete_error_done (pf : uci_platform) (ctx : uci_context) (ptr : uci_ptr)
    (hd : ptr.lookup_done = true) :
    is_error (uci_delete pf ctx ptr).1 = true → (uci_delete pf ctx ptr).2.1.root = ctx.root := by
  have hctx := expand_ptr_ctx pf (UCI_HANDLE_ERR ctx) ptr true
  simp only [hd, if_true] at hctx
  simp only [uci_delete]
  rcases hexp : uci_expand_ptr pf (UCI_HANDLE_ERR ctx) ptr true with ⟨rc, c1, p1, e⟩
  rw [hexp] at hctx
  simp only at hctx
  subst hctx
  cases rc
  · simp only []
    intro h
    rw [delete_body_error pf _ _ _ _ h]
    rfl
  all_goals (intro _; rfl)

theorem set_body_error (pf : uci_platform) (internal : Bool) (ctx : uci_context)
    (ptr : uci_ptr) (hd : ptr.lookup_done = true) :
    is_error (set_body pf internal ctx ptr).1 = true →
      (set_body pf internal ctx ptr).2.1.root = ctx.root := by
  simp only [set_body]
  repeat' split
  all_goals first
    | (intro _; rfl)
    | (intro h; simp [is_error] at h; done)
    | skip
  · rename_i hatt _ _
    exact uci_delete_error_done pf _ _ ((set_attach_done _ _ _ hatt).trans hd)

theorem uci_set_error (pf : uci_platform) (ctx : uci_context) (ptr : uci_ptr) :
    is_error (uci_set pf ctx ptr).1 = true →
      (uci_set pf ctx ptr).2.1.root = ctx.root ∨
        ∃ name pkg, pf.uci_load name = some pkg ∧
          (uci_set pf ctx ptr).2.1.root = ctx.root ++ [pkg] := by
  have hroot := expand_ptr_root pf (UCI_HANDLE_ERR ctx) ptr false
  have hdone := expand_ptr_done pf (UCI_HANDLE_ERR ctx) ptr false
  simp only [uci_set]
  rcases hexp : uci_expand_ptr pf (UCI_HANDLE_ERR ctx) ptr false with ⟨rc, c1, p1, e⟩
  rw [hexp] at hroot hdone
  cases rc
  · simp only []
    intro h
    rw [set_body_error pf _ _ _ (hdone rfl) h]
    exact hroot
  all_goals (intro _; exact hroot)

theorem uci_delete_error (pf : uci_platform) (ctx : uci_context) (ptr : uci_ptr) :
    is_error (uci_delete pf ctx ptr).1 = true →
      (uci_delete pf ctx ptr).2.1.root = ctx.root ∨
        ∃ name pkg, pf.uci_load name = some pkg ∧
          (uci_delete pf ctx ptr).2.1.root = ctx.root ++ [pkg] := by
  have hroot := expand_ptr_root pf (UCI_HANDLE_ERR ctx) ptr true
  simp only [uci_delete]
  rcases hexp : uci_expand_ptr pf (UCI_HANDLE_ERR ctx) ptr true with ⟨rc, c1, p1, e⟩
  rw [hexp] at hroot
  cases rc
  · simp only []
    intro h
    rw [delete_body_error pf _ _ _ _ h]
    exact hroot
  all_goals (intro _; exact hroot)

theorem uci_rename_error (pf : uci_platform) (ctx : uci_context) (ptr : uci_ptr) :
    is_error (uci_rename pf ctx ptr).1 = true →
      (uci_rename pf ctx ptr).2.1.root = ctx.root ∨
        ∃ name pkg, pf.uci_load name = some pkg ∧
          (uci_rename pf ctx ptr).2.1.root = ctx.root ++ [pkg] := by
  have hroot := expand_ptr_root pf (UCI_HANDLE_ERR ctx) ptr true
  simp only [uci_rename]
  rcases hexp : uci_expand_ptr pf (UCI_HANDLE_ERR ctx) ptr true with ⟨rc, c1, p1, e⟩
  rw [hexp] at hroot
  cases rc
  · simp only []
    intro h
    rw [rename_body_error _ _ _ _ h]
    exact hroot
  all_goals (intro _; exact hroot)

theorem uci_add_list_error (pf : uci_platform) (ctx : uci_context) (ptr : uci_ptr) :
    is_error (uci_add_list pf ctx ptr).1 = true →
      (uci_add_list pf ctx ptr).2.1.root = ctx.root ∨
        ∃ name pkg, pf.uci_load name = some pkg ∧
          (uci_add_list pf ctx ptr).2.1.root = ctx.root ++ [pkg] := by
  have hroot := expand_ptr_root pf (UCI_HANDLE_ERR ctx) ptr false
  simp only [uci_add_list]
  rcases hexp : uci_expand_ptr pf (UCI_HANDLE_ERR ctx) ptr false with ⟨rc, c1, p1, e⟩
  rw [hexp] at hroot
  cases rc
  · simp only []
    intro h
    rw [add_list_body_error _ _ _ h]
    exact hroot
  all_goals (intro _; exact hroot)

theorem uci_del_list_error (pf : uci_platform) (ctx : uci_context) (ptr : uci_ptr) :
    is_error (uci_del_list pf ctx ptr).1 = true →
      (uci_del_list pf ctx ptr).2.1.root = ctx.root ∨
        ∃ name pkg, pf.uci_load name = some pkg ∧
          (uci_del_list pf ctx ptr).2.1.root = ctx.root ++ [pkg] := by
  have hroot := expand_ptr_root pf (UCI_HANDLE_ERR ctx) ptr false
  simp only [uci_del_list]
  rcases hexp : uci_expand_ptr pf (UCI_HANDLE_ERR ctx) ptr false with ⟨rc, c1, p1, e⟩
  rw [hexp] at hroot
  cases rc
  · simp only []
    intro h
    rw [del_list_body_error _ _ _ h]
    exact hroot
  all_goals (intro _; exact hroot)

theorem uci_add_section_error (pf : uci_platform) (ctx : uci_context) (p : Option Nat)
    (type : String) :
    is_error (uci_add_section pf ctx p type).1 = true →
      (uci_add_section pf ctx p type).2.1.root = ctx.root := by
  simp only [uci_add_section, UCI_HANDLE_ERR]
  repeat' split
  all_goals first
    | (intro _; rfl)
    | (intro h; simp [is_error] at h)

theorem uci_reorder_section_error (ctx : uci_context) (pi si : Nat) (pos : Int) :
    is_error (uci_reorder_section ctx pi si pos).1 = true →
      (uci_reorder_section ctx pi si pos).2.root = ctx.root := by
  simp only [uci_reorder_section, UCI_HANDLE_ERR]
  repeat' split
  all_goals first
    | (intro _; rfl)
    | (intro h; simp [is_error] at h)

/-- C2. Atomicity on failure: when a call of a mutating operation returns an
error (`1`, or a thrown `UCI_ERR_INVAL` or `UCI_ERR_NOTFOUND`), every package
of the tree (sections, options, list items, pending deltas) is exactly as
before the call; the list of packages is the same, or has at its tail the one
package the loader brought in while the pointer was looked up. -/
theorem failed_call_leaves_tree (pf : uci_platform) (ctx : uci_context) (call : uci_call)
    (h : is_error (uci_run pf ctx call).1 = true) :
    (uci_run pf ctx call).2.root = ctx.root ∨
      ∃ name pkg, pf.uci_load name = some pkg ∧
        (uci_run pf ctx call).2.root = ctx.root ++ [pkg] := by
  cases call with
  | set ptr => exact uci_set_error pf ctx ptr h
  | add_section p type => exact Or.inl (uci_add_section_error pf ctx p type h)
  | delete ptr => exact uci_delete_error pf ctx ptr h
  | rename ptr => exact uci_rename_error pf ctx ptr h
  | reorder_section pi si pos => exact Or.inl (uci_reorder_section_error ctx pi si pos h)
  | add_list ptr => exact uci_add_list_error pf ctx ptr h
  | del_list ptr => exact uci_del_list_error pf ctx ptr h

theorem failed_call_leaves_tree_witness :
    (uci_run example_platform example_context
        (uci_call.delete (example_ptr (some "lan") (some "dns") (some "x")))).1
      = uci_rc.RET_1 ∧
    (uci_run example_platform example_context
        (uci_call.delete (example_ptr (some "lan") (some "dns") (some "x")))).2.root
      = example_context.root := by
  have h := failed_call_leaves_tree example_platform example_context
    (uci_call.delete (example_ptr (some "lan") (some "dns") (some "x"))) (by decide)
  refine ⟨by decide, ?_⟩
  rcases h with h | ⟨name, pkg, hl, _⟩
  · exact h
  · cases hl

/-! ## The section counter -/

theorem lt_of_getElem?_some {α : Type} {l : List α} {i : Nat} {x : α} (h : l[i]? = some x) :
    i < l.length := by
  by_contra hn
  rw [List.getElem?_eq_none (by omega)] at h
  cases h

theorem counts_ok_put (ctx : uci_context) (pi : Nat) (pkg X : uci_package)
    (h : counts_ok ctx) (hp : ctx.root[pi]? = some pkg)
    (hX : X.n_section - (X.sections.length : Int) = pkg.n_section - (pkg.sections.length : Int)) :
    counts_ok (put_package ctx pi X) := by
  intro p hpm
  simp only [put_package] at hpm
  rcases List.mem_or_eq_of_mem_set hpm with h1 | h1
  · exact h p h1
  · subst h1
    have := h pkg (List.getElem?_mem hp)
    simp only [count_ok] at this ⊢
    omega

theorem rename_body_counts (internal : Bool) (ctx : uci_context) (ptr : uci_ptr) (e : uci_type)
    (h : counts_ok ctx) : counts_ok (rename_body internal ctx ptr e).2.1 := by
  simp only [rename_body]
  repeat' split
  all_goals first
    | exact h
    | (refine counts_ok_put _ _ _ _ h (by assumption) ?_
       simp [put_section, put_option, put_delta])

theorem delete_element_counts (internal : Bool) (ctx : uci_context) (ptr : uci_ptr)
    (e1 : uci_type) (pi : Nat) (pkg : uci_package) (si : Nat) (h : counts_ok ctx)
    (hp : ctx.root[pi]? = some pkg) (hsi : si < pkg.sections.length) :
    counts_ok (delete_element internal ctx ptr e1 pi pkg si).2.1 := by
  simp only [delete_element]
  repeat' split
  all_goals first
    | exact h
    | (refine counts_ok_put _ _ _ _ h hp ?_
       simp [put_section, put_option, put_delta, uci_free_option]
       done)
    | (refine counts_ok_put _ _ _ _ h hp ?_
       simp only [uci_free_section, put_delta, List.length_eraseIdx_of_lt hsi]
       omega)

theorem delete_body_counts (pf : uci_platform) (internal : Bool) (ctx : uci_context)
    (ptr : uci_ptr) (e : uci_type) (h : counts_ok ctx) :
    counts_ok (delete_body pf internal ctx ptr e).2.1 := by
  simp only [delete_body]
  repeat' split
  all_goals first
    | exact h
    | (refine counts_ok_put _ _ _ _ h (by assumption) ?_
       simp [put_section, put_option, put_delta])
    | exact delete_element_counts _ _ _ _ _ _ _ h (by assumption)
        (lt_of_getElem?_some (by assumption))

theorem add_list_body_counts (internal : Bool) (ctx : uci_context) (ptr : uci_ptr)
    (h : counts_ok ctx) : counts_ok (add_list_body internal ctx ptr).2.1 := by
  simp only [add_list_body]
  repeat' split
  all_goals first
    | exact h
    | (refine counts_ok_put _ _ _ _ h (by assumption) ?_
       simp [put_section, put_option, put_delta])

theorem del_list_body_counts (internal : Bool) (ctx : uci_context) (ptr : uci_ptr)
    (h : counts_ok ctx) : counts_ok (del_list_body internal ctx ptr).2.1 := by
  simp only [del_list_body]
  repeat' split
  all_goals first
    | exact h
    | (refine counts_ok_put _ _ _ _ h (by assumption) ?_
       simp [put_section, put_option, put_delta])

theorem list_insert_at_length {α : Type} (l : List α) (k : Nat) (x : α) :
    (list_insert_at l k x).length = l.length + 1 := by
  simp only [list_insert_at, List.length_append, List.length_cons, List.length_take,
    List.length_drop]
  omega

theorem alloc_section_n (pkg : uci_package) (type : String) (name : Option String)
    (after : Option Nat) :
    (uci_alloc_section pkg type name after).n_section = pkg.n_section + 1 := by
  simp only [uci_alloc_section]
  split <;> rfl

theorem alloc_section_length (pkg : uci_package) (type : String) (name : Option String)
    (after : Option Nat) :
    (uci_alloc_section pkg type name after).sections.length = pkg.sections.length + 1 := by
  simp only [uci_alloc_section]
  split
  · simp [list_insert_at_length]
  · simp

theorem replace_section_counts (pkg : uci_package) (si : Nat) (a b : uci_section)
    (type : String) (name : Option String) (hlt : si < pkg.sections.length) :
    (uci_free_section
        (put_section (put_section (uci_alloc_section pkg type name (some si)) (si + 1) a) si b)
        si).n_section -
      ((uci_free_section
        (put_section (put_section (uci_alloc_section pkg type name (some si)) (si + 1) a) si b)
        si).sections.length : Int) =
      pkg.n_section - (pkg.sections.length : Int) := by
  simp only [put_section, uci_free_section, alloc_section_n]
  rw [List.length_eraseIdx_of_lt (by
    simp only [List.length_set, alloc_section_length]; omega)]
  simp only [List.length_set, alloc_section_length]
  omega

theorem set_update_section_counts (pkg pkg1 : uci_package) (si : Nat) (old : uci_section)
    (ptr ptr1 : uci_ptr) (value : String) (hs : pkg.sections[si]? = some old) :
    set_update_section pkg si old ptr value = some (pkg1, ptr1) →
      pkg1.n_section - (pkg1.sections.length : Int) =
        pkg.n_section - (pkg.sections.length : Int) := by
  have hlt := lt_of_getElem?_some hs
  simp only [set_update_section]
  repeat' split
  all_goals first
    | (intro h; cases h; done)
    | (intro h
       simp only [Option.some.injEq, Prod.mk.injEq] at h
       obtain ⟨h, _⟩ := h
       subst h
       first
         | exact replace_section_counts _ _ _ _ _ _ hlt
         | (simp only [put_section, List.length_set])
         | (simp only [alloc_section_n, alloc_section_length]; push_cast; omega))

theorem set_branches_counts (ptr ptr1 : uci_ptr) (pkg pkg1 : uci_package) (value : String)
    (rc : uci_rc) :
    set_branches ptr pkg value = (rc, some (pkg1, ptr1)) →
      pkg1.n_section - (pkg1.sections.length : Int) =
        pkg.n_section - (pkg.sections.length : Int) := by
  simp only [set_branches]
  repeat' split
  all_goals first
    | (intro h; cases h; done)
    | (intro h
       simp only [Prod.mk.injEq, Option.some.injEq] at h
       obtain ⟨_, h, _⟩ := h
       subst h
       first
         | (simp only [put_section, List.length_set])
         | (simp only [alloc_section_n, alloc_section_length]; push_cast; omega))
    | (intro h
       simp only [Prod.mk.injEq] at h
       exact set_update_section_counts _ _ _ _ _ _ _ (by assumption) h.2)

theorem set_body_counts (pf : uci_platform) (internal : Bool) (ctx : uci_context)
    (ptr : uci_ptr) (h : counts_ok ctx)
    (hdel : ∀ c p, counts_ok c → counts_ok (uci_delete pf c p).2.1) :
    counts_ok (set_body pf internal ctx ptr).2.1 := by
  simp only [set_body]
  repeat' split
  all_goals first
    | exact h
    | exact hdel _ _ h
    | (refine counts_ok_put _ _ _ _ h (by assumption) ?_
       try simp only [put_delta]
       exact set_branches_counts _ _ _ _ _ _ (by assumption))

theorem counts_ok_internal (ctx : uci_context) (b : Bool) (h : counts_ok ctx) :
    counts_ok { ctx with internal := b } := h

theorem lookup_ptr_counts (pf : uci_platform)
    (hload : ∀ name pkg, pf.uci_load name = some pkg → count_ok pkg)
    (ctx : uci_context) (ptr : uci_ptr) (ext : Bool) (h : counts_ok ctx) :
    counts_ok (uci_lookup_ptr pf ctx ptr ext).2.1 := by
  rcases lookup_ptr_root pf ctx ptr ext with hr | ⟨name, pkg, hl, hr⟩
  · intro p hp
    rw [hr] at hp
    exact h p hp
  · intro p hp
    rw [hr] at hp
    rcases List.mem_append.1 hp with h1 | h1
    · exact h p h1
    · rw [List.mem_singleton.1 h1]
      exact hload name pkg hl

theorem expand_ptr_counts (pf : uci_platform)
    (hload : ∀ name pkg, pf.uci_load name = some pkg → count_ok pkg)
    (ctx : uci_context) (ptr : uci_ptr) (c : Bool) (h : counts_ok ctx) :
    counts_ok (uci_expand_ptr pf ctx ptr c).2.1 := by
  rw [expand_ptr_ctx]
  split
  · exact h
  · exact lookup_ptr_counts pf hload _ _ _ h

theorem uci_delete_counts (pf : uci_platform)
    (hload : ∀ name pkg, pf.uci_load name = some pkg → count_ok pkg)
    (ctx : uci_context) (ptr : uci_ptr) (h : counts_ok ctx) :
    counts_ok (uci_delete pf ctx ptr).2.1 := by
  have hexp := expand_ptr_counts pf hload (UCI_HANDLE_ERR ctx) ptr true h
  simp only [uci_delete]
  rcases hx : uci_expand_ptr pf (UCI_HANDLE_ERR ctx) ptr true with ⟨rc, c1, p1, e⟩
  rw [hx] at hexp
  cases rc
  · exact delete_body_counts pf _ _ _ _ hexp
  all_goals exact hexp

theorem uci_set_counts (pf : uci_platform)
    (hload : ∀ name pkg, pf.uci_load name = some pkg → count_ok pkg)
    (ctx : uci_context) (ptr : uci_ptr) (h : counts_ok ctx) :
    counts_ok (uci_set pf ctx ptr).2.1 := by
  have hexp := expand_ptr_counts pf hload (UCI_HANDLE_ERR ctx) ptr false h
  simp only [uci_set]
  rcases hx : uci_expand_ptr pf (UCI_HANDLE_ERR ctx) ptr false with ⟨rc, c1, p1, e⟩
  rw [hx] at hexp
  cases rc
  · exact set_body_counts pf _ _ _ hexp (fun c p hc => uci_delete_counts pf hload c p hc)
  all_goals exact hexp

theorem uci_rename_counts (pf : uci_platform)
    (hload : ∀ name pkg, pf.uci_load name = some pkg → count_ok pkg)
    (ctx : uci_context) (ptr : uci_ptr) (h : counts_ok ctx) :
    counts_ok (uci_rename pf ctx ptr).2.1 := by
  have hexp := expand_ptr_counts pf hload (UCI_HANDLE_ERR ctx) ptr true h
  simp only [uci_rename]
  rcases hx : uci_expand_ptr pf (UCI_HANDLE_ERR ctx) ptr true with ⟨rc, c1, p1, e⟩
  rw [hx] at hexp
  cases rc
  · exact rename_body_counts _ _ _ _ hexp
  all_goals exact hexp

theorem uci_add_list_counts (pf : uci_platform)
    (hload : ∀ name pkg, pf.uci_load name = some pkg → count_ok pkg)
    (ctx : uci_context) (ptr : uci_ptr) (h : counts_ok ctx) :
    counts_ok (uci_add_list pf ctx ptr).2.1 := by
  have hexp := expand_ptr_counts pf hload (UCI_HANDLE_ERR ctx) ptr false h
  simp only [uci_add_list]
  rcases hx : uci_expand_ptr pf (UCI_HANDLE_ERR ctx) ptr false with ⟨rc, c1, p1, e⟩
  rw [hx] at hexp
  cases rc
  · exact add_list_body_counts _ _ _ hexp
  all_goals exact hexp

theorem uci_del_list_counts (pf : uci_platform)
    (hload : ∀ name pkg, pf.uci_load name = some pkg → count_ok pkg)
    (ctx : uci_context) (ptr : uci_ptr) (h : counts_ok ctx) :
    counts_ok (uci_del_list pf ctx ptr).2.1 := by
  have hexp := expand_ptr_counts pf hload (UCI_HANDLE_ERR ctx) ptr false h
  simp only [uci_del_list]
  rcases hx : uci_expand_ptr pf (UCI_HANDLE_ERR ctx) ptr false with ⟨rc, c1, p1, e⟩
  rw [hx] at hexp
  cases rc
  · exact del_list_body_counts _ _ _ hexp
  all_goals exact hexp

theorem uci_add_section_counts (pf : uci_platform) (ctx : uci_context) (p : Option Nat)
    (type : String) (h : counts_ok ctx) : counts_ok (uci_add_section pf ctx p type).2.1 := by
  simp only [uci_add_section, UCI_HANDLE_ERR]
  repeat' split
  all_goals first
    | exact h
    | (refine counts_ok_put { ctx with internal := false } _ _ _ h (by assumption) ?_
       simp only [put_delta, put_section, List.length_set, alloc_section_n,
         alloc_section_length]
       push_cast
       omega)

theorem uci_reorder_section_counts (ctx : uci_context) (pi si : Nat) (pos : Int)
    (h : counts_ok ctx) : counts_ok (uci_reorder_section ctx pi si pos).2 := by
  cases hp : ctx.root[pi]? with
  | none =>
    simp only [uci_reorder_section, UCI_HANDLE_ERR, hp]
    exact h
  | some pkg =>
    cases hs : pkg.sections[si]? with
    | none =>
      simp only [uci_reorder_section, UCI_HANDLE_ERR, hp, hs]
      exact h
    | some sec =>
      have hlt := lt_of_getElem?_some hs
      have hlen : ((uci_list_set_pos (List.range pkg.sections.length) si pos).1.filterMap
          (fun i => pkg.sections[i]?)).length = pkg.sections.length := by
        rw [(set_pos_range_sections pkg.sections si sec hs pos).1, list_insert_at_length,
          List.length_eraseIdx_of_lt hlt]
        omega
      simp only [uci_reorder_section, UCI_HANDLE_ERR, hp, hs]
      repeat' split
      all_goals
        refine counts_ok_put { ctx with internal := false } _ _ _ h hp ?_
        simp only [put_delta, hlen]

theorem run_all_counts (pf : uci_platform) (ctx : uci_context)
    (calls : List (Bool × uci_call))
    (hload : ∀ name pkg, pf.uci_load name = some pkg → count_ok pkg)
    (h : counts_ok ctx) : counts_ok (uci_run_all pf ctx calls) := by
  induction calls generalizing ctx with
  | nil => exact h
  | cons c rest ih =>
    obtain ⟨internal, call⟩ := c
    simp only [uci_run_all]
    apply ih
    have h1 : counts_ok { ctx with internal := internal } := h
    cases call with
    | set ptr => exact uci_set_counts pf hload _ ptr h1
    | add_section p type => exact uci_add_section_counts pf _ p type h1
    | delete ptr => exact uci_delete_counts pf hload _ ptr h1
    | rename ptr => exact uci_rename_counts pf hload _ ptr h1
    | reorder_section pi si pos => exact uci_reorder_section_counts _ pi si pos h1
    | add_list ptr => exact uci_add_list_counts pf hload _ ptr h1
    | del_list ptr => exact uci_del_list_counts pf hload _ ptr h1

theorem lookup_option_o (pkg : uci_package) (ctx : uci_context) (ptr : uci_ptr) (si : Nat)
    (h1 : ptr.option = none) (h2 : ptr.o = none) :
    (lookup_option pkg ctx ptr si).2.2.o = none ∧
      (lookup_option pkg ctx ptr si).2.2.option = none := by
  simp [lookup_option, h1, h2]

theorem lookup_ext_section_o (pf : uci_platform) (sections : List uci_section)
    (ptr : uci_ptr) (sect : String) (r : uci_rc × Option Nat × uci_ptr)
    (h1 : ptr.option = none) (h2 : ptr.o = none)
    (hr : uci_lookup_ext_section pf sections ptr sect = r) :
    r.2.2.o = none ∧ r.2.2.option = none := by
  subst hr
  simp only [uci_lookup_ext_section]
  repeat' split
  all_goals first
    | exact ⟨h2, h1⟩
    | exact ⟨rfl, rfl⟩

theorem lookup_section_o (pf : uci_platform) (ctx : uci_context) (ptr : uci_ptr) (pi : Nat)
    (ext : Bool) (h1 : ptr.option = none) (h2 : ptr.o = none) :
    (lookup_section pf ctx ptr pi ext).2.2.o = none ∧
      (lookup_section pf ctx ptr pi ext).2.2.option = none := by
  simp only [lookup_section]
  repeat' split
  all_goals first
    | exact ⟨h2, h1⟩
    | exact lookup_option_o _ _ _ _ h1 h2
    | (rename_i hx
       have := lookup_ext_section_o pf _ _ _ _ (by exact h1) (by exact h2) hx
       first
         | exact lookup_option_o _ _ _ _ this.2 this.1
         | exact this)

theorem lookup_ptr_o (pf : uci_platform) (ctx : uci_context) (ptr : uci_ptr)
    (ext : Bool) (h1 : ptr.option = none) (h2 : ptr.o = none) :
    (uci_lookup_ptr pf ctx ptr ext).2.2.o = none ∧
      (uci_lookup_ptr pf ctx ptr ext).2.2.option = none := by
  simp only [uci_lookup_ptr]
  repeat' split
  all_goals first
    | exact ⟨h2, h1⟩
    | exact lookup_section_o _ _ _ _ _ h1 h2

theorem expand_fill_o (ctx : uci_context) (ptr ptr1 : uci_ptr) (pi : Nat)
    (h2 : ptr.o = none) : expand_fill ctx ptr pi = some ptr1 → ptr1.o = none := by
  simp only [expand_fill]
  repeat' split
  all_goals first
    | (intro h; cases h; exact h2)
    | (intro h; cases h)

theorem expand_ptr_elem (pf : uci_platform) (ctx : uci_context) (ptr : uci_ptr) (c : Bool) :
    (uci_expand_ptr pf ctx ptr c).1 = uci_rc.UCI_OK →
      (uci_expand_ptr pf ctx ptr c).2.2.2 = expand_elem (uci_expand_ptr pf ctx ptr c).2.2.1 := by
  simp only [uci_expand_ptr]
  cases hd : ptr.lookup_done
  · simp only [Bool.not_false, if_true]
    rcases hl : uci_lookup_ptr pf { ctx with internal := true } ptr true with ⟨rc, c1, p1⟩
    cases rc <;> simp only []
    · repeat' split
      all_goals first
        | (intro h; cases h; done)
        | (intro _; rfl)
    all_goals (intro h; cases h)
  · simp only [Bool.not_true, Bool.false_eq_true, if_false]
    repeat' split
    all_goals first
      | (intro h; cases h; done)
      | (intro _; rfl)

theorem expand_ptr_o (pf : uci_platform) (ctx : uci_context) (ptr : uci_ptr) (c : Bool)
    (h1 : ptr.option = none) (h2 : ptr.o = none) :
    (uci_expand_ptr pf ctx ptr c).1 = uci_rc.UCI_OK →
      (uci_expand_ptr pf ctx ptr c).2.2.1.o = none := by
  simp only [uci_expand_ptr]
  cases hd : ptr.lookup_done
  · simp only [Bool.not_false, if_true]
    have ho := lookup_ptr_o pf { ctx with internal := true } ptr true h1 h2
    rcases hl : uci_lookup_ptr pf { ctx with internal := true } ptr true with ⟨rc, c1, p1⟩
    rw [hl] at ho
    cases rc <;> simp only []
    · repeat' split
      all_goals first
        | (intro h; cases h; done)
        | (intro hrc
           rename_i hf
           exact expand_fill_o _ _ _ _ ho.1 hf)
    all_goals (intro h; cases h)
  · simp only [Bool.not_true, Bool.false_eq_true, if_false]
    repeat' split
    all_goals first
      | (intro h; cases h; done)
      | (intro hrc
         rename_i hf
         exact expand_fill_o _ _ _ _ h2 hf)

theorem add_section_eq (pf : uci_platform) (ctx : uci_context) (pi : Nat) (type : String)
    (pkg : uci_package) (hp : ctx.root[pi]? = some pkg) :
    uci_add_section pf ctx (some pi) type =
      (uci_rc.UCI_OK,
        { root := ctx.root.set pi
            { pkg with
              sections := pkg.sections ++
                [{ name := some (fixup_name (pkg.n_section + 1)
                     (djbhash pf.char_signed 0xFFFFFFFF type)),
                   type := type, anonymous := true, options := [] }],
              n_section := pkg.n_section + 1,
              delta :=
                if !ctx.internal && pkg.has_delta then
                  pkg.delta ++ [{ cmd := uci_command.UCI_CMD_ADD,
                                  section_ := fixup_name (pkg.n_section + 1)
                                    (djbhash pf.char_signed 0xFFFFFFFF type),
                                  name := none, value := some type }]
                else pkg.delta },
          internal := false },
        some pkg.sections.length) := by
  simp only [uci_add_section, UCI_HANDLE_ERR, hp, uci_alloc_section, if_false,
    Option.isNone_none, List.getElem?_append_right (Nat.le_refl _), Nat.sub_self,
    List.getElem?_cons_zero, if_true, uci_fixup_section, Option.isSome_none, Bool.false_eq_true,
    fixup_hash, fixup_hash_options, put_section, track, uci_add_delta, put_package, put_delta,
    List.set_append_right _ _ (Nat.le_refl _), List.set_cons_zero, reduceCtorEq]
  by_cases ht : (!ctx.internal && pkg.has_delta) = true
  · simp [ht]
  · simp [ht]

theorem add_section_step (pf : uci_platform) (ctx : uci_context) (p : Option Nat)
    (type : String) (pkg : uci_package) (hroot : ctx.root = [pkg]) :
    ∃ pkg1, (uci_add_section pf ctx p type).2.1.root = [pkg1] ∧
      (pkg1.sections.length : Int) = (pkg.sections.length : Int) +
        applied_count (uci_call.add_section p type) (uci_add_section pf ctx p type).1 := by
  cases p with
  | none => exact ⟨pkg, by simp [uci_add_section, UCI_HANDLE_ERR, hroot, applied_count]⟩
  | some pi =>
    cases pi with
    | zero =>
      have hp : ctx.root[0]? = some pkg := by rw [hroot]; rfl
      rw [add_section_eq pf ctx 0 type pkg hp]
      refine ⟨_, by rw [hroot]; rfl, ?_⟩
      simp [applied_count]
    | succ k =>
      have hp : ctx.root[k + 1]? = none := by rw [hroot]; rfl
      exact ⟨pkg, by simp [uci_add_section, UCI_HANDLE_ERR, hroot, applied_count]⟩

theorem singleton_getElem? {α : Type} (x y : α) (i : Nat) (h : [x][i]? = some y) :
    i = 0 ∧ y = x := by
  cases i with
  | zero => simp at h; exact ⟨rfl, h.symm⟩
  | succ k => simp at h

theorem delete_element_section_step (internal : Bool) (ctx : uci_context) (ptr ptr0 : uci_ptr)
    (pkg : uci_package) (si : Nat) (hroot : ctx.root = [pkg])
    (hsi : si < pkg.sections.length) :
    ∃ pkg1, (delete_element internal ctx ptr uci_type.UCI_TYPE_SECTION 0 pkg si).2.1.root
        = [pkg1] ∧
      (pkg1.sections.length : Int) = (pkg.sections.length : Int) +
        applied_count (uci_call.delete ptr0)
          (delete_element internal ctx ptr uci_type.UCI_TYPE_SECTION 0 pkg si).1 := by
  simp only [delete_element]
  cases track internal pkg uci_command.UCI_CMD_REMOVE ptr.section_ ptr.option none with
  | none => exact ⟨pkg, hroot, by simp [applied_count]⟩
  | some d =>
    refine ⟨uci_free_section (put_delta pkg d) si, by simp [put_package, hroot], ?_⟩
    simp only [uci_free_section, put_delta, applied_count,
      List.length_eraseIdx_of_lt hsi]
    omega

theorem delete_body_section_step (pf : uci_platform) (internal : Bool) (ctx : uci_context)
    (ptr ptr0 : uci_ptr) (pkg : uci_package) (hroot : ctx.root = [pkg]) (ho : ptr.o = none) :
    ∃ pkg1, (delete_body pf internal ctx ptr (expand_elem ptr)).2.1.root = [pkg1] ∧
      (pkg1.sections.length : Int) = (pkg.sections.length : Int) +
        applied_count (uci_call.delete ptr0)
          (delete_body pf internal ctx ptr (expand_elem ptr)).1 := by
  simp only [delete_body, ho]
  cases hp : ptr.p with
  | none => exact ⟨pkg, hroot, by simp [applied_count]⟩
  | some pi =>
    cases hs : ptr.s with
    | none => exact ⟨pkg, hroot, by simp [applied_count]⟩
    | some si =>
      simp only []
      cases hpk : ctx.root[pi]? with
      | none => exact ⟨pkg, hroot, by simp [applied_count]⟩
      | some pkg0 =>
        rw [hroot] at hpk
        obtain ⟨hpi, hpk0⟩ := singleton_getElem? _ _ _ hpk
        subst hpi
        subst hpk0
        simp only []
        cases hsec : pkg0.sections[si]? with
        | none => exact ⟨pkg0, hroot, by simp [applied_count]⟩
        | some sec =>
          simp only []
          have he : expand_elem ptr = uci_type.UCI_TYPE_SECTION := by
            simp [expand_elem, ho, hs]
          rw [he]
          exact delete_element_section_step internal ctx ptr ptr0 pkg0 si hroot
            (lt_of_getElem?_some hsec)

theorem uci_delete_section_step (pf : uci_platform) (ctx : uci_context) (ptr : uci_ptr)
    (pkg : uci_package) (hload : ∀ name, pf.uci_load name = none) (hroot : ctx.root = [pkg])
    (h1 : ptr.option = none) (h2 : ptr.o = none) :
    ∃ pkg1, (uci_delete pf ctx ptr).2.1.root = [pkg1] ∧
      (pkg1.sections.length : Int) = (pkg.sections.length : Int) +
        applied_count (uci_call.delete ptr) (uci_delete pf ctx ptr).1 := by
  have hr := expand_ptr_root pf (UCI_HANDLE_ERR ctx) ptr true
  have he := expand_ptr_elem pf (UCI_HANDLE_ERR ctx) ptr true
  have ho := expand_ptr_o pf (UCI_HANDLE_ERR ctx) ptr true h1 h2
  simp only [uci_delete]
  rcases hx : uci_expand_ptr pf (UCI_HANDLE_ERR ctx) ptr true with ⟨rc, c1, p1, e⟩
  rw [hx] at hr he ho
  have hroot1 : c1.root = [pkg] := by
    rcases hr with hr | ⟨name, pkg2, hl, _⟩
    · exact hr.trans hroot
    · rw [hload name] at hl
      cases hl
  cases rc
  · simp only [] at he ho ⊢
    rw [he trivial]
    exact delete_body_section_step pf _ c1 p1 ptr pkg hroot1 (ho trivial)
  all_goals exact ⟨pkg, hroot1, by simp [applied_count]⟩

theorem section_calls_count (pf : uci_platform) (ctx : uci_context)
    (calls : List (Bool × uci_call)) (pkg : uci_package)
    (hload : ∀ name, pf.uci_load name = none) (hroot : ctx.root = [pkg])
    (hcalls : ∀ c ∈ calls, section_call c.2 = true) :
    ∃ pkg1, (uci_run_all pf ctx calls).root = [pkg1] ∧
      (pkg1.sections.length : Int) =
        (pkg.sections.length : Int) + adds_minus_deletes pf ctx calls := by
  induction calls generalizing ctx pkg with
  | nil => exact ⟨pkg, hroot, by simp [adds_minus_deletes]⟩
  | cons c rest ih =>
    obtain ⟨internal, call⟩ := c
    have hc : section_call call = true := hcalls (internal, call) (List.mem_cons_self _ _)
    have hrest : ∀ c ∈ rest, section_call c.2 = true :=
      fun c hc => hcalls c (List.mem_cons_of_mem _ hc)
    have hstep : ∃ pkg1, (uci_run pf { ctx with internal := internal } call).2.root = [pkg1] ∧
        (pkg1.sections.length : Int) = (pkg.sections.length : Int) +
          applied_count call (uci_run pf { ctx with internal := internal } call).1 := by
      cases call with
      | add_section p type =>
        exact add_section_step pf { ctx with internal := internal } p type pkg hroot
      | delete ptr =>
        simp only [section_call, Bool.and_eq_true, Option.isNone_iff_eq_none] at hc
        exact uci_delete_section_step pf { ctx with internal := internal } ptr pkg hload hroot
          hc.1 hc.2
      | set ptr => simp [section_call] at hc
      | rename ptr => simp [section_call] at hc
      | reorder_section pi si pos => simp [section_call] at hc
      | add_list ptr => simp [section_call] at hc
      | del_list ptr => simp [section_call] at hc
    obtain ⟨pkg1, hr1, hl1⟩ := hstep
    obtain ⟨pkg2, hr2, hl2⟩ := ih _ pkg1 hr1 hrest
    refine ⟨pkg2, hr2, ?_⟩
    simp only [adds_minus_deletes]
    omega

/-- C4. Section-count invariant: starting from a context in which every
package has `n_section` equal to the number of its sections (a freshly
allocated package is one), with a loader that brings in only such packages,
every sequence of calls of the mutating operations, tracked or untracked,
leads to a context in which every package has `n_section` equal to the number
of sections in its section list.  In particular, after a sequence of
`uci_add_section` and section-level `uci_delete` calls on a freshly allocated
package (nothing else in storage), both numbers equal the number of adds
minus the number of deletes that returned `UCI_OK`. -/
theorem section_count_invariant (pf : uci_platform) (ctx : uci_context)
    (calls : List (Bool × uci_call))
    (hload : ∀ name pkg, pf.uci_load name = some pkg → count_ok pkg)
    (h : counts_ok ctx) :
    counts_ok (uci_run_all pf ctx calls) ∧
    ((∀ name, pf.uci_load name = none) → (∀ c ∈ calls, section_call c.2 = true) →
      ∀ name internal, ∃ p,
        (uci_run_all pf { root := [uci_alloc_package name], internal := internal } calls).root
          = [p] ∧
        p.n_section =
          adds_minus_deletes pf { root := [uci_alloc_package name], internal := internal }
            calls ∧
        (p.sections.length : Int) =
          adds_minus_deletes pf { root := [uci_alloc_package name], internal := internal }
            calls) := by
  refine ⟨run_all_counts pf ctx calls hload h, ?_⟩
  intro hnone hcalls name internal
  obtain ⟨p, hr, hl⟩ := section_calls_count pf
    { root := [uci_alloc_package name], internal := internal } calls (uci_alloc_package name)
    hnone rfl hcalls
  have hfresh : counts_ok { root := [uci_alloc_package name], internal := internal } := by
    intro q hq
    rw [List.mem_singleton.1 hq]
    rfl
  have hok := run_all_counts pf _ calls hload hfresh p (by rw [hr]; exact List.mem_singleton.2 rfl)
  have hl2 : (p.sections.length : Int) =
      adds_minus_deletes pf { root := [uci_alloc_package name], internal := internal }
        calls := by
    rw [hl]
    simp [uci_alloc_package]
  exact ⟨p, hr, hok.trans hl2, hl2⟩

theorem section_count_invariant_witness :
    adds_minus_deletes example_platform
        { root := [uci_alloc_package (some "net")], internal := false }
        [(false, uci_call.add_section (some 0) "rule"),
         (false, uci_call.add_section (some 0) "rule"),
         (false, uci_call.delete (example_ptr (some "cfg0192bd") none none)),
         (false, uci_call.delete (example_ptr (some "cfg0192bd") none none))] = 1 ∧
    ∃ p, (uci_run_all example_platform
        { root := [uci_alloc_package (some "net")], internal := false }
        [(false, uci_call.add_section (some 0) "rule"),
         (false, uci_call.add_section (some 0) "rule"),
         (false, uci_call.delete (example_ptr (some "cfg0192bd") none none)),
         (false, uci_call.delete (example_ptr (some "cfg0192bd") none none))]).root = [p] ∧
      p.n_section = 1 ∧ (p.sections.length : Int) = 1 := by
  have hcount : adds_minus_deletes example_platform
        { root := [uci_alloc_package (some "net")], internal := false }
        [(false, uci_call.add_section (some 0) "rule"),
         (false, uci_call.add_section (some 0) "rule"),
         (false, uci_call.delete (example_ptr (some "cfg0192bd") none none)),
         (false, uci_call.delete (example_ptr (some "cfg0192bd") none none))] = 1 := by
    decide
  have h := (section_count_invariant example_platform
    { root := [uci_alloc_package (some "net")], internal := false }
    [(false, uci_call.add_section (some 0) "rule"),
     (false, uci_call.add_section (some 0) "rule"),
     (false, uci_call.delete (example_ptr (some "cfg0192bd") none none)),
     (false, uci_call.delete (example_ptr (some "cfg0192bd") none none))]
    (fun _ _ hl => by simp [example_platform] at hl)
    (by intro q hq; rw [List.mem_singleton.1 hq]; rfl)).2
    (fun _ => rfl) (by decide) (some "net") false
  rw [hcount] at h
  exact ⟨hcount, h⟩

/-! ## Names of anonymous sections under later changes -/

theorem heads_put_package (ctx : uci_context) (pi : Nat) (pkg X : uci_package)
    (hp : ctx.root[pi]? = some pkg) (hX : section_heads X = section_heads pkg) :
    (put_package ctx pi X).root.map section_heads = ctx.root.map section_heads :=
  set_same_of_getElem? section_heads ctx.root pi X pkg hp hX

theorem heads_put_section (pkg : uci_package) (si : Nat) (sec sec1 : uci_section)
    (hs : pkg.sections[si]? = some sec) (h1 : sec1.name = sec.name) (h2 : sec1.type = sec.type)
    (h3 : sec1.anonymous = sec.anonymous) :
    section_heads (put_section pkg si sec1) = section_heads pkg := by
  simp only [section_heads, put_section]
  exact set_same_of_getElem? _ pkg.sections si sec1 sec hs (by simp [h1, h2, h3])

theorem set_update_option_heads (sec sec1 : uci_section) (oi : Nat) (old : uci_option)
    (name : Option String) (value : String) :
    set_update_option sec oi old name value = some sec1 →
      sec1.name = sec.name ∧ sec1.type = sec.type ∧ sec1.anonymous = sec.anonymous := by
  simp only [set_update_option]
  repeat' split
  all_goals first
    | (intro h; cases h; done)
    | (intro h; cases h; exact ⟨rfl, rfl, rfl⟩)

theorem set_branches_option_heads (ptr ptr1 : uci_ptr) (pkg pkg1 : uci_package)
    (value : String) (rc : uci_rc) (hopt : ptr.option.isSome = true)
    (hs : ptr.s.isSome = true) :
    set_branches ptr pkg value = (rc, some (pkg1, ptr1)) →
      section_heads pkg1 = section_heads pkg ∧ ptr1.section_ = ptr.section_ ∧
        ptr1.option = ptr.option := by
  obtain ⟨si, hsi⟩ := Option.isSome_iff_exists.1 hs
  cases ho : ptr.o with
  | none =>
    simp only [set_branches, ho, hopt, hsi, Option.isNone_none, Bool.and_self, if_true]
    cases hsec : pkg.sections[si]? with
    | none => intro h; cases h
    | some sec =>
      intro h
      simp only [Prod.mk.injEq, Option.some.injEq] at h
      obtain ⟨_, h, h'⟩ := h
      subst h
      subst h'
      exact ⟨heads_put_section _ _ _ _ hsec rfl rfl rfl, rfl, rfl⟩
  | some oi =>
    simp only [set_branches, ho, hopt, hsi, Option.isNone_some, Option.isSome_some,
      Bool.false_and, Bool.and_self, if_true, if_false, Bool.false_eq_true]
    cases hsec : pkg.sections[si]? with
    | none => intro h; cases h
    | some sec =>
      simp only []
      cases hold : sec.options[oi]? with
      | none => intro h; cases h
      | some old =>
        simp only []
        cases hu : set_update_option sec oi old ptr.option value with
        | none => intro h; cases h
        | some sec1 =>
          intro h
          simp only [Prod.mk.injEq, Option.some.injEq] at h
          obtain ⟨_, h, h'⟩ := h
          subst h
          subst h'
          have := set_update_option_heads _ _ _ _ _ _ hu
          exact ⟨heads_put_section _ _ _ _ hsec this.1 this.2.1 this.2.2, rfl, rfl⟩

theorem set_attach_fields (ctx : uci_context) (ptr ptr1 : uci_ptr) :
    set_attach ctx ptr = some ptr1 →
      ptr1.option = ptr.option ∧ ptr1.s = ptr.s ∧ ptr1.p = ptr.p ∧
        ptr1.section_ = ptr.section_ := by
  simp only [set_attach]
  repeat' split
  all_goals first
    | (intro h; cases h; exact ⟨rfl, rfl, rfl, rfl⟩)
    | (intro h; cases h)

theorem set_body_option_heads (pf : uci_platform) (internal : Bool) (ctx : uci_context)
    (ptr : uci_ptr) (oname w : String) (hopt : ptr.option = some oname)
    (hvalue : ptr.value = some w) (hw : w ≠ "") :
    (set_body pf internal ctx ptr).2.1.root.map section_heads = ctx.root.map section_heads := by
  simp only [set_body, hvalue, hopt]
  cases hs : ptr.s with
  | none => simp
  | some si =>
    simp only [Option.isSome_some, Bool.true_or, Bool.not_true, Bool.false_eq_true, if_false,
      Option.isNone_some, Bool.false_and, hw]
    cases hatt : set_attach ctx ptr with
    | none => rfl
    | some ptr2 =>
      have hf := set_attach_fields _ _ _ hatt
      simp only []
      cases hp : ptr2.p with
      | none => rfl
      | some pi =>
        simp only []
        cases hpkg : ctx.root[pi]? with
        | none => rfl
        | some pkg =>
          simp only []
          rcases hbr : set_branches ptr2 pkg w with ⟨rc, _ | ⟨pkg1, ptr3⟩⟩
          · cases rc <;> rfl
          · have hh := set_branches_option_heads ptr2 ptr3 pkg pkg1 w rc
              (by rw [hf.1, hopt]; rfl) (by rw [hf.2.1, hs]; rfl) hbr
            cases rc
            · simp only []
              cases track internal pkg1 uci_command.UCI_CMD_CHANGE ptr3.section_ ptr3.option
                  (some w) with
              | none => exact heads_put_package ctx pi pkg pkg1 hpkg hh.1
              | some d => exact heads_put_package ctx pi pkg (put_delta pkg1 d) hpkg hh.1
            all_goals rfl

/-- C10 (as stated, refuted). A section created by `uci_add_section` with
type `rule` is named `cfg0192bd`; after `uci_set` adds the option `src=lan`
to it the section is still anonymous and still named `cfg0192bd`, while the
name synthesized from its current content is `cfg013820`. -/
theorem anonymous_name_not_regenerated :
    (uci_set example_platform
        (uci_add_section example_platform
          { root := [uci_alloc_package (some "net")], internal := false } (some 0) "rule").2.1
        (example_ptr (some "cfg0192bd") (some "src") (some "lan"))).2.1.root =
      [{ name := some "net",
         sections := [{ name := some "cfg0192bd", type := "rule", anonymous := true,
                        options := [{ name := some "src", v := uci_option_v.string "lan" }] }],
         n_section := 1, has_delta := false, delta := [], saved_delta := [] }] ∧
    uci_fixup_section true 1
        { name := none, type := "rule", anonymous := true,
          options := [{ name := some "src", v := uci_option_v.string "lan" }] } =
      some { name := some "cfg013820", type := "rule", anonymous := true,
             options := [{ name := some "src", v := uci_option_v.string "lan" }] } := by
  decide

/-- C10 (amended). The name of an anonymous section is synthesized once:
`uci_add_section` gives the new section the name `uci_fixup_section` derives
from its type (it has no option yet) and the incremented package counter and
sets its anonymous flag; `uci_fixup_section` leaves a section that has a name
as it is; `uci_set` with an option name and a non-empty value (it adds the
option or changes its value) leaves the name, the type and the anonymous flag
of every section as they are. -/
theorem anonymous_name_kept (pf : uci_platform) (ctx : uci_context) (pi : Nat) (type : String)
    (pkg : uci_package) (ctx2 ctx1 : uci_context) (ptr ptr1 : uci_ptr) (e : uci_type)
    (oname w : String)
    (hp : ctx.root[pi]? = some pkg)
    (hexp : uci_expand_ptr pf (UCI_HANDLE_ERR ctx2) ptr false = (uci_rc.UCI_OK, ctx1, ptr1, e))
    (hopt : ptr1.option = some oname) (hvalue : ptr1.value = some w) (hw : w ≠ "") :
    (uci_add_section pf ctx (some pi) type).1 = uci_rc.UCI_OK ∧
    ((uci_add_section pf ctx (some pi) type).2.1.root[pi]?).map (fun p => p.sections) =
      some (pkg.sections ++
        [{ name := some (fixup_name (pkg.n_section + 1)
             (djbhash pf.char_signed 0xFFFFFFFF type)),
           type := type, anonymous := true, options := [] }]) ∧
    uci_fixup_section pf.char_signed (pkg.n_section + 1)
        { name := none, type := type, anonymous := true, options := [] } =
      some { name := some (fixup_name (pkg.n_section + 1)
               (djbhash pf.char_signed 0xFFFFFFFF type)),
             type := type, anonymous := true, options := [] } ∧
    (∀ n s, s.name.isSome = true → uci_fixup_section pf.char_signed n s = some s) ∧
    (uci_set pf ctx2 ptr).2.1.root.map section_heads = ctx1.root.map section_heads := by
  have hlt := lt_of_getElem?_some hp
  refine ⟨?_, ?_, ?_, ?_, ?_⟩
  · rw [add_section_eq pf ctx pi type pkg hp]
  · rw [add_section_eq pf ctx pi type pkg hp]
    simp [List.getElem?_set_self hlt]
  · simp [uci_fixup_section, fixup_hash, fixup_hash_options]
  · intro n s hs
    simp [uci_fixup_section, hs]
  · simp only [uci_set, hexp]
    exact set_body_option_heads pf _ ctx1 ptr1 oname w hopt hvalue hw

theorem anonymous_name_kept_witness :
    (uci_set example_platform
        { root :=
            [{ name := some "net",
               sections := [{ name := some "cfg0192bd", type := "rule", anonymous := true,
                              options := [] }],
               n_section := 1, has_delta := false, delta := [], saved_delta := [] }],
          internal := false }
        (example_ptr (some "cfg0192bd") (some "src") (some "lan"))).2.1.root.map section_heads
      = [[(some "cfg0192bd", "rule", true)]] := by
  have h := (anonymous_name_kept example_platform
    { root := [uci_alloc_package (some "net")], internal := false } 0 "rule"
    (uci_alloc_package (some "net"))
    { root :=
        [{ name := some "net",
           sections := [{ name := some "cfg0192bd", type := "rule", anonymous := true,
                          options := [] }],
           n_section := 1, has_delta := false, delta := [], saved_delta := [] }],
      internal := false }
    { root :=
        [{ name := some "net",
           sections := [{ name := some "cfg0192bd", type := "rule", anonymous := true,
                          options := [] }],
           n_section := 1, has_delta := false, delta := [], saved_delta := [] }],
      internal := false }
    (example_ptr (some "cfg0192bd") (some "src") (some "lan"))
    { example_ptr (some "cfg0192bd") (some "src") (some "lan") with
      lookup_done := true, p := some 0, s := some 0,
      last := some uci_type.UCI_TYPE_SECTION }
    uci_type.UCI_TYPE_SECTION "src" "lan" rfl (by decide) rfl rfl (by decide)).2.2.2.2
  exact h.trans (by decide)

/-! ## Untracked mode -/

theorem track_internal (pkg : uci_package) (cmd : uci_command) (s o v : Option String) :
    track true pkg cmd s o v = some pkg.delta := by
  simp [track]

theorem deltas_put_package (ctx : uci_context) (pi : Nat) (pkg X : uci_package)
    (hp : ctx.root[pi]? = some pkg) (hX : X.delta = pkg.delta) :
    (put_package ctx pi X).root.map (fun p => p.delta) = ctx.root.map (fun p => p.delta) :=
  set_same_of_getElem? (fun p => p.delta) ctx.root pi X pkg hp hX

theorem rename_body_untracked (ctx : uci_context) (ptr : uci_ptr) (e : uci_type) :
    (rename_body true ctx ptr e).2.1.root.map (fun p => p.delta) =
      ctx.root.map (fun p => p.delta) := by
  simp only [rename_body, track_internal]
  repeat' split
  all_goals first
    | rfl
    | (refine deltas_put_package _ _ _ _ (by assumption) ?_
       simp [put_section, put_delta])

theorem delete_element_untracked (ctx : uci_context) (ptr : uci_ptr) (e1 : uci_type) (pi : Nat)
    (pkg : uci_package) (si : Nat) (hp : ctx.root[pi]? = some pkg) :
    (delete_element true ctx ptr e1 pi pkg si).2.1.root.map (fun p => p.delta) =
      ctx.root.map (fun p => p.delta) := by
  simp only [delete_element, track_internal]
  repeat' split
  all_goals first
    | rfl
    | (refine deltas_put_package _ _ _ _ hp ?_
       simp [put_section, put_delta, uci_free_section])

theorem delete_body_untracked (pf : uci_platform) (ctx : uci_context) (ptr : uci_ptr)
    (e : uci_type) :
    (delete_body pf true ctx ptr e).2.1.root.map (fun p => p.delta) =
      ctx.root.map (fun p => p.delta) := by
  simp only [delete_body, track_internal]
  repeat' split
  all_goals first
    | rfl
    | exact delete_element_untracked _ _ _ _ _ _ (by assumption)
    | (refine deltas_put_package _ _ _ _ (by assumption) ?_
       simp [put_section, put_delta])

theorem add_list_body_untracked (ctx : uci_context) (ptr : uci_ptr) :
    (add_list_body true ctx ptr).2.1.root.map (fun p => p.delta) =
      ctx.root.map (fun p => p.delta) := by
  simp only [add_list_body, track_internal]
  repeat' split
  all_goals first
    | rfl
    | (refine deltas_put_package _ _ _ _ (by assumption) ?_
       simp [put_section, put_delta])

theorem del_list_body_untracked (ctx : uci_context) (ptr : uci_ptr) :
    (del_list_body true ctx ptr).2.1.root.map (fun p => p.delta) =
      ctx.root.map (fun p => p.delta) := by
  simp only [del_list_body, track_internal]
  repeat' split
  all_goals first
    | rfl
    | (refine deltas_put_package _ _ _ _ (by assumption) ?_
       simp [put_section, put_delta])

theorem alloc_section_delta (pkg : uci_package) (type : String) (name : Option String)
    (after : Option Nat) : (uci_alloc_section pkg type name after).delta = pkg.delta := by
  simp only [uci_alloc_section]
  split <;> rfl

theorem set_branches_delta (ptr ptr1 : uci_ptr) (pkg pkg1 : uci_package) (value : String)
    (rc : uci_rc) :
    set_branches ptr pkg value = (rc, some (pkg1, ptr1)) → pkg1.delta = pkg.delta := by
  simp only [set_branches, set_update_section]
  repeat' split
  all_goals first
    | (intro h; cases h; done)
    | (intro h
       simp only [Prod.mk.injEq, Option.some.injEq] at h
       obtain ⟨_, h, _⟩ := h
       subst h
       simp [put_section, uci_free_section, alloc_section_delta])

theorem set_body_untracked (pf : uci_platform) (ctx : uci_context) (ptr : uci_ptr)
    (hv : ptr.value ≠ some "") :
    (set_body pf true ctx ptr).2.1.root.map (fun p => p.delta) =
      ctx.root.map (fun p => p.delta) := by
  cases hval : ptr.value with
  | none => simp [set_body, hval]
  | some w =>
    have hw : w ≠ "" := fun h => hv (by rw [hval, h])
    simp only [set_body, hval, hw, if_false, track_internal]
    repeat' split
    all_goals first
      | rfl
      | (refine deltas_put_package _ _ _ _ (by assumption) ?_
         simp only [put_delta]
         exact set_branches_delta _ _ _ _ _ _ (by assumption))

theorem lookup_option_value (pkg : uci_package) (ctx : uci_context) (ptr : uci_ptr) (si : Nat) :
    (lookup_option pkg ctx ptr si).2.2.value = ptr.value := by
  simp only [lookup_option]
  repeat' split
  all_goals rfl

theorem lookup_ext_section_value (pf : uci_platform) (sections : List uci_section)
    (ptr : uci_ptr) (sect : String) (r : uci_rc × Option Nat × uci_ptr)
    (hr : uci_lookup_ext_section pf sections ptr sect = r) (hok : r.1 = uci_rc.UCI_OK) :
    r.2.2.value = ptr.value := by
  subst hr
  revert hok
  simp only [uci_lookup_ext_section]
  repeat' split
  all_goals simp

theorem lookup_section_value (pf : uci_platform) (ctx : uci_context) (ptr : uci_ptr) (pi : Nat)
    (ext : Bool) :
    (lookup_section pf ctx ptr pi ext).1 = uci_rc.UCI_OK →
      (lookup_section pf ctx ptr pi ext).2.2.value = ptr.value := by
  simp only [lookup_section]
  repeat' split
  all_goals first
    | (intro _; rfl)
    | (intro _; exact lookup_option_value _ _ _ _)
    | (intro hrc
       rename_i hx
       first
         | (rw [lookup_option_value]
            exact lookup_ext_section_value pf _ _ _ _ hx rfl)
         | exact lookup_ext_section_value pf _ _ _ _ hx hrc)

theorem lookup_ptr_value (pf : uci_platform) (ctx : uci_context) (ptr : uci_ptr) (ext : Bool) :
    (uci_lookup_ptr pf ctx ptr ext).1 = uci_rc.UCI_OK →
      (uci_lookup_ptr pf ctx ptr ext).2.2.value = ptr.value := by
  simp only [uci_lookup_ptr, UCI_HANDLE_ERR]
  repeat' split
  all_goals first
    | (intro h; rw [lookup_section_value _ _ _ _ _ h])
    | simp

theorem expand_fill_value (ctx : uci_context) (ptr ptr1 : uci_ptr) (pi : Nat) :
    expand_fill ctx ptr pi = some ptr1 → ptr1.value = ptr.value := by
  simp only [expand_fill]
  repeat' split
  all_goals first
    | (intro h; cases h; rfl)
    | (intro h; cases h)

theorem expand_ptr_value (pf : uci_platform) (ctx : uci_context) (ptr : uci_ptr) (c : Bool) :
    (uci_expand_ptr pf ctx ptr c).1 = uci_rc.UCI_OK →
      (uci_expand_ptr pf ctx ptr c).2.2.1.value = ptr.value := by
  simp only [uci_expand_ptr]
  cases hd : ptr.lookup_done
  · simp only [Bool.not_false, if_true]
    have hvl := lookup_ptr_value pf { ctx with internal := true } ptr true
    rcases hl : uci_lookup_ptr pf { ctx with internal := true } ptr true with ⟨rc, c1, p1⟩
    rw [hl] at hvl
    cases rc <;> simp only []
    · repeat' split
      all_goals first
        | (intro h; cases h; done)
        | (intro hrc
           rename_i hf
           simp only [expand_fill_value _ _ _ _ hf]
           exact hvl rfl)
    all_goals (intro h; cases h)
  · simp only [Bool.not_true, Bool.false_eq_true, if_false]
    repeat' split
    all_goals first
      | (intro h; cases h; done)
      | (intro hrc
         rename_i hf
         simp only [expand_fill_value _ _ _ _ hf])

theorem uci_rename_untracked (pf : uci_platform) (ctx : uci_context) (ptr : uci_ptr)
    (hint : ctx.internal = true) :
    (uci_rename pf ctx ptr).2.1.root.map (fun p => p.delta) = ctx.root.map (fun p => p.delta) ∨
      ∃ name pkg, pf.uci_load name = some pkg ∧
        (uci_rename pf ctx ptr).2.1.root.map (fun p => p.delta) =
          ctx.root.map (fun p => p.delta) ++ [pkg.delta] := by
  have hroot := expand_ptr_root pf (UCI_HANDLE_ERR ctx) ptr true
  simp only [uci_rename, hint]
  rcases hexp : uci_expand_ptr pf (UCI_HANDLE_ERR ctx) ptr true with ⟨rc, c1, p1, e⟩
  rw [hexp] at hroot
  have hd : c1.root.map (fun p => p.delta) = ctx.root.map (fun p => p.delta) ∨
      ∃ name pkg, pf.uci_load name = some pkg ∧
        c1.root.map (fun p => p.delta) = ctx.root.map (fun p => p.delta) ++ [pkg.delta] := by
    rcases hroot with h | ⟨name, pkg, hl, h⟩
    · left; rw [h]; rfl
    · right; exact ⟨name, pkg, hl, by rw [h]; simp [UCI_HANDLE_ERR]⟩
  cases rc
  · simp only []
    rw [rename_body_untracked _ _ _]
    exact hd
  all_goals exact hd

theorem uci_delete_untracked (pf : uci_platform) (ctx : uci_context) (ptr : uci_ptr)
    (hint : ctx.internal = true) :
    (uci_delete pf ctx ptr).2.1.root.map (fun p => p.delta) = ctx.root.map (fun p => p.delta) ∨
      ∃ name pkg, pf.uci_load name = some pkg ∧
        (uci_delete pf ctx ptr).2.1.root.map (fun p => p.delta) =
          ctx.root.map (fun p => p.delta) ++ [pkg.delta] := by
  have hroot := expand_ptr_root pf (UCI_HANDLE_ERR ctx) ptr true
  simp only [uci_delete, hint]
  rcases hexp : uci_expand_ptr pf (UCI_HANDLE_ERR ctx) ptr true with ⟨rc, c1, p1, e⟩
  rw [hexp] at hroot
  have hd : c1.root.map (fun p => p.delta) = ctx.root.map (fun p => p.delta) ∨
      ∃ name pkg, pf.uci_load name = some pkg ∧
        c1.root.map (fun p => p.delta) = ctx.root.map (fun p => p.delta) ++ [pkg.delta] := by
    rcases hroot with h | ⟨name, pkg, hl, h⟩
    · left; rw [h]; rfl
    · right; exact ⟨name, pkg, hl, by rw [h]; simp [UCI_HANDLE_ERR]⟩
  cases rc
  · simp only []
    rw [delete_body_untracked pf _ _ _]
    exact hd
  all_goals exact hd

theorem uci_add_list_untracked (pf : uci_platform) (ctx : uci_context) (ptr : uci_ptr)
    (hint : ctx.internal = true) :
    (uci_add_list pf ctx ptr).2.1.root.map (fun p => p.delta) = ctx.root.map (fun p => p.delta) ∨
      ∃ name pkg, pf.uci_load name = some pkg ∧
        (uci_add_list pf ctx ptr).2.1.root.map (fun p => p.delta) =
          ctx.root.map (fun p => p.delta) ++ [pkg.delta] := by
  have hroot := expand_ptr_root pf (UCI_HANDLE_ERR ctx) ptr false
  simp only [uci_add_list, hint]
  rcases hexp : uci_expand_ptr pf (UCI_HANDLE_ERR ctx) ptr false with ⟨rc, c1, p1, e⟩
  rw [hexp] at hroot
  have hd : c1.root.map (fun p => p.delta) = ctx.root.map (fun p => p.delta) ∨
      ∃ name pkg, pf.uci_load name = some pkg ∧
        c1.root.map (fun p => p.delta) = ctx.root.map (fun p => p.delta) ++ [pkg.delta] := by
    rcases hroot with h | ⟨name, pkg, hl, h⟩
    · left; rw [h]; rfl
    · right; exact ⟨name, pkg, hl, by rw [h]; simp [UCI_HANDLE_ERR]⟩
  cases rc
  · simp only []
    rw [add_list_body_untracked _ _]
    exact hd
  all_goals exact hd

theorem uci_del_list_untracked (pf : uci_platform) (ctx : uci_context) (ptr : uci_ptr)
    (hint : ctx.internal = true) :
    (uci_del_list pf ctx ptr).2.1.root.map (fun p => p.delta) = ctx.root.map (fun p => p.delta) ∨
      ∃ name pkg, pf.uci_load name = some pkg ∧
        (uci_del_list pf ctx ptr).2.1.root.map (fun p => p.delta) =
          ctx.root.map (fun p => p.delta) ++ [pkg.delta] := by
  have hroot := expand_ptr_root pf (UCI_HANDLE_ERR ctx) ptr false
  simp only [uci_del_list, hint]
  rcases hexp : uci_expand_ptr pf (UCI_HANDLE_ERR ctx) ptr false with ⟨rc, c1, p1, e⟩
  rw [hexp] at hroot
  have hd : c1.root.map (fun p => p.delta) = ctx.root.map (fun p => p.delta) ∨
      ∃ name pkg, pf.uci_load name = some pkg ∧
        c1.root.map (fun p => p.delta) = ctx.root.map (fun p => p.delta) ++ [pkg.delta] := by
    rcases hroot with h | ⟨name, pkg, hl, h⟩
    · left; rw [h]; rfl
    · right; exact ⟨name, pkg, hl, by rw [h]; simp [UCI_HANDLE_ERR]⟩
  cases rc
  · simp only []
    rw [del_list_body_untracked _ _]
    exact hd
  all_goals exact hd

theorem uci_set_untracked (pf : uci_platform) (ctx : uci_context) (ptr : uci_ptr)
    (hint : ctx.internal = true) (hv : ptr.value ≠ some "") :
    (uci_set pf ctx ptr).2.1.root.map (fun p => p.delta) = ctx.root.map (fun p => p.delta) ∨
      ∃ name pkg, pf.uci_load name = some pkg ∧
        (uci_set pf ctx ptr).2.1.root.map (fun p => p.delta) =
          ctx.root.map (fun p => p.delta) ++ [pkg.delta] := by
  have hroot := expand_ptr_root pf (UCI_HANDLE_ERR ctx) ptr false
  have hval := expand_ptr_value pf (UCI_HANDLE_ERR ctx) ptr false
  simp only [uci_set, hint]
  rcases hexp : uci_expand_ptr pf (UCI_HANDLE_ERR ctx) ptr false with ⟨rc, c1, p1, e⟩
  rw [hexp] at hroot hval
  have hd : c1.root.map (fun p => p.delta) = ctx.root.map (fun p => p.delta) ∨
      ∃ name pkg, pf.uci_load name = some pkg ∧
        c1.root.map (fun p => p.delta) = ctx.root.map (fun p => p.delta) ++ [pkg.delta] := by
    rcases hroot with h | ⟨name, pkg, hl, h⟩
    · left; rw [h]; rfl
    · right; exact ⟨name, pkg, hl, by rw [h]; simp [UCI_HANDLE_ERR]⟩
  cases rc
  · simp only [] at hval ⊢
    rw [set_body_untracked pf c1 p1 (by rw [hval trivial]; exact hv)]
    exact hd
  all_goals exact hd

theorem uci_add_section_untracked (pf : uci_platform) (ctx : uci_context) (p : Option Nat)
    (type : String) (hint : ctx.internal = true) :
    (uci_add_section pf ctx p type).2.1.root.map (fun p => p.delta) =
      ctx.root.map (fun p => p.delta) := by
  simp only [uci_add_section, UCI_HANDLE_ERR, hint, track_internal]
  repeat' split
  all_goals first
    | rfl
    | (refine deltas_put_package { ctx with internal := false } _ _ _ (by assumption) ?_
       simp [put_section, put_delta, alloc_section_delta])

theorem uci_reorder_section_untracked (ctx : uci_context) (pi si : Nat) (pos : Int)
    (hint : ctx.internal = true) :
    (uci_reorder_section ctx pi si pos).2.root.map (fun p => p.delta) =
      ctx.root.map (fun p => p.delta) := by
  simp only [uci_reorder_section, UCI_HANDLE_ERR, hint, track_internal]
  repeat' split
  all_goals first
    | rfl
    | (refine deltas_put_package { ctx with internal := false } _ _ _ (by assumption) ?_
       simp [put_delta])

/-- Untracked mode apart from the tail call of `uci_set`: a call with
`ctx->internal` set, other than `uci_set` with an empty value, leaves the
pending delta list of every package as it was (a package the loader brings in
comes with its own). -/
theorem untracked_call_records_nothing (pf : uci_platform) (ctx : uci_context)
    (call : uci_call) (hint : ctx.internal = true)
    (hset : ∀ ptr, call = uci_call.set ptr → ptr.value ≠ some "") :
    (uci_run pf ctx call).2.root.map (fun p => p.delta) = ctx.root.map (fun p => p.delta) ∨
      ∃ name pkg, pf.uci_load name = some pkg ∧
        (uci_run pf ctx call).2.root.map (fun p => p.delta) =
          ctx.root.map (fun p => p.delta) ++ [pkg.delta] := by
  cases call with
  | set ptr => exact uci_set_untracked pf ctx ptr hint (hset ptr rfl)
  | add_section p type => exact Or.inl (uci_add_section_untracked pf ctx p type hint)
  | delete ptr => exact uci_delete_untracked pf ctx ptr hint
  | rename ptr => exact uci_rename_untracked pf ctx ptr hint
  | reorder_section pi si pos => exact Or.inl (uci_reorder_section_untracked ctx pi si pos hint)
  | add_list ptr => exact uci_add_list_untracked pf ctx ptr hint
  | del_list ptr => exact uci_del_list_untracked pf ctx ptr hint

/-- C3 (the code at the failing input). `uci_set` with an empty value on the
resolved option `net.lan.proto`, called with `ctx->internal` set on a package
with tracking on: the call returns `UCI_OK` and the pending delta list, empty
before, holds a Remove record afterwards, because the `uci_delete` that
`uci_set` ends with reads `ctx->internal` after `UCI_HANDLE_ERR` cleared it.
The same pointer given to `uci_delete` itself in untracked mode removes the
option and records nothing. -/
theorem set_empty_value_untracked_records_delta :
    (uci_set example_platform { root := example_context.root, internal := true }
        (example_ptr (some "lan") (some "proto") (some ""))).1 = uci_rc.UCI_OK ∧
    (uci_set example_platform { root := example_context.root, internal := true }
        (example_ptr (some "lan") (some "proto") (some ""))).2.1.root.map (fun p => p.delta) =
      [[{ cmd := uci_command.UCI_CMD_REMOVE, section_ := "lan", name := some "proto",
          value := none }]] ∧
    (uci_delete example_platform { root := example_context.root, internal := true }
        (example_ptr (some "lan") (some "proto") (some ""))).2.1.root.map (fun p => p.delta) =
      [[]] ∧
    (uci_set example_platform { root := example_context.root, internal := true }
        (example_ptr (some "lan") (some "proto") (some ""))).2.1.root.map
        (fun p => p.sections) =
      (uci_delete example_platform { root := example_context.root, internal := true }
        (example_ptr (some "lan") (some "proto") (some ""))).2.1.root.map
        (fun p => p.sections) := by
  decide

/-! ## Position of a repositioned node -/

theorem list_insert_at_perm {α : Type} (l : List α) (k : Nat) (x : α) :
    (list_insert_at l k x).Perm (x :: l) := by
  simp only [list_insert_at]
  have h : (l.take k ++ x :: l.drop k).Perm (x :: (l.take k ++ l.drop k)) := List.perm_middle
  simpa using h

theorem list_insert_at_getElem? {α : Type} (l : List α) (k : Nat) (x : α) (hk : k ≤ l.length) :
    (list_insert_at l k x)[k]? = some x := by
  simp only [list_insert_at]
  have hlen : (l.take k).length = k := by simp [hk]
  rw [List.getElem?_append_right (by omega)]
  simp [hlen]

theorem list_insert_at_erase {α : Type} [DecidableEq α] (l : List α) (k : Nat) (x : α)
    (hx : x ∉ l) : (list_insert_at l k x).erase x = l := by
  simp only [list_insert_at]
  have h1 : x ∉ l.take k := fun h => hx (List.mem_of_mem_take h)
  rw [List.erase_append_right _ h1]
  simp

/-- C17. Postcondition of `uci_list_set_pos(head, x, pos)` on a list of
distinct nodes that contains `x`: afterwards the list holds the same nodes
(it is a permutation of the list before, of the same length, still without
repetition), `x` is at the 0-based index `min(max(pos, 0), n - 1)`, and the
other nodes are in the order they had before. -/
theorem list_set_pos_post (α : Type) [DecidableEq α] (l : List α) (x : α) (pos : Int)
    (hnd : l.Nodup) (hx : x ∈ l) :
    (uci_list_set_pos l x pos).1.Perm l ∧
    (uci_list_set_pos l x pos).1.length = l.length ∧
    (uci_list_set_pos l x pos).1.Nodup ∧
    (uci_list_set_pos l x pos).1[min (max pos 0).toNat (l.length - 1)]? = some x ∧
    (uci_list_set_pos l x pos).1.erase x = l.erase x ∧
    (uci_list_set_pos l x pos).1.filter (fun y => decide (y ≠ x)) =
      l.filter (fun y => decide (y ≠ x)) := by
  have heq := uci_list_set_pos_eq l hnd x hx pos
  have hlen : 0 < l.length := List.length_pos_of_mem hx
  have hel : (l.erase x).length = l.length - 1 := List.length_erase_of_mem hx
  have hxe : x ∉ l.erase x := fun h => (List.Nodup.mem_erase_iff hnd).1 h |>.1 rfl
  have hk : clamp_pos pos l.length ≤ (l.erase x).length := by
    simp only [clamp_pos, hel]; omega
  have hc : min (max pos 0).toNat (l.length - 1) = clamp_pos pos l.length := by
    simp only [clamp_pos]
    congr 1
    omega
  have hperm : (list_insert_at (l.erase x) (clamp_pos pos l.length) x).Perm l :=
    (list_insert_at_perm _ _ _).trans (List.perm_cons_erase hx).symm
  have hera := list_insert_at_erase (l.erase x) (clamp_pos pos l.length) x hxe
  rw [heq]
  refine ⟨hperm, hperm.length_eq, hperm.nodup_iff.2 hnd, ?_, hera, ?_⟩
  · rw [hc]; exact list_insert_at_getElem? _ _ _ hk
  · have hf : ∀ (m : List α), m.Nodup → m.filter (fun y => decide (y ≠ x)) = m.erase x := by
      intro m hm
      rw [List.Nodup.erase_eq_filter hm]
      congr 1
      funext y
      simp [bne, BEq.beq]
    rw [hf _ (hperm.nodup_iff.2 hnd), hf _ hnd, hera]

theorem list_set_pos_post_witness :
    (uci_list_set_pos [10, 20, 30, 40] 20 (-3)).1 = [20, 10, 30, 40] ∧
    (uci_list_set_pos [10, 20, 30, 40] 20 7).1 = [10, 30, 40, 20] ∧
    (uci_list_set_pos [10, 20, 30, 40] 20 2).1[2]? = some 20 ∧
    (uci_list_set_pos [10, 20, 30, 40] 20 2).1.erase 20 = [10, 30, 40] := by
  have h := list_set_pos_post Nat [10, 20, 30, 40] 20 2 (by decide) (by decide)
  exact ⟨by decide, by decide, h.2.2.2.1, h.2.2.2.2.1⟩

/-! ## The hash of an anonymous name as a plain DJB2 hash -/

theorem djb_fold_mod (cs : Bool) (bytes : List Char) (h1 h2 : Nat)
    (ha : ∀ c ∈ bytes, c.toNat < 128) (hh : h1 % 65536 = h2 % 65536) :
    (bytes.foldl
      (fun h c => (((h <<< 5) % 2 ^ 32 + h) % 2 ^ 32 + char_to_uint cs c) % 2 ^ 32) h1) % 65536 =
      djb2_from h2 bytes % 65536 := by
  induction bytes generalizing h1 h2 with
  | nil => simpa [djb2_from] using hh
  | cons c r ih =>
    simp only [List.foldl_cons, djb2_from]
    apply ih _ _ (fun d hd => ha d (List.mem_cons_of_mem _ hd))
    have hc : c.toNat < 128 := ha c (List.mem_cons_self _ _)
    have hcu : char_to_uint cs c = c.toNat := by
      simp only [char_to_uint]
      have : c.toNat % 256 = c.toNat := Nat.mod_eq_of_lt (by omega)
      rw [this]
      have : ¬ (128 ≤ c.toNat) := by omega
      simp [this]
    rw [hcu, Nat.shiftLeft_eq]
    norm_num
    omega

theorem djbhash_mod (cs : Bool) (hash h2 : Nat) (str : String)
    (ha : ∀ c ∈ str.data, c.toNat < 128)
    (hh : (if hash = 0xFFFFFFFF then 5381 else hash) % 65536 = h2 % 65536) :
    djbhash cs hash str % 65536 = djb2_from h2 str.data % 65536 ∧
      djbhash cs hash str < 2 ^ 31 := by
  simp only [djbhash]
  have hand : ∀ x : Nat, x &&& 0x7FFFFFFF = x % 2 ^ 31 := by
    intro x
    have := Nat.and_pow_two_sub_one_eq_mod x 31
    simpa using this
  rw [hand]
  constructor
  · have h := djb_fold_mod cs str.data _ h2 ha hh
    rw [← h]
    omega
  · exact Nat.mod_lt _ (by norm_num)

theorem djb2_from_append (h : Nat) (a b : List Char) :
    djb2_from h (a ++ b) = djb2_from (djb2_from h a) b := by
  simp [djb2_from, List.foldl_append]

theorem fixup_hash_options_mod (cs : Bool) (opts : List uci_option) (hash h2 : Nat)
    (hn : ∀ o ∈ opts, o.name.isSome = true)
    (ha : ∀ c ∈ (opts.map option_text).flatten, c.toNat < 128)
    (hlt : hash < 2 ^ 31) (hh : hash % 65536 = h2 % 65536) :
    ∃ h, fixup_hash_options cs opts hash = some h ∧
      h % 65536 = djb2_from h2 (opts.map option_text).flatten % 65536 := by
  induction opts generalizing hash h2 with
  | nil => exact ⟨hash, rfl, by simpa [djb2_from] using hh⟩
  | cons o r ih =>
    have hne : ∀ x : Nat, x < 2 ^ 31 → (if x = 0xFFFFFFFF then 5381 else x) = x := by
      intro x hx
      have : x ≠ 0xFFFFFFFF := by omega
      simp [this]
    have hr : ∀ o ∈ r, o.name.isSome = true := fun q hq => hn q (List.mem_cons_of_mem _ hq)
    obtain ⟨n, hname⟩ := Option.isSome_iff_exists.1 (hn o (List.mem_cons_self _ _))
    simp only [List.map_cons, List.flatten_cons, List.mem_append] at ha
    have han : ∀ c ∈ n.data, c.toNat < 128 := by
      intro c hc
      apply ha c
      left
      simp only [option_text, hname, Option.getD_some, List.mem_append]
      exact Or.inl hc
    have h1 := djbhash_mod cs hash h2 n han (by rw [hne _ hlt]; exact hh)
    simp only [fixup_hash_options, hname, List.map_cons, List.flatten_cons, djb2_from_append]
    cases hv : o.v with
    | string v =>
      have hav : ∀ c ∈ v.data, c.toNat < 128 := by
        intro c hc
        apply ha c
        left
        simp only [option_text, hv, List.mem_append]
        exact Or.inr hc
      have h2' := djbhash_mod cs (djbhash cs hash n) (djb2_from h2 n.data) v hav
        (by rw [hne _ h1.2]; exact h1.1)
      have := ih (djbhash cs (djbhash cs hash n) v) (djb2_from (djb2_from h2 n.data) v.data) hr
        (fun c hc => ha c (Or.inr hc)) h2'.2 h2'.1
      simpa [option_text, hname, hv, djb2_from_append] using this
    | list items =>
      have := ih (djbhash cs hash n) (djb2_from h2 n.data) hr
        (fun c hc => ha c (Or.inr hc)) h1.2 h1.1
      simpa [option_text, hname, hv, djb2_from_append] using this

/-- C19. The hash behind an anonymous name has no field separators: for a
section whose options all have names and whose type, option names and string
option values are 7-bit ASCII, `uci_fixup_section` computes a hash whose low
16 bits are those of the plain DJB2 hash (`h0 = 5381`, `h <- 33 * h + byte`,
no masking, no wrap-around) of the one concatenation
`type ++ name1 ++ value1 ++ name2 ++ value2 ...`, and the four-digit suffix
of the name is that value in hexadecimal; so two such sections with equal
concatenations get the same suffix, whatever their counters. -/
theorem fixup_hash_plain_djb2 (cs : Bool) (s1 s2 : uci_section)
    (hn1 : ∀ o ∈ s1.options, o.name.isSome = true) (ha1 : is_ascii7 (section_text s1) = true)
    (hn2 : ∀ o ∈ s2.options, o.name.isSome = true)
    (heq : section_text s1 = section_text s2) :
    ∃ h1 h2, fixup_hash cs s1 = some h1 ∧ fixup_hash cs s2 = some h2 ∧
      h1 % 2 ^ 16 = plain_djb2 (section_text s1) % 2 ^ 16 ∧
      h2 % 2 ^ 16 = plain_djb2 (section_text s2) % 2 ^ 16 ∧
      ∀ n1 n2 : Int,
        name_suffix (fixup_name n1 h1) = fmt_x 4 (plain_djb2 (section_text s1) % 2 ^ 16) ∧
        name_suffix (fixup_name n1 h1) = name_suffix (fixup_name n2 h2) := by
  have key : ∀ s : uci_section, (∀ o ∈ s.options, o.name.isSome = true) →
      is_ascii7 (section_text s) = true →
      ∃ h, fixup_hash cs s = some h ∧ h % 65536 = plain_djb2 (section_text s) % 65536 := by
    intro s hn ha
    simp only [is_ascii7, List.all_eq_true, decide_eq_true_eq, section_text,
      List.mem_append] at ha
    have ht := djbhash_mod cs 0xFFFFFFFF 5381 s.type (fun c hc => ha c (Or.inl hc)) (by simp)
    obtain ⟨h, hh, hm⟩ := fixup_hash_options_mod cs s.options
      (djbhash cs 0xFFFFFFFF s.type) (djb2_from 5381 s.type.data) hn
      (fun c hc => ha c (Or.inr hc)) ht.2 ht.1
    exact ⟨h, by simpa [fixup_hash] using hh,
      by simpa [plain_djb2, section_text, djb2_from_append] using hm⟩
  obtain ⟨h1, hf1, hm1⟩ := key s1 hn1 ha1
  obtain ⟨h2, hf2, hm2⟩ := key s2 hn2 (heq ▸ ha1)
  have hs : (1 : Nat) <<< 16 = 65536 := by decide
  refine ⟨h1, h2, hf1, hf2, by simpa using hm1, by simpa using hm2, ?_⟩
  intro n1 n2
  rw [name_suffix_fixup_name, name_suffix_fixup_name, hs]
  constructor
  · rw [hm1]; norm_num
  · rw [hm1, hm2, heq]

theorem fixup_hash_plain_djb2_witness :
    section_text example_section_a_bc = "abcd".data ∧
    section_text example_section_ab_c = "abcd".data ∧
    plain_djb2 "abcd".data % 2 ^ 16 = 0xee4f ∧
    (uci_fixup_section true 1 example_section_a_bc).map (fun s => s.name)
      = some (some "cfg01ee4f") ∧
    (uci_fixup_section true 2 example_section_ab_c).map (fun s => s.name)
      = some (some "cfg02ee4f") ∧
    ∃ h1 h2, fixup_hash true example_section_a_bc = some h1 ∧
      fixup_hash true example_section_ab_c = some h2 ∧
      h1 % 2 ^ 16 = plain_djb2 (section_text example_section_a_bc) % 2 ^ 16 ∧
      h2 % 2 ^ 16 = plain_djb2 (section_text example_section_ab_c) % 2 ^ 16 ∧
      ∀ n1 n2 : Int,
        name_suffix (fixup_name n1 h1) =
          fmt_x 4 (plain_djb2 (section_text example_section_a_bc) % 2 ^ 16) ∧
        name_suffix (fixup_name n1 h1) = name_suffix (fixup_name n2 h2) :=
  ⟨by decide, by decide, by decide, by decide, by decide,
    fixup_hash_plain_djb2 true example_section_a_bc example_section_ab_c
      (by decide) (by decide) (by decide) (by decide)⟩

/-! ## Malformed extended section expressions -/

theorem c_strchr_none (xs : List Char) (c : Char) (h : ∀ d ∈ xs, d ≠ c) :
    c_strchr xs c = none := by
  induction xs with
  | nil => rfl
  | cons a r ih =>
    have ha : a ≠ c := h a (List.mem_cons_self _ _)
    simp [c_strchr, ha, ih (fun d hd => h d (List.mem_cons_of_mem _ hd))]

theorem c_skip_space_append (ws xs : List Char) (h : ∀ d ∈ ws, c_isspace d = true) :
    c_skip_space (ws ++ xs) = c_skip_space xs := by
  induction ws with
  | nil => rfl
  | cons a r ih =>
    have ha : c_isspace a = true := h a (List.mem_cons_self _ _)
    simp [c_skip_space, ha, ih (fun d hd => h d (List.mem_cons_of_mem _ hd))]

theorem digit_not_space (d : Char) (h : c_isdigit d = true) :
    c_isspace d = false ∧ d ≠ '-' ∧ d ≠ '+' := by
  simp only [c_isdigit, Bool.and_eq_true, decide_eq_true_eq] at h
  refine ⟨?_, ?_, ?_⟩
  · simp only [c_isspace, Bool.or_eq_false_iff, Bool.and_eq_false_imp, decide_eq_false_iff_not,
      decide_eq_true_eq]
    omega
  · intro he; rw [he] at h; revert h; decide
  · intro he; rw [he] at h; revert h; decide

theorem c_strtol_junk (bits : Nat) (ws sg ds : List Char) (c : Char) (rest : List Char)
    (hws : ∀ d ∈ ws, c_isspace d = true) (hsg : sg = [] ∨ sg = ['-'] ∨ sg = ['+'])
    (hds : ∀ d ∈ ds, c_isdigit d = true) (hne : ds ≠ []) (hc : c_isdigit c = false) :
    (c_strtol bits (ws ++ sg ++ ds ++ c :: rest)).2 = c :: rest := by
  obtain ⟨d0, dr, rfl⟩ := List.exists_cons_of_ne_nil hne
  have hd0 : c_isdigit d0 = true := hds d0 (List.mem_cons_self _ _)
  have hd0s := digit_not_space d0 hd0
  have hdig : c_digits (d0 :: dr ++ c :: rest) 0 = (digits_value 0 (d0 :: dr), c :: rest) := by
    have := c_digits_append (d0 :: dr) (c :: rest) 0 hds
    rw [this]
    simp [c_digits, hc]
  have hsign : c_sign (c_skip_space (ws ++ sg ++ (d0 :: dr) ++ c :: rest)) =
      (decide (sg = ['-']), d0 :: dr ++ c :: rest) := by
    rw [List.append_assoc, List.append_assoc, c_skip_space_append _ _ hws]
    rcases hsg with h | h | h
    · subst h
      simp [c_skip_space, hd0s.1, c_sign, hd0s.2.1, hd0s.2.2]
    · subst h
      have : c_isspace '-' = false := by decide
      simp [c_skip_space, this, c_sign]
    · subst h
      have : c_isspace '+' = false := by decide
      simp [c_skip_space, this, c_sign]
  have hdig1 : c_digits (d0 :: (dr ++ c :: rest)) 0 = (digits_value 0 (d0 :: dr), c :: rest) :=
    hdig
  simp only [c_strtol, hsign]
  simp [hd0, hdig1]

/-- C13. Errors of an extended section expression: for every section-name
string that does not start with `@`, or has no `[` after the `@`, or no `]`
after the `[`, or characters after the `]`, or characters left after the
integer between the brackets, or a non-empty type filter that the type-name
check rejects, `uci_lookup_ext_section` throws `UCI_ERR_INVAL`, returns no
section and leaves the pointer zeroed. -/
theorem lookup_ext_section_malformed (pf : uci_platform) (sections : List uci_section)
    (ptr : uci_ptr) (sect : String) (h : ext_malformed pf sect) :
    uci_lookup_ext_section pf sections ptr sect =
      (uci_rc.UCI_ERR_INVAL, none, uci_ptr_zero) := by
  have hp : ext_parse pf sect = none := by
    cases h with
    | no_at s h0 =>
      simp only [ext_parse]
      cases hd : sect.data with
      | nil => rfl
      | cons c0 r =>
        have : c0 ≠ '@' := by
          intro he
          apply h0
          rw [hd, he]
          rfl
        simp [this]
    | no_open name h1 =>
      simp [ext_parse, c_strchr_none name '[' h1]
    | no_close name rest h1 h2 =>
      simp [ext_parse, c_strchr_append name rest '[' h1, c_strchr_none rest ']' h2]
    | trailing name idx t h1 h2 h3 =>
      simp [ext_parse, c_strchr_append name (idx ++ ']' :: t) '[' h1,
        c_strchr_append idx t ']' h2, h3]
    | junk name ws sg ds c rest h1 h2 h3 h4 h5 h6 h7 =>
      have ht := c_strtol_junk pf.long_bits ws sg ds c rest h3 h4 h5 h6 h7
      simp only [ext_parse, List.cons_append, List.append_assoc]
      simp only [List.append_assoc] at ht h2
      have hrw : ws ++ (sg ++ (ds ++ c :: (rest ++ [']']))) =
          (ws ++ (sg ++ (ds ++ c :: rest))) ++ ']' :: [] := by simp
      simp only [c_strchr_append name _ '[' h1, hrw, c_strchr_append _ [] ']' h2]
      simp [ht]
    | bad_type name idx h1 h2 h3 h4 =>
      simp only [ext_parse, List.cons_append, List.append_assoc]
      simp only [c_strchr_append name _ '[' h1, c_strchr_append idx [] ']' h2]
      simp [h3, h4]
  simp only [uci_lookup_ext_section, hp]

theorem lookup_ext_section_malformed_witness :
    uci_lookup_ext_section example_platform example_sections uci_ptr_zero "lan" =
      (uci_rc.UCI_ERR_INVAL, none, uci_ptr_zero) ∧
    uci_lookup_ext_section example_platform example_sections uci_ptr_zero "@a" =
      (uci_rc.UCI_ERR_INVAL, none, uci_ptr_zero) ∧
    uci_lookup_ext_section example_platform example_sections uci_ptr_zero "@a[1" =
      (uci_rc.UCI_ERR_INVAL, none, uci_ptr_zero) ∧
    uci_lookup_ext_section example_platform example_sections uci_ptr_zero "@a[1]x" =
      (uci_rc.UCI_ERR_INVAL, none, uci_ptr_zero) ∧
    uci_lookup_ext_section example_platform example_sections uci_ptr_zero "@a[1x]" =
      (uci_rc.UCI_ERR_INVAL, none, uci_ptr_zero) ∧
    uci_lookup_ext_section example_platform example_sections uci_ptr_zero "@a-b[0]" =
      (uci_rc.UCI_ERR_INVAL, none, uci_ptr_zero) :=
  ⟨lookup_ext_section_malformed example_platform example_sections uci_ptr_zero "lan"
      (ext_malformed.no_at "lan" (by decide)),
    lookup_ext_section_malformed example_platform example_sections uci_ptr_zero "@a"
      (ext_malformed.no_open ['a'] (by decide)),
    lookup_ext_section_malformed example_platform example_sections uci_ptr_zero "@a[1"
      (ext_malformed.no_close ['a'] ['1'] (by decide) (by decide)),
    lookup_ext_section_malformed example_platform example_sections uci_ptr_zero "@a[1]x"
      (ext_malformed.trailing ['a'] ['1'] ['x'] (by decide) (by decide) (by decide)),
    lookup_ext_section_malformed example_platform example_sections uci_ptr_zero "@a[1x]"
      (ext_malformed.junk ['a'] [] [] ['1'] 'x' [] (by decide) (by decide) (by decide)
        (by decide) (by decide) (by decide) (by decide)),
    lookup_ext_section_malformed example_platform example_sections uci_ptr_zero "@a-b[0]"
      (ext_malformed.bad_type ['a', '-', 'b'] ['0'] (by decide) (by decide) (by decide)
        (by decide))⟩

/-! ## Removing a value from a list option -/

/-- C16. `uci_del_list` on a pointer that resolves to a list option with
items `L` and carries the value `v`: the call returns `UCI_OK`; the items of
the option become the items of `L` that differ from `v`, in their order
(no `v` is left, nothing else is removed); the option stays at its position
in the section, also when no item is left, and the other options are
untouched; one ListDel delta is appended in tracked mode. -/
theorem del_list_removes_value (pf : uci_platform) (ctx ctx1 : uci_context) (ptr ptr1 : uci_ptr)
    (e : uci_type) (pi si oi : Nat) (pkg : uci_package) (sec : uci_section) (o : uci_option)
    (items : List String) (value sname oname : String)
    (hexp : uci_expand_ptr pf (UCI_HANDLE_ERR ctx) ptr false = (uci_rc.UCI_OK, ctx1, ptr1, e))
    (hp : ptr1.p = some pi) (hpkg : ctx1.root[pi]? = some pkg)
    (hs : ptr1.s = some si) (hsec : pkg.sections[si]? = some sec)
    (ho : ptr1.o = some oi) (hopt : sec.options[oi]? = some o)
    (hv : o.v = uci_option_v.list items) (hoption : ptr1.option = some oname)
    (hsection : ptr1.section_ = some sname) (hvalue : ptr1.value = some value) :
    uci_del_list pf ctx ptr =
      (uci_rc.UCI_OK,
        { root := ctx1.root.set pi
            { pkg with
              sections := pkg.sections.set si
                { sec with
                  options := sec.options.set oi
                    { name := o.name,
                      v := uci_option_v.list (items.filter (fun x => decide (x ≠ value))) } },
              delta :=
                if !ctx.internal && pkg.has_delta then
                  pkg.delta ++ [{ cmd := uci_command.UCI_CMD_LIST_DEL, section_ := sname,
                                  name := some oname, value := some value }]
                else pkg.delta },
          internal := ctx1.internal },
        ptr1) ∧
    value ∉ items.filter (fun x => decide (x ≠ value)) ∧
    (∀ x, x ≠ value →
      (items.filter (fun x => decide (x ≠ value))).count x = items.count x) ∧
    (items.filter (fun x => decide (x ≠ value))).Sublist items ∧
    (sec.options.set oi
      { name := o.name,
        v := uci_option_v.list (items.filter (fun x => decide (x ≠ value))) }).length =
      sec.options.length ∧
    (sec.options.set oi
      { name := o.name,
        v := uci_option_v.list (items.filter (fun x => decide (x ≠ value))) }).map
        (fun q => q.name) = sec.options.map (fun q => q.name) ∧
    ∀ j, j ≠ oi →
      (sec.options.set oi
        { name := o.name,
          v := uci_option_v.list (items.filter (fun x => decide (x ≠ value))) })[j]? =
        sec.options[j]? := by
  have hbody : uci_del_list pf ctx ptr = del_list_body ctx.internal ctx1 ptr1 := by
    simp only [uci_del_list, hexp]
  have hfil : items.filter (fun e => decide (value ≠ e)) =
      items.filter (fun x => decide (x ≠ value)) := by
    congr 1
    funext x
    simp [ne_comm]
  refine ⟨?_, ?_, ?_, List.filter_sublist _, by simp, ?_, ?_⟩
  · rw [hbody]
    simp only [del_list_body, hp, hs, hpkg, hsec, ho, hopt, hv, hvalue, hoption, hfil,
      track, hsection, uci_add_delta, put_package, put_section, put_option, put_delta]
    by_cases ht : (!ctx.internal && pkg.has_delta) = true
    · simp [ht]
    · simp [ht]
  · simp [List.mem_filter]
  · intro x hx
    rw [List.count_filter]
    simpa using hx
  · exact set_same_of_getElem? (fun q : uci_option => q.name) sec.options oi
      { name := o.name, v := uci_option_v.list (items.filter (fun x => decide (x ≠ value))) }
      o hopt rfl
  · intro j hj
    exact List.getElem?_set_ne (Ne.symm hj)

theorem del_list_removes_value_witness :
    uci_del_list example_platform example_dup_context
        (example_ptr (some "lan") (some "dns") (some "x")) =
      (uci_rc.UCI_OK,
        { root :=
            [{ name := some "net",
               sections :=
                 [{ name := some "lan", type := "interface", anonymous := false,
                    options := [{ name := some "proto", v := uci_option_v.string "dhcp" },
                                { name := some "dns", v := uci_option_v.list ["y"] },
                                { name := some "ntp", v := uci_option_v.list [] }] }],
               n_section := 1, has_delta := true,
               delta := [{ cmd := uci_command.UCI_CMD_LIST_DEL, section_ := "lan",
                           name := some "dns", value := some "x" }],
               saved_delta := [] }],
          internal := false },
        example_ptr_resolved (some "lan") (some "dns") (some "x") 0 1) := by
  have h := (del_list_removes_value example_platform example_dup_context example_dup_context
    (example_ptr (some "lan") (some "dns") (some "x"))
    (example_ptr_resolved (some "lan") (some "dns") (some "x") 0 1)
    uci_type.UCI_TYPE_OPTION 0 0 1
    { name := some "net",
      sections :=
        [{ name := some "lan", type := "interface", anonymous := false,
           options := [{ name := some "proto", v := uci_option_v.string "dhcp" },
                       { name := some "dns", v := uci_option_v.list ["x", "y", "x"] },
                       { name := some "ntp", v := uci_option_v.list [] }] }],
      n_section := 1, has_delta := true, delta := [], saved_delta := [] }
    { name := some "lan", type := "interface", anonymous := false,
      options := [{ name := some "proto", v := uci_option_v.string "dhcp" },
                  { name := some "dns", v := uci_option_v.list ["x", "y", "x"] },
                  { name := some "ntp", v := uci_option_v.list [] }] }
    { name := some "dns", v := uci_option_v.list ["x", "y", "x"] }
    ["x", "y", "x"] "x" "lan" "dns"
    (by decide) rfl rfl rfl rfl rfl rfl rfl rfl rfl rfl).1
  exact h.trans (by decide)

/-! ## Adding a value to a list option -/

theorem append_set_length {α : Type} (l : List α) (a b : α) :
    (l ++ [a]).set l.length b = l ++ [b] := by
  induction l with
  | nil => rfl
  | cons x r ih => simp [ih]

theorem list_insert_at_set {α : Type} (l : List α) (k : Nat) (x y : α) (hk : k ≤ l.length) :
    (list_insert_at l k x).set k y = list_insert_at l k y := by
  induction l generalizing k with
  | nil =>
    have : k = 0 := by simpa using hk
    subst this
    rfl
  | cons a r ih =>
    cases k with
    | zero => rfl
    | succ k =>
      have := ih k (by simpa using hk)
      simpa [list_insert_at] using this

theorem add_list_string_options (sec : uci_section) (oi : Nat) (o : uci_option)
    (name : Option String) (a b : uci_option) (hopt : sec.options[oi]? = some o) :
    put_option (uci_free_option (put_option (uci_alloc_list sec name (some oi)) (oi + 1) a) oi)
        oi b = { sec with options := sec.options.set oi b } := by
  have hlt := lt_of_getElem?_some hopt
  simp only [put_option, uci_free_option, uci_alloc_list]
  rw [list_insert_at_set _ _ _ _ (by omega), insert_after_eraseIdx _ _ _ hlt, List.set_set]

/-- C15. Result of `uci_add_list` on a pointer that resolves to a section and
names the option `n`, with the value `v`.  If the resolver attached no
option, a new list option `n` with the one item `v` is appended at the end
of the options of the section.  If it attached the string option `n` with
value `s`, that option is replaced at its position by a list option of the
same name with the items `[s, v]`.  If it attached a list option with items `L`, its items
become `L` followed by `v`.  In every case the call returns `UCI_OK`, the
other options stay as and where they are, and one ListAdd delta is appended
in tracked mode. -/
theorem add_list_result (pf : uci_platform) (ctx ctx1 : uci_context) (ptr ptr1 : uci_ptr)
    (e : uci_type) (pi si : Nat) (pkg : uci_package) (sec : uci_section)
    (n v sname : String)
    (hexp : uci_expand_ptr pf (UCI_HANDLE_ERR ctx) ptr false = (uci_rc.UCI_OK, ctx1, ptr1, e))
    (hp : ptr1.p = some pi) (hpkg : ctx1.root[pi]? = some pkg)
    (hs : ptr1.s = some si) (hsec : pkg.sections[si]? = some sec)
    (hoption : ptr1.option = some n) (hsection : ptr1.section_ = some sname)
    (hvalue : ptr1.value = some v) :
    (ptr1.o = none →
      uci_add_list pf ctx ptr =
        (uci_rc.UCI_OK,
          { root := ctx1.root.set pi
              { pkg with
                sections := pkg.sections.set si
                  { sec with
                    options := sec.options ++ [{ name := some n, v := uci_option_v.list [v] }] },
                delta :=
                  if !ctx.internal && pkg.has_delta then
                    pkg.delta ++ [{ cmd := uci_command.UCI_CMD_LIST_ADD, section_ := sname,
                                    name := some n, value := some v }]
                  else pkg.delta },
            internal := ctx1.internal },
          { ptr1 with o := some sec.options.length })) ∧
    (∀ oi o s, ptr1.o = some oi → sec.options[oi]? = some o → o.name = some n →
      o.v = uci_option_v.string s →
      uci_add_list pf ctx ptr =
        (uci_rc.UCI_OK,
          { root := ctx1.root.set pi
              { pkg with
                sections := pkg.sections.set si
                  { sec with
                    options := sec.options.set oi
                      { name := o.name, v := uci_option_v.list [s, v] } },
                delta :=
                  if !ctx.internal && pkg.has_delta then
                    pkg.delta ++ [{ cmd := uci_command.UCI_CMD_LIST_ADD, section_ := sname,
                                    name := some n, value := some v }]
                  else pkg.delta },
            internal := ctx1.internal },
          ptr1)) ∧
    (∀ oi o items, ptr1.o = some oi → sec.options[oi]? = some o →
      o.v = uci_option_v.list items →
      uci_add_list pf ctx ptr =
        (uci_rc.UCI_OK,
          { root := ctx1.root.set pi
              { pkg with
                sections := pkg.sections.set si
                  { sec with
                    options := sec.options.set oi
                      { name := o.name, v := uci_option_v.list (items ++ [v]) } },
                delta :=
                  if !ctx.internal && pkg.has_delta then
                    pkg.delta ++ [{ cmd := uci_command.UCI_CMD_LIST_ADD, section_ := sname,
                                    name := some n, value := some v }]
                  else pkg.delta },
            internal := ctx1.internal },
          ptr1)) := by
  have hbody : uci_add_list pf ctx ptr = add_list_body ctx.internal ctx1 ptr1 := by
    simp only [uci_add_list, hexp]
  rw [hbody]
  refine ⟨?_, ?_, ?_⟩
  · intro ho
    simp only [add_list_body, hp, hs, hpkg, hsec, ho, hvalue, hoption,
      track, hsection, uci_add_delta, put_package, put_section, put_delta]
    by_cases ht : (!ctx.internal && pkg.has_delta) = true
    · simp [ht, put_option, uci_alloc_list, append_set_length]
    · simp [ht, put_option, uci_alloc_list, append_set_length]
  · intro oi o s ho hopt hon hv
    rw [hon]
    have hopts := add_list_string_options sec oi o (some n)
      { name := some n, v := uci_option_v.list [s] }
      { name := some n, v := uci_option_v.list [s, v] } hopt
    simp only [add_list_body, hp, hs, hpkg, hsec, ho, hopt, hv, hvalue, hoption,
      track, hsection, uci_add_delta, put_package, put_section, put_delta]
    by_cases ht : (!ctx.internal && pkg.has_delta) = true
    · simp [ht, hopts]
    · simp [ht, hopts]
  · intro oi o items ho hopt hv
    simp only [add_list_body, hp, hs, hpkg, hsec, ho, hopt, hv, hvalue, hoption,
      track, hsection, uci_add_delta, put_package, put_section, put_delta, put_option]
    by_cases ht : (!ctx.internal && pkg.has_delta) = true
    · simp [ht]
    · simp [ht]

theorem add_list_result_witness :
    (uci_add_list example_platform example_context
        (example_ptr (some "lan") (some "ntp") (some "a"))).2.1.root.map
        (fun p => p.sections.map (fun s => s.options)) =
      [[[{ name := some "proto", v := uci_option_v.string "dhcp" },
         { name := some "dns", v := uci_option_v.list ["x", "y", "z"] },
         { name := some "ntp", v := uci_option_v.list ["a"] }], [], []]] ∧
    (uci_add_list example_platform example_context
        (example_ptr (some "lan") (some "proto") (some "static"))).2.1.root.map
        (fun p => p.sections.map (fun s => s.options)) =
      [[[{ name := some "proto", v := uci_option_v.list ["dhcp", "static"] },
         { name := some "dns", v := uci_option_v.list ["x", "y", "z"] }], [], []]] ∧
    (uci_add_list example_platform example_context
        (example_ptr (some "lan") (some "dns") (some "w"))).2.1.root.map
        (fun p => p.sections.map (fun s => s.options)) =
      [[[{ name := some "proto", v := uci_option_v.string "dhcp" },
         { name := some "dns", v := uci_option_v.list ["x", "y", "z", "w"] }], [], []]] := by
  have h1 := (add_list_result example_platform example_context example_context
    (example_ptr (some "lan") (some "ntp") (some "a"))
    (example_ptr_section (some "lan") (some "ntp") (some "a") 0 false)
    uci_type.UCI_TYPE_SECTION 0 0 example_net example_lan "ntp" "a" "lan"
    (by decide) rfl rfl rfl rfl rfl rfl rfl).1 rfl
  have h2 := (add_list_result example_platform example_context example_context
    (example_ptr (some "lan") (some "proto") (some "static"))
    (example_ptr_resolved (some "lan") (some "proto") (some "static") 0 0)
    uci_type.UCI_TYPE_OPTION 0 0 example_net example_lan "proto" "static" "lan"
    (by decide) rfl rfl rfl rfl rfl rfl rfl).2.1 0
    { name := some "proto", v := uci_option_v.string "dhcp" } "dhcp" rfl rfl rfl rfl
  have h3 := (add_list_result example_platform example_context example_context
    (example_ptr (some "lan") (some "dns") (some "w"))
    (example_ptr_resolved (some "lan") (some "dns") (some "w") 0 1)
    uci_type.UCI_TYPE_OPTION 0 0 example_net example_lan "dns" "w" "lan"
    (by decide) rfl rfl rfl rfl rfl rfl rfl).2.2 1
    { name := some "dns", v := uci_option_v.list ["x", "y", "z"] } ["x", "y", "z"] rfl rfl rfl
  rw [h1, h2, h3]
  decide

/-! ## Renaming to the empty string -/

/-- C14 (as stated, refuted). `uci_rename` with the empty string as new
name succeeds: on `example_context` the section `lan` is renamed to the
empty string, and a Rename delta with the empty value is appended. -/
theorem rename_empty_name_accepted :
    (uci_rename example_platform example_context
        (example_ptr (some "lan") none (some ""))).1 = uci_rc.UCI_OK ∧
    (uci_rename example_platform example_context
        (example_ptr (some "lan") none (some ""))).2.1.root.map
        (fun p => (section_heads p, p.delta)) =
      [([(some "", "interface", false), (some "wan", "interface", false),
         (some "cfg03a1b2", "rule", true)],
        [{ cmd := uci_command.UCI_CMD_RENAME, section_ := "lan", name := none,
           value := some "" }])] := by
  decide

/-- C14 (amended). `uci_rename` requires a new name that is not `NULL`, and
nothing more.  On a pointer that resolves to a section, with any value `w`
(the empty string included): the call returns `UCI_OK`; if an option is
attached its name becomes `w`, otherwise the name of the section becomes `w`
and its anonymous flag is cleared; one Rename delta is appended in tracked
mode.  Without a value (`NULL`) the call throws `UCI_ERR_INVAL` and leaves
the context as the resolver left it. -/
theorem rename_any_value (pf : uci_platform) (ctx ctx1 : uci_context) (ptr ptr1 : uci_ptr)
    (e : uci_type) (pi si : Nat) (pkg : uci_package) (sec : uci_section) (sname : String)
    (hexp : uci_expand_ptr pf (UCI_HANDLE_ERR ctx) ptr true = (uci_rc.UCI_OK, ctx1, ptr1, e))
    (hp : ptr1.p = some pi) (hpkg : ctx1.root[pi]? = some pkg)
    (hs : ptr1.s = some si) (hsec : pkg.sections[si]? = some sec)
    (hsection : ptr1.section_ = some sname) :
    (ptr1.value = none → uci_rename pf ctx ptr = (uci_rc.UCI_ERR_INVAL, ctx1, ptr1)) ∧
    (∀ w, ptr1.value = some w → ptr1.o = none →
      uci_rename pf ctx ptr =
        (uci_rc.UCI_OK,
          { root := ctx1.root.set pi
              { pkg with
                sections := pkg.sections.set si
                  { sec with name := some w, anonymous := false },
                delta :=
                  if !ctx.internal && pkg.has_delta then
                    pkg.delta ++ [{ cmd := uci_command.UCI_CMD_RENAME, section_ := sname,
                                    name := ptr1.option, value := some w }]
                  else pkg.delta },
            internal := ctx1.internal },
          ptr1)) ∧
    (∀ w oi o, ptr1.value = some w → ptr1.o = some oi → sec.options[oi]? = some o →
      uci_rename pf ctx ptr =
        (uci_rc.UCI_OK,
          { root := ctx1.root.set pi
              { pkg with
                sections := pkg.sections.set si
                  { sec with options := sec.options.set oi { name := some w, v := o.v } },
                delta :=
                  if !ctx.internal && pkg.has_delta then
                    pkg.delta ++ [{ cmd := uci_command.UCI_CMD_RENAME, section_ := sname,
                                    name := ptr1.option, value := some w }]
                  else pkg.delta },
            internal := ctx1.internal },
          ptr1)) := by
  have hbody : uci_rename pf ctx ptr = rename_body ctx.internal ctx1 ptr1 e := by
    simp only [uci_rename, hexp]
  have he : e = expand_elem ptr1 := by
    have h1 := expand_ptr_elem pf (UCI_HANDLE_ERR ctx) ptr true
    rw [hexp] at h1
    exact h1 rfl
  rw [hbody]
  refine ⟨?_, ?_, ?_⟩
  · intro hv
    simp only [rename_body, hp, hs, hv]
  · intro w hv ho
    have he2 : e = uci_type.UCI_TYPE_SECTION := by
      rw [he]; simp [expand_elem, ho, hs]
    simp only [rename_body, hp, hs, hv, hpkg, ho, he2, hsec,
      track, hsection, uci_add_delta, put_package, put_section, put_delta]
    by_cases ht : (!ctx.internal && pkg.has_delta) = true
    · simp [ht, hsec]
    · simp [ht, hsec]
  · intro w oi o hv ho hopt
    have he2 : e = uci_type.UCI_TYPE_OPTION := by
      rw [he]; simp [expand_elem, ho]
    simp only [rename_body, hp, hs, hv, hpkg, ho, he2, hsec, hopt,
      track, hsection, uci_add_delta, put_package, put_section, put_delta, put_option]
    by_cases ht : (!ctx.internal && pkg.has_delta) = true
    · simp [ht, hsec, hopt]
    · simp [ht, hsec, hopt]

theorem rename_any_value_witness :
    uci_rename example_platform example_context (example_ptr (some "lan") none (some "")) =
      (uci_rc.UCI_OK,
        { root :=
            [{ name := some "net",
               sections :=
                 [{ name := some "", type := "interface", anonymous := false,
                    options := [{ name := some "proto", v := uci_option_v.string "dhcp" },
                                { name := some "dns", v := uci_option_v.list ["x", "y", "z"] }] },
                  { name := some "wan", type := "interface", anonymous := false, options := [] },
                  { name := some "cfg03a1b2", type := "rule", anonymous := true, options := [] }],
               n_section := 3, has_delta := true,
               delta := [{ cmd := uci_command.UCI_CMD_RENAME, section_ := "lan",
                           name := none, value := some "" }],
               saved_delta := [] }],
          internal := false },
        example_ptr_section (some "lan") none (some "") 0 true) := by
  have h := (rename_any_value example_platform example_context example_context
    (example_ptr (some "lan") none (some ""))
    (example_ptr_section (some "lan") none (some "") 0 true)
    uci_type.UCI_TYPE_SECTION 0 0 example_net example_lan "lan"
    (by decide) rfl rfl rfl rfl rfl).2.1 "" rfl rfl
  exact h.trans (by decide)

/-! ## Deleting a list item by an index out of range -/

theorem delete_item_neg (l : List String) (i : Int) (h0 : -2 ^ 31 ≤ i) (h1 : i < 0)
    (hl : (l.length : Int) ≤ 2 ^ 32 + i) : delete_item l i = none := by
  induction l generalizing i with
  | nil => rfl
  | cons a r ih =>
    have hi : i ≠ 0 := by omega
    simp only [delete_item, hi, if_false]
    simp only [List.length_cons, Nat.cast_add, Nat.cast_one] at hl
    by_cases hmin : i = -2 ^ 31
    · have hw : to_int32 (i - 1) = 2 ^ 31 - 1 := by
        subst hmin
        simp only [to_int32]
        omega
      rw [hw, delete_item_eq _ _ (by omega) (by omega)]
      have : ¬ (2147483647 < r.length) := by omega
      simp [this]
    · have hw : to_int32 (i - 1) = i - 1 := to_int32_id _ (by omega) (by omega)
      rw [hw, ih (i - 1) (by omega) (by omega) (by omega)]

/-- C20. `uci_delete` with a list index out of range does nothing and says
nothing.  On a pointer that resolves to a list option with `n` items (`n`
at most `2 ^ 31`), with a non-empty value that `sscanf("%d")` converts to
`i` with `i < 0` or `n ≤ i`: the call returns `UCI_OK` (0), the context is
the one the resolver left (items, tree and pending delta list as they were,
in tracked mode too) and the pointer keeps its handles. -/
theorem delete_index_out_of_range (pf : uci_platform) (ctx ctx1 : uci_context)
    (ptr ptr1 : uci_ptr) (e : uci_type) (pi si oi : Nat) (pkg : uci_package)
    (sec : uci_section) (o : uci_option) (items : List String) (value : String) (i : Int)
    (hexp : uci_expand_ptr pf (UCI_HANDLE_ERR ctx) ptr true = (uci_rc.UCI_OK, ctx1, ptr1, e))
    (hp : ptr1.p = some pi) (hpkg : ctx1.root[pi]? = some pkg)
    (hs : ptr1.s = some si) (hsec : pkg.sections[si]? = some sec)
    (ho : ptr1.o = some oi) (hopt : sec.options[oi]? = some o)
    (hv : o.v = uci_option_v.list items)
    (hvalue : ptr1.value = some value) (hne : value ≠ "")
    (hscan : c_sscanf_d pf.long_bits value.data = sscanf_d.conv i)
    (hlen : items.length ≤ 2 ^ 31)
    (hout : i < 0 ∨ (items.length : Int) ≤ i) :
    uci_delete pf ctx ptr = (uci_rc.UCI_OK, ctx1, ptr1) ∧
    (ctx1.root = ctx.root ∨
      ∃ name pkg, pf.uci_load name = some pkg ∧ ctx1.root = ctx.root ++ [pkg]) := by
  have hbody : uci_delete pf ctx ptr = delete_body pf ctx.internal ctx1 ptr1 e := by
    simp only [uci_delete, hexp]
  have hr := sscanf_d_range _ _ _ hscan
  have hitem : delete_item items i = none := by
    rcases hout with h | h
    · exact delete_item_neg items i hr.1 h (by
        have : ((items.length : Nat) : Int) ≤ 2 ^ 31 := by exact_mod_cast hlen
        omega)
    · rw [delete_item_eq _ _ (by omega) hr.2]
      have : ¬ (i < (items.length : Int)) := by omega
      simp [this]
  constructor
  · rw [hbody]
    simp only [delete_body, hp, hs, hpkg, hsec, ho, hopt, hv, hvalue, hne, if_false, hscan,
      hitem]
  · have h := expand_ptr_root pf (UCI_HANDLE_ERR ctx) ptr true
    rw [hexp] at h
    exact h

theorem delete_index_out_of_range_witness :
    uci_delete example_platform example_context
        (example_ptr (some "lan") (some "dns") (some "3")) =
      (uci_rc.UCI_OK, example_context,
        example_ptr_resolved (some "lan") (some "dns") (some "3") 0 1) ∧
    uci_delete example_platform example_context
        (example_ptr (some "lan") (some "dns") (some "-1")) =
      (uci_rc.UCI_OK, example_context,
        example_ptr_resolved (some "lan") (some "dns") (some "-1") 0 1) ∧
    uci_delete example_platform example_context
        (example_ptr (some "lan") (some "dns") (some "-2147483648")) =
      (uci_rc.UCI_OK, example_context,
        example_ptr_resolved (some "lan") (some "dns") (some "-2147483648") 0 1) :=
  ⟨(delete_index_out_of_range example_platform example_context example_context
      (example_ptr (some "lan") (some "dns") (some "3"))
      (example_ptr_resolved (some "lan") (some "dns") (some "3") 0 1)
      uci_type.UCI_TYPE_OPTION 0 0 1 example_net example_lan
      { name := some "dns", v := uci_option_v.list ["x", "y", "z"] } ["x", "y", "z"] "3" 3
      (by decide) rfl rfl rfl rfl rfl rfl rfl rfl (by decide) (by decide) (by decide)
      (by decide)).1,
    (delete_index_out_of_range example_platform example_context example_context
      (example_ptr (some "lan") (some "dns") (some "-1"))
      (example_ptr_resolved (some "lan") (some "dns") (some "-1") 0 1)
      uci_type.UCI_TYPE_OPTION 0 0 1 example_net example_lan
      { name := some "dns", v := uci_option_v.list ["x", "y", "z"] } ["x", "y", "z"] "-1" (-1)
      (by decide) rfl rfl rfl rfl rfl rfl rfl rfl (by decide) (by decide) (by decide)
      (by decide)).1,
    (delete_index_out_of_range example_platform example_context example_context
      (example_ptr (some "lan") (some "dns") (some "-2147483648"))
      (example_ptr_resolved (some "lan") (some "dns") (some "-2147483648") 0 1)
      uci_type.UCI_TYPE_OPTION 0 0 1 example_net example_lan
      { name := some "dns", v := uci_option_v.list ["x", "y", "z"] } ["x", "y", "z"]
      "-2147483648" (-2147483648)
      (by decide) rfl rfl rfl rfl rfl rfl rfl rfl (by decide) (by decide) (by decide)
      (by decide)).1⟩

/-! ## The two paths of a change of section type -/

theorem replace_at_eq {α : Type} (l : List α) (k : Nat) (a b c : α) (hk : k < l.length) :
    (((list_insert_at l (k + 1) a).set (k + 1) b).set k c).eraseIdx k = l.set k b := by
  rw [list_insert_at_set _ _ _ _ (by omega)]
  induction l generalizing k with
  | nil => simp at hk
  | cons x r ih =>
    cases k with
    | zero => simp [list_insert_at]
    | succ k =>
      have := ih k (by simpa using hk)
      simpa [list_insert_at] using this

theorem set_update_section_eq (pkg : uci_package) (si : Nat) (old : uci_section) (ptr : uci_ptr)
    (t nm : String) (hsec : pkg.sections[si]? = some old) (hne : old.type ≠ t)
    (hname : old.name = some nm) (hnm : nm ≠ "") :
    set_update_section pkg si old ptr t =
      if old.type.length = t.length then
        some ({ pkg with sections := pkg.sections.set si { old with type := t } }, ptr)
      else
        some ({ pkg with
                sections := pkg.sections.set si
                  { name := some nm, type := t, anonymous := false, options := old.options } },
              if ptr.section_alias then { ptr with section_ := some nm } else ptr) := by
  have hlt := lt_of_getElem?_some hsec
  have hnm2 : ¬ (some nm = some "") := by simpa using hnm
  simp only [set_update_section, hne, if_false, put_section]
  by_cases hl : old.type.length = t.length
  · simp only [hl, if_true]
  · have hnew : (uci_alloc_section pkg t old.name (some si)).sections[si + 1]? =
        some { name := some nm, type := t, anonymous := false, options := [] } := by
      simp only [uci_alloc_section, hname, hnm2, if_false]
      rw [list_insert_at_getElem? _ _ _ (by omega)]
      rfl
    simp only [hl, if_false, hnew, uci_section_transfer_options, uci_free_section]
    simp only [uci_alloc_section, hname, hnm2, if_false, replace_at_eq _ _ _ _ _ hlt]
    simp

/-- C18. `uci_set` of a new type `t` on an existing named section, on a
pointer without an option: the call returns `UCI_OK` and the section keeps
its position, its name and its options on both paths, but the two paths
differ in the anonymous flag.  When `t` is as long as the old type the type
is overwritten in place and the flag is kept; when the lengths differ the
section is replaced by one allocated with the old name, whose anonymous flag
is `false` whatever the flag of the old section was. -/
theorem set_section_type_paths (pf : uci_platform) (ctx ctx1 : uci_context)
    (ptr ptr1 : uci_ptr) (e : uci_type) (pi si : Nat) (pkg : uci_package)
    (old : uci_section) (t nm sname : String)
    (hexp : uci_expand_ptr pf (UCI_HANDLE_ERR ctx) ptr false = (uci_rc.UCI_OK, ctx1, ptr1, e))
    (hp : ptr1.p = some pi) (hpkg : ctx1.root[pi]? = some pkg)
    (hs : ptr1.s = some si) (hsec : pkg.sections[si]? = some old)
    (ho : ptr1.o = none) (hoption : ptr1.option = none)
    (hsection : ptr1.section_ = some sname) (hvalue : ptr1.value = some t)
    (ht : t ≠ "") (hvalid : pf.uci_validate_type t = true) (hne : old.type ≠ t)
    (hname : old.name = some nm) (hnm : nm ≠ "") :
    (old.type.length = t.length →
      uci_set pf ctx ptr =
        (uci_rc.UCI_OK,
          { root := ctx1.root.set pi
              { pkg with
                sections := pkg.sections.set si
                  { name := some nm, type := t, anonymous := old.anonymous,
                    options := old.options },
                delta :=
                  if !ctx.internal && pkg.has_delta then
                    pkg.delta ++ [{ cmd := uci_command.UCI_CMD_CHANGE, section_ := sname,
                                    name := none, value := some t }]
                  else pkg.delta },
            internal := ctx1.internal },
          ptr1)) ∧
    (old.type.length ≠ t.length →
      uci_set pf ctx ptr =
        (uci_rc.UCI_OK,
          { root := ctx1.root.set pi
              { pkg with
                sections := pkg.sections.set si
                  { name := some nm, type := t, anonymous := false,
                    options := old.options },
                delta :=
                  if !ctx.internal && pkg.has_delta then
                    pkg.delta ++ [{ cmd := uci_command.UCI_CMD_CHANGE,
                                    section_ := if ptr1.section_alias then nm else sname,
                                    name := none, value := some t }]
                  else pkg.delta },
            internal := ctx1.internal },
          if ptr1.section_alias then { ptr1 with section_ := some nm } else ptr1)) := by
  have hbody : uci_set pf ctx ptr = set_body pf ctx.internal ctx1 ptr1 := by
    simp only [uci_set, hexp]
  have hatt : set_attach ctx1 ptr1 = some ptr1 := by
    simp only [set_attach, ho, hs, hoption]
  have hupd := set_update_section_eq pkg si old ptr1 t nm hsec hne hname hnm
  have hold : ({ old with type := t } : uci_section) =
      { name := some nm, type := t, anonymous := old.anonymous, options := old.options } := by
    rw [← hname]
  rw [hbody]
  constructor
  · intro hl
    simp only [hl, if_true] at hupd
    simp only [set_body, hvalue, hs, hoption, hsection, ht, hvalid, hatt, hp, hpkg,
      set_branches, ho, hsec, hupd, track, uci_add_delta, put_package, put_delta, hold]
    by_cases hd : (!ctx.internal && pkg.has_delta) = true
    · simp [hd, hsection, hoption]
    · simp [hd]
  · intro hl
    simp only [hl, if_false] at hupd
    simp only [set_body, hvalue, hs, hoption, hsection, ht, hvalid, hatt, hp, hpkg,
      set_branches, ho, hsec, hupd, track, uci_add_delta, put_package, put_delta]
    by_cases hd : (!ctx.internal && pkg.has_delta) = true
    · by_cases ha : ptr1.section_alias = true
      · simp [hd, ha, hoption]
      · simp [hd, ha, hsection, hoption]
    · simp [hd]

theorem set_section_type_paths_witness :
    (uci_set example_platform example_fw_context (example_fw_ptr "zone")).2.1.root.map
        (fun p => p.sections) =
      [[{ name := some "cfg013820", type := "zone", anonymous := true,
          options := [{ name := some "src", v := uci_option_v.string "lan" }] }]] ∧
    (uci_set example_platform example_fw_context (example_fw_ptr "redirect")).2.1.root.map
        (fun p => p.sections) =
      [[{ name := some "cfg013820", type := "redirect", anonymous := false,
          options := [{ name := some "src", v := uci_option_v.string "lan" }] }]] := by
  have h1 := (set_section_type_paths example_platform example_fw_context example_fw_context
    (example_fw_ptr "zone") (example_fw_ptr_resolved "zone") uci_type.UCI_TYPE_SECTION 0 0
    example_fw example_rule "zone" "cfg013820" "cfg013820"
    (by decide) rfl rfl rfl rfl rfl rfl rfl rfl (by decide) (by decide) (by decide) rfl
    (by decide)).1 (by decide)
  have h2 := (set_section_type_paths example_platform example_fw_context example_fw_context
    (example_fw_ptr "redirect") (example_fw_ptr_resolved "redirect") uci_type.UCI_TYPE_SECTION
    0 0 example_fw example_rule "redirect" "cfg013820" "cfg013820"
    (by decide) rfl rfl rfl rfl rfl rfl rfl rfl (by decide) (by decide) (by decide) rfl
    (by decide)).2 (by decide)
  rw [h1, h2]
  decide

/-! ## The lookup flags -/

theorem lookup_list_null (names : List (Option String)) (n : String) :
    uci_lookup_list names (some n) = lookup_res.null →
      ∀ i : Nat, names[i]? ≠ some (some n) := by
  induction names with
  | nil => intro _ i; simp
  | cons e rest ih =>
    cases e with
    | none => intro h; simp [uci_lookup_list] at h
    | some en =>
      simp only [uci_lookup_list]
      split
      · intro h; simp at h
      · next hne =>
        cases hr : uci_lookup_list rest (some n) with
        | fault => intro h; simp [lookup_res.shift] at h
        | elem j => intro h; simp [lookup_res.shift] at h
        | null =>
          intro _ i
          cases i with
          | zero => simpa using hne
          | succ j => simpa using ih hr j

theorem lookup_option_complete (pkg : uci_package) (ctx : uci_context) (ptr : uci_ptr)
    (si pi : Nat) (hp : ptr.p = some pi) (hroot : ctx.root[pi]? = some pkg)
    (hc : ptr.lookup_complete = false) :
    (lookup_option pkg ctx ptr si).1 = uci_rc.UCI_OK →
      (lookup_option pkg ctx ptr si).2.2.s = some si ∧
      ((lookup_option pkg ctx ptr si).2.2.lookup_complete = true ↔
        (ptr.option.isSome = true →
          option_attached ctx (lookup_option pkg ctx ptr si).2.2 ptr.option = true)) := by
  cases hopt : ptr.option with
  | none => intro _; simp [lookup_option, hopt]
  | some n =>
    cases hsec : pkg.sections[si]? with
    | none => intro h; simp [lookup_option, hopt, hsec] at h
    | some sec =>
      cases hl : uci_lookup_list (sec.options.map (fun o => o.name)) (some n) with
      | fault => intro h; simp [lookup_option, hopt, hsec, hl] at h
      | null =>
        intro _
        have hnull := lookup_list_null _ _ hl
        simp only [lookup_option, hopt, hsec, hl, hc, Option.isSome_some, true_implies,
          option_attached, hp, hroot]
        refine ⟨trivial, ?_⟩
        constructor
        · intro h; simp at h
        · intro h
          exfalso
          cases ho : ptr.o with
          | none =>
            simp [ho] at h
          | some oi =>
            simp only [ho] at h
            cases hoo : sec.options[oi]? with
            | none => simp [hoo] at h
            | some o =>
              simp only [hoo, decide_eq_true_eq] at h
              apply hnull oi
              simp [hoo, h]
      | elem oi =>
        intro _
        have helem := lookup_list_elem _ _ _ hl
        simp only [List.getElem?_map, Option.map_eq_some'] at helem
        obtain ⟨o, ho1, ho2⟩ := helem
        simp [lookup_option, hopt, hsec, hl, option_attached, hp, hroot, ho1, ho2]

theorem lookup_ext_section_ok (pf : uci_platform) (sections : List uci_section)
    (ptr : uci_ptr) (sect : String) (r : Option Nat) (ptr1 : uci_ptr)
    (h : uci_lookup_ext_section pf sections ptr sect = (uci_rc.UCI_OK, r, ptr1)) :
    (r = none ∧ ptr1 = ptr) ∨
      (∃ si name, r = some si ∧ ptr1 = { ptr with section_ := name, section_alias := true }) := by
  simp only [uci_lookup_ext_section] at h
  repeat' split at h
  all_goals simp only [Prod.mk.injEq] at h
  all_goals first
    | (exfalso; exact absurd h.1 (by decide))
    | (left; exact ⟨h.2.1.symm, h.2.2.symm⟩)
    | (right; exact ⟨_, _, h.2.1.symm, h.2.2.symm⟩)

theorem lookup_section_complete (pf : uci_platform) (ctx : uci_context) (ptr : uci_ptr)
    (pi : Nat) (ext : Bool) (hc : ptr.lookup_complete = false) :
    (lookup_section pf ctx ptr pi ext).1 = uci_rc.UCI_OK →
      ((lookup_section pf ctx ptr pi ext).2.2.lookup_complete = true ↔
        (ptr.section_ = none ∧ ptr.s = none) ∨
        ((lookup_section pf ctx ptr pi ext).2.2.s.isSome = true ∧
          (ptr.option.isSome = true →
            option_attached ctx (lookup_section pf ctx ptr pi ext).2.2 ptr.option = true))) := by
  have key : ∀ (pkg : uci_package) (q : uci_ptr) (si : Nat), ctx.root[pi]? = some pkg →
      q.p = some pi → q.lookup_complete = false → q.option = ptr.option →
      ¬ (ptr.section_ = none ∧ ptr.s = none) →
      (lookup_option pkg ctx q si).1 = uci_rc.UCI_OK →
      ((lookup_option pkg ctx q si).2.2.lookup_complete = true ↔
        (ptr.section_ = none ∧ ptr.s = none) ∨
        ((lookup_option pkg ctx q si).2.2.s.isSome = true ∧
          (ptr.option.isSome = true →
            option_attached ctx (lookup_option pkg ctx q si).2.2 ptr.option = true))) := by
    intro pkg q si hroot hq hqc hqo hreq hrc
    have h := lookup_option_complete pkg ctx q si pi hq hroot hqc hrc
    rw [hqo] at h
    rw [h.2]
    simp [hreq, h.1]
  have miss : ∀ (q : uci_ptr), q.lookup_complete = false → q.s = none →
      ¬ (ptr.section_ = none ∧ ptr.s = none) →
      (q.lookup_complete = true ↔
        (ptr.section_ = none ∧ ptr.s = none) ∨
        (q.s.isSome = true ∧
          (ptr.option.isSome = true → option_attached ctx q ptr.option = true))) := by
    intro q hqc hqs hreq
    simp [hqc, hqs, hreq]
  by_cases hreq : ptr.section_ = none ∧ ptr.s = none
  · intro _
    simp [lookup_section, hreq.1, hreq.2]
  · have hcond : (ptr.section_.isNone && ptr.s.isNone) = false := by
      cases h1 : ptr.section_ <;> cases h2 : ptr.s <;> simp_all
    simp only [lookup_section, hcond, Bool.false_eq_true, if_false]
    repeat' split
    all_goals first
      | (intro h; simp at h; done)
      | (refine key _ _ _ ?_ ?_ ?_ ?_ hreq
         · assumption
         · rfl
         · exact hc
         · rfl)
      | (intro _
         refine miss _ hc ?_ hreq
         assumption)
      | skip
    · next hr =>
      rcases lookup_ext_section_ok pf _ _ _ _ _ hr with ⟨h1, _⟩ | ⟨si, nm, h1, h2⟩
      · exact absurd h1 (by simp)
      · subst h2
        refine key _ _ _ ?_ ?_ ?_ ?_ hreq
        · assumption
        · rfl
        · exact hc
        · rfl
    · next hneg hr =>
      intro hrc
      simp only at hrc
      subst hrc
      rcases lookup_ext_section_ok pf _ _ _ _ _ hr with ⟨_, h2⟩ | ⟨si, nm, h1, _⟩
      · subst h2
        refine miss _ hc ?_ hreq
        assumption
      · exact (hneg si rfl h1).elim

/-- C11 (as stated, refuted). A pointer that names the package `net` and the
option `proto` and no section: `uci_lookup_ptr` returns `UCI_OK` and sets
`UCI_LOOKUP_COMPLETE` although the option asked for is not attached to the
pointer (`ptr->o` stays `NULL`). -/
theorem lookup_complete_without_section :
    uci_lookup_ptr example_platform example_context (example_ptr none (some "proto") none)
        true =
      (uci_rc.UCI_OK, example_context,
        { example_ptr none (some "proto") none with
          lookup_done := true, lookup_complete := true, p := some 0,
          last := some uci_type.UCI_TYPE_PACKAGE }) ∧
    (uci_lookup_ptr example_platform example_context (example_ptr none (some "proto") none)
        true).2.2.o = none := by
  decide

/-- C11 (amended). For a pointer whose `UCI_LOOKUP_COMPLETE` flag is clear on
entry and a call of `uci_lookup_ptr` that returns `UCI_OK`:
`UCI_LOOKUP_DONE` is set, and `UCI_LOOKUP_COMPLETE` is set exactly when
either neither a section name nor a section handle is given (whatever the
option name), or a section is attached and, if an option name is given, the
option of that name is attached. -/
theorem lookup_ptr_flags (pf : uci_platform) (ctx : uci_context) (ptr : uci_ptr) (ext : Bool)
    (hc : ptr.lookup_complete = false)
    (hok : (uci_lookup_ptr pf ctx ptr ext).1 = uci_rc.UCI_OK) :
    (uci_lookup_ptr pf ctx ptr ext).2.2.lookup_done = true ∧
    ((uci_lookup_ptr pf ctx ptr ext).2.2.lookup_complete = true ↔
      (ptr.section_ = none ∧ ptr.s = none) ∨
      ((uci_lookup_ptr pf ctx ptr ext).2.2.s.isSome = true ∧
        (ptr.option.isSome = true →
          option_attached (uci_lookup_ptr pf ctx ptr ext).2.1
            (uci_lookup_ptr pf ctx ptr ext).2.2 ptr.option = true))) := by
  refine ⟨lookup_ptr_done pf ctx ptr ext hok, ?_⟩
  have key : ∀ (c : uci_context) (pi : Nat),
      (lookup_section pf c { ptr with lookup_done := true } pi ext).1 = uci_rc.UCI_OK →
      ((lookup_section pf c { ptr with lookup_done := true } pi ext).2.2.lookup_complete = true ↔
        (ptr.section_ = none ∧ ptr.s = none) ∨
        ((lookup_section pf c { ptr with lookup_done := true } pi ext).2.2.s.isSome = true ∧
          (ptr.option.isSome = true →
            option_attached (lookup_section pf c { ptr with lookup_done := true } pi ext).2.1
              (lookup_section pf c { ptr with lookup_done := true } pi ext).2.2
              ptr.option = true))) := by
    intro c pi h
    rw [lookup_section_ctx]
    exact lookup_section_complete pf c { ptr with lookup_done := true } pi ext hc h
  revert hok
  simp only [uci_lookup_ptr]
  repeat' split
  all_goals first
    | exact key _ _
    | (intro h; simp at h)

theorem lookup_ptr_flags_witness :
    (uci_lookup_ptr example_platform example_context
      (example_ptr (some "lan") (some "proto") none) true).2.2.lookup_complete = true ∧
    (uci_lookup_ptr example_platform example_context
      (example_ptr (some "lan") (some "mtu") none) true).2.2.lookup_complete = false ∧
    ((uci_lookup_ptr example_platform example_context
        (example_ptr (some "lan") (some "mtu") none) true).2.2.lookup_done = true ∧
      ((uci_lookup_ptr example_platform example_context
          (example_ptr (some "lan") (some "mtu") none) true).2.2.lookup_complete = true ↔
        ((example_ptr (some "lan") (some "mtu") none).section_ = none ∧
          (example_ptr (some "lan") (some "mtu") none).s = none) ∨
        ((uci_lookup_ptr example_platform example_context
            (example_ptr (some "lan") (some "mtu") none) true).2.2.s.isSome = true ∧
          ((example_ptr (some "lan") (some "mtu") none).option.isSome = true →
            option_attached
              (uci_lookup_ptr example_platform example_context
                (example_ptr (some "lan") (some "mtu") none) true).2.1
              (uci_lookup_ptr example_platform example_context
                (example_ptr (some "lan") (some "mtu") none) true).2.2
              (example_ptr (some "lan") (some "mtu") none).option = true)))) :=
  ⟨by decide, by decide,
    lookup_ptr_flags example_platform example_context
      (example_ptr (some "lan") (some "mtu") none) true (by decide) (by decide)⟩

/-! ## Setting the empty value -/

theorem expand_fill_fields (ctx : uci_context) (ptr ptr1 : uci_ptr) (pi : Nat)
    (h : expand_fill ctx ptr pi = some ptr1) :
    ptr1.lookup_complete = ptr.lookup_complete ∧ ptr1.p = ptr.p ∧ ptr1.s = ptr.s ∧
      ptr1.o = ptr.o ∧ ptr1.value = ptr.value := by
  simp only [expand_fill] at h
  repeat' split at h
  all_goals first
    | (simp only [Option.some.injEq] at h; subst h; exact ⟨rfl, rfl, rfl, rfl, rfl⟩)
    | simp at h

theorem expand_fill_idem (ctx ctx2 : uci_context) (ptr ptr1 : uci_ptr) (pi : Nat)
    (h : expand_fill ctx ptr pi = some ptr1) (hroot : ctx2.root = ctx.root) :
    expand_fill ctx2 ptr1 pi = some ptr1 := by
  obtain ⟨d, c, x, p, s, o, l, pk, sn, onm, v, al⟩ := ptr
  simp only [expand_fill, hroot] at h ⊢
  cases hr : ctx.root[pi]? with
  | none => simp [hr] at h
  | some pkg =>
    simp only [hr] at h ⊢
    cases s with
    | none =>
      cases pk <;> simp at h <;> subst h <;> simp
    | some si =>
      cases hs : pkg.sections[si]? with
      | none => cases pk <;> simp [hs] at h
      | some sec =>
        cases o with
        | none =>
          cases pk <;> cases sn <;> simp [hs] at h <;> subst h <;> simp [hs]
        | some oi =>
          cases ho : sec.options[oi]? with
          | none => cases pk <;> cases sn <;> simp [hs, ho] at h
          | some opt =>
            cases pk <;> cases sn <;> cases onm <;> simp [hs, ho] at h <;> subst h <;>
              simp [hs, ho]

theorem expand_ptr_ok (pf : uci_platform) (c : uci_context) (p : uci_ptr) (b : Bool)
    (ctx1 : uci_context) (ptr1 : uci_ptr) (e : uci_type)
    (h : uci_expand_ptr pf c p b = (uci_rc.UCI_OK, ctx1, ptr1, e)) :
    ∃ ptr0 pi,
      (if !p.lookup_done then uci_lookup_ptr pf { c with internal := true } p true
       else (uci_rc.UCI_OK, c, p)) = (uci_rc.UCI_OK, ctx1, ptr0) ∧
      (b = true → ptr0.lookup_complete = true) ∧ ptr0.p = some pi ∧
      expand_fill ctx1 ptr0 pi = some ptr1 ∧ e = expand_elem ptr1 := by
  simp only [uci_expand_ptr] at h
  split at h
  · next ctx0 ptr0 hr =>
    split at h
    · simp at h
    · next hb =>
      split at h
      · simp at h
      · next pi hp =>
        split at h
        · simp at h
        · next q hq =>
          simp only [Prod.mk.injEq, true_and] at h
          obtain ⟨h1, h2, h3⟩ := h
          subst h1 h2
          refine ⟨ptr0, pi, hr, ?_, hp, hq, h3.symm⟩
          intro hbt
          simpa [hbt] using hb
  · next hneg _ =>
    simp only [Prod.mk.injEq] at h
    exact (hneg h.1).elim

theorem expand_ptr_of (pf : uci_platform) (c : uci_context) (p : uci_ptr) (b : Bool)
    (ctx1 : uci_context) (ptr0 ptr1 : uci_ptr) (pi : Nat)
    (hr : (if !p.lookup_done then uci_lookup_ptr pf { c with internal := true } p true
       else (uci_rc.UCI_OK, c, p)) = (uci_rc.UCI_OK, ctx1, ptr0))
    (hb : b = true → ptr0.lookup_complete = true) (hp : ptr0.p = some pi)
    (hq : expand_fill ctx1 ptr0 pi = some ptr1) :
    uci_expand_ptr pf c p b = (uci_rc.UCI_OK, ctx1, ptr1, expand_elem ptr1) := by
  simp only [uci_expand_ptr, hr]
  have hcond : (b && !ptr0.lookup_complete) = false := by
    cases b with
    | false => rfl
    | true => simp [hb rfl]
  simp only [hcond, Bool.false_eq_true, if_false, hp, hq]

theorem handle_err_id (ctx : uci_context) (h : ctx.internal = false) :
    UCI_HANDLE_ERR ctx = ctx := by
  cases ctx
  simp only [UCI_HANDLE_ERR] at *
  rw [h]

theorem set_attach_attached (ctx : uci_context) (ptr : uci_ptr)
    (h : ptr.option.isSome = true → ptr.s.isSome = true → ptr.o.isSome = true) :
    set_attach ctx ptr = some ptr := by
  simp only [set_attach]
  split
  · next ho hs hopt _ =>
    have := h (by simp [hopt]) (by simp [hs])
    simp [ho] at this
  · rfl

/-- C12 (as stated, refuted). `uci_set` with the empty value on the pointer
`net.nosuch.opt`, whose section does not exist (the lookup is not complete):
the call throws `UCI_ERR_INVAL`, it does not return success. -/
theorem set_empty_value_missing_section :
    (uci_set example_platform example_context
        (example_ptr (some "nosuch") (some "opt") (some ""))).1 = uci_rc.UCI_ERR_INVAL ∧
    (uci_set example_platform example_context
        (example_ptr (some "nosuch") (some "opt") (some ""))).2.2.lookup_complete = false ∧
    (uci_set example_platform example_context
        (example_ptr (some "nosuch") (some "opt") (some ""))).2.1 = example_context := by
  decide

/-- C12 (amended). `uci_set` with the empty string as value, on a pointer the
resolver accepts (`ctx1`, `ptr1` are the context and the pointer as it leaves
them; `ctx1` differs from the context of the call by at most the package the
loader brought in).  If the lookup is not complete: with no section attached
and an option name given (or no section name) the call throws
`UCI_ERR_INVAL`; otherwise it returns `UCI_OK`; in both cases the context
stays `ctx1`, tree and delta list untouched.  If the lookup is complete (an
option that is named is attached) and the call is a tracked one
(`ctx->internal` clear): the call is the call of `uci_delete` on the same
pointer and context, code, context and pointer alike. -/
theorem set_empty_value (pf : uci_platform) (ctx ctx1 : uci_context) (ptr ptr1 : uci_ptr)
    (e : uci_type)
    (hexp : uci_expand_ptr pf (UCI_HANDLE_ERR ctx) ptr false = (uci_rc.UCI_OK, ctx1, ptr1, e))
    (hvalue : ptr1.value = some "") :
    (ctx1.root = ctx.root ∨
      ∃ name pkg, pf.uci_load name = some pkg ∧ ctx1.root = ctx.root ++ [pkg]) ∧
    (ptr1.lookup_complete = false →
      (ptr1.s = none → (ptr1.option.isSome = true ∨ ptr1.section_ = none) →
        uci_set pf ctx ptr = (uci_rc.UCI_ERR_INVAL, ctx1, ptr1)) ∧
      (∀ ptr2, (ptr1.s.isSome = true ∨ (ptr1.option = none ∧ ptr1.section_.isSome = true)) →
        set_attach ctx1 ptr1 = some ptr2 →
        uci_set pf ctx ptr = (uci_rc.UCI_OK, ctx1, ptr2))) ∧
    (ptr1.lookup_complete = true →
      (ptr1.option.isSome = true → ptr1.s.isSome = true → ptr1.o.isSome = true) →
      ctx.internal = false → uci_set pf ctx ptr = uci_delete pf ctx ptr) := by
  have hset : uci_set pf ctx ptr = set_body pf ctx.internal ctx1 ptr1 := by
    simp only [uci_set, hexp]
  have hroot := expand_ptr_root pf (UCI_HANDLE_ERR ctx) ptr false
  rw [hexp] at hroot
  refine ⟨hroot, ?_, ?_⟩
  · intro hc
    constructor
    · intro hs hor
      have hcond : (!(ptr1.s.isSome || (ptr1.option.isNone && ptr1.section_.isSome))) = true := by
        rcases hor with h | h
        · cases ho : ptr1.option with
          | none => simp [ho] at h
          | some n => simp [hs]
        · simp [hs, h]
      rw [hset]
      simp only [set_body, hvalue, hcond, if_true]
    · intro ptr2 hor hatt
      have hcond : (!(ptr1.s.isSome || (ptr1.option.isNone && ptr1.section_.isSome))) = false := by
        rcases hor with h | ⟨h1, h2⟩
        · simp [h]
        · simp [h1, h2]
      have hc2 : ptr2.lookup_complete = false := by
        simp only [set_attach] at hatt
        repeat' split at hatt
        all_goals first
          | (simp only [Option.some.injEq] at hatt; subst hatt; exact hc)
          | simp at hatt
      rw [hset]
      simp [set_body, hvalue, hcond, hatt, hc2]
  · intro hc hatt hint
    obtain ⟨ptr0, pi, hr, _, hp0, hq, he⟩ := expand_ptr_ok pf _ _ _ _ _ _ hexp
    have hf := expand_fill_fields ctx1 ptr0 ptr1 pi hq
    have hp1 : ptr1.p = some pi := by rw [hf.2.1, hp0]
    have hexpT : uci_expand_ptr pf (UCI_HANDLE_ERR ctx) ptr true =
        (uci_rc.UCI_OK, ctx1, ptr1, expand_elem ptr1) :=
      expand_ptr_of pf _ _ true ctx1 ptr0 ptr1 pi hr (fun _ => by rw [← hf.1]; exact hc) hp0 hq
    have hdel : uci_delete pf (UCI_HANDLE_ERR ctx) ptr =
        delete_body pf false ctx1 ptr1 (expand_elem ptr1) := by
      have h1 : UCI_HANDLE_ERR (UCI_HANDLE_ERR ctx) = UCI_HANDLE_ERR ctx := rfl
      have h2 : (UCI_HANDLE_ERR ctx).internal = false := rfl
      simp only [uci_delete, h1, h2, hexpT]
    have hint1 : ctx1.internal = false := by
      have h := expand_ptr_ctx pf (UCI_HANDLE_ERR ctx) ptr false
      rw [hexp] at h
      simp only at h
      rw [h]
      split
      · rfl
      · exact lookup_ptr_internal _ _ _ _
    have hdone : ptr1.lookup_done = true := by
      have h := expand_ptr_done pf (UCI_HANDLE_ERR ctx) ptr false
      rw [hexp] at h
      exact h rfl
    have hid := handle_err_id ctx1 hint1
    have hexp2 : uci_expand_ptr pf (UCI_HANDLE_ERR ctx1) ptr1 true =
        (uci_rc.UCI_OK, ctx1, ptr1, expand_elem ptr1) := by
      rw [hid]
      exact expand_ptr_of pf ctx1 ptr1 true ctx1 ptr1 ptr1 pi (by simp [hdone]) (fun _ => hc) hp1
        (expand_fill_idem ctx1 ctx1 ptr0 ptr1 pi hq rfl)
    have hdel2 : uci_delete pf ctx1 ptr1 = delete_body pf false ctx1 ptr1 (expand_elem ptr1) := by
      simp only [uci_delete, hexp2, hint1]
    have hmain : uci_set pf ctx ptr = uci_delete pf (UCI_HANDLE_ERR ctx) ptr := by
      rw [hset, hdel]
      by_cases hcond : (!(ptr1.s.isSome || (ptr1.option.isNone && ptr1.section_.isSome))) = true
      · have hs : ptr1.s = none := by
          cases h : ptr1.s with
          | none => rfl
          | some si => simp [h] at hcond
        have h1 : set_body pf ctx.internal ctx1 ptr1 = (uci_rc.UCI_ERR_INVAL, ctx1, ptr1) := by
          simp only [set_body, hvalue, hcond, if_true]
        rw [h1]
        simp only [delete_body, hp1, hs]
      · simp only [set_body, hvalue, hcond, if_false, set_attach_attached ctx1 ptr1 hatt]
        simp [hc, hdel2]
    rw [hmain, handle_err_id ctx hint]

theorem set_empty_value_witness :
    uci_set example_platform example_context
        (example_ptr (some "lan") (some "proto") (some "")) =
      uci_delete example_platform example_context
        (example_ptr (some "lan") (some "proto") (some "")) ∧
    uci_set example_platform example_context
        (example_ptr (some "lan") (some "mtu") (some "")) =
      (uci_rc.UCI_OK, example_context,
        example_ptr_section (some "lan") (some "mtu") (some "") 0 false) ∧
    uci_set example_platform example_context
        (example_ptr (some "nosuch") (some "opt") (some "")) =
      (uci_rc.UCI_ERR_INVAL, example_context,
        { example_ptr (some "nosuch") (some "opt") (some "") with
          lookup_done := true, p := some 0, last := some uci_type.UCI_TYPE_PACKAGE }) :=
  ⟨((set_empty_value example_platform example_context example_context
      (example_ptr (some "lan") (some "proto") (some ""))
      (example_ptr_resolved (some "lan") (some "proto") (some "") 0 0)
      uci_type.UCI_TYPE_OPTION (by decide) rfl).2.2 rfl (by decide)) rfl,
    ((set_empty_value example_platform example_context example_context
      (example_ptr (some "lan") (some "mtu") (some ""))
      (example_ptr_section (some "lan") (some "mtu") (some "") 0 false)
      uci_type.UCI_TYPE_SECTION (by decide) rfl).2.1 rfl).2 _ (Or.inl rfl) (by decide),
    ((set_empty_value example_platform example_context example_context
      (example_ptr (some "nosuch") (some "opt") (some ""))
      { example_ptr (some "nosuch") (some "opt") (some "") with
        lookup_done := true, p := some 0, last := some uci_type.UCI_TYPE_PACKAGE }
      uci_type.UCI_TYPE_PACKAGE (by decide) rfl).2.1 rfl).1 rfl (Or.inl rfl)⟩

end Uci
